import Mathlib

/-!
# Capability extraction and pipeline synthesis (fpv-jp/cli, `main.go`)

A shallow embedding of the pure part of `main.go`: the fraction parser, the
flattening of capability values, `extractModes`, the device fragment, and the builders
of the video and audio pipeline descriptions.

Modelling conventions.
* A Go `string` is a Lean `String`; byte sequences that are not valid UTF-8 are
  outside the model.
* A Go `int` is a 64-bit signed integer, carried as an `Int`; conversions from the
  unsigned types wrap modulo `2^64`.
* `fmt.Sprintf` with the verbs `%s` and `%d` is the concatenation of the pieces of the
  template with the arguments, `%d` being the decimal rendering `toString` of an `Int`.
* A Go result `(value, error)` is a pair whose second component is `none` when the
  error is `nil`.
* A `nil` slice and an empty slice are both the empty list.
* `strconv.Quote` follows the Go library; its table of printable code points above
  U+00FF is a parameter `printTable`.
-/

set_option autoImplicit false

namespace FpvCli

/-! ## Go library functions used by the program -/

/-- Go `unicode.IsSpace`: the Latin-1 spaces and the code points with the Unicode
White_Space property. -/
def isSpace (c : Char) : Bool :=
  let n := c.toNat
  (9 ≤ n && n ≤ 13) || n = 0x20 || n = 0x85 || n = 0xA0 || n = 0x1680 ||
    (0x2000 ≤ n && n ≤ 0x200A) || n = 0x2028 || n = 0x2029 || n = 0x202F ||
    n = 0x205F || n = 0x3000

/-- Go `strings.TrimSpace`: drops the leading and the trailing white space. -/
def TrimSpace (s : String) : String :=
  ⟨((s.data.dropWhile isSpace).reverse.dropWhile isSpace).reverse⟩

/-- Splitting of a character list at every occurrence of the separator `sep`; the
result always has one more part than there are separators. -/
def splitOnChar (sep : Char) : List Char → List (List Char)
  | [] => [[]]
  | c :: cs =>
    if c = sep then [] :: splitOnChar sep cs
    else
      match splitOnChar sep cs with
      | [] => [[c]]
      | p :: ps => (c :: p) :: ps

/-- Go `strings.Split(s, "/")`. -/
def splitSlash (s : String) : List String :=
  (splitOnChar '/' s.data).map String.mk

/-- Value of a list of decimal digits, most significant first. -/
def digitsValue (cs : List Char) : Nat :=
  cs.foldl (fun acc c => acc * 10 + (c.toNat - 48)) 0

/-- The errors that the program's parsing functions return. -/
inductive GoError where
  | atoiSyntaxErr
  | atoiRangeErr
  | invalidFraction
  deriving DecidableEq, Repr

/-- Go `strconv.Atoi` on a 64-bit platform: an optional sign `+` or `-`, then one or
more ASCII digits, the value within `[-2^63, 2^63 - 1]`. On an error the value is not
used by the program and is given as `0`. -/
def Atoi (s : String) : Int × Option GoError :=
  let signed : Bool × List Char :=
    match s.data with
    | '-' :: r => (true, r)
    | '+' :: r => (false, r)
    | r => (false, r)
  let neg := signed.1
  let body := signed.2
  if body.isEmpty || !body.all Char.isDigit then (0, some .atoiSyntaxErr)
  else
    let v := digitsValue body
    if neg then
      if v > 2 ^ 63 then (0, some .atoiRangeErr) else (-(v : Int), none)
    else
      if v ≥ 2 ^ 63 then (0, some .atoiRangeErr) else ((v : Int), none)

/-- The verb `%d` of `fmt.Sprintf` on an `int`. -/
def fmtInt (i : Int) : String := toString i

/-- Go conversion `int(v)` from an unsigned 64-bit value: wraps modulo `2^64`. -/
def wrapInt (v : Nat) : Int :=
  ((v : Int) + 2 ^ 63) % 2 ^ 64 - 2 ^ 63

/-! ## Data model -/

/-- The `Mode` struct. -/
structure Mode where
  Format : String
  Width : Int
  Height : Int
  Framerate : String
  deriving DecidableEq, Repr

/-- The dynamic values (`any`) that a capability structure can hold: the Go scalar
types that the extraction functions distinguish, `*gst.FractionValue`,
`*gst.ValueListValue`, `*gst.ValueArrayValue` (each possibly a nil pointer), and
any other value (`other`, which includes the untyped `nil`). -/
inductive Value where
  | str (s : String)
  | int (v : Int)
  | int32 (v : Int)
  | int64 (v : Int)
  | uint (v : Nat)
  | uint32 (v : Nat)
  | uint64 (v : Nat)
  | fraction (num denom : Int)
  | list (elems : List Value)
  | listNil
  | array (elems : List Value)
  | arrayNil
  | other

/-- A `gst.Structure`: a name and its fields in order. -/
structure Structure where
  name : String
  fields : List (String × Value)

/-- The method `Name` of a structure. -/
def Structure.Name (st : Structure) : String := st.name

/-- The method `GetValue` of a structure: `none` stands for its error result. -/
def Structure.GetValue (st : Structure) (key : String) : Option Value :=
  st.fields.lookup key

/-- A `gst.Caps`: the structures returned by `GetStructureAt` for the indices below
`GetSize`, `none` being a nil structure. -/
abbrev Caps := List (Option Structure)

/-! ## The fraction parser -/

/-- `parseFraction` of `main.go`. -/
def parseFraction (val : String) : String × Option GoError :=
  let parts := splitSlash (TrimSpace val)
  if parts.length ≠ 2 then ("", some .invalidFraction)
  else
    let num := Atoi (parts.getD 0 "")
    if num.2 ≠ none then ("", num.2)
    else
      let den := Atoi (parts.getD 1 "")
      if den.2 ≠ none || den.1 = 0 then ("", some .invalidFraction)
      else (fmtInt num.1 ++ "/" ++ fmtInt den.1, none)

/-! ## Flattening of capability values -/

/-- The method `String` of `*gst.FractionValue`. -/
def fractionString (num denom : Int) : String :=
  fmtInt num ++ "/" ++ fmtInt denom

/-- `getStructureValue` of `main.go`; a missing value is the untyped `nil`. -/
def getStructureValue (st : Option Structure) (key : String) : Value :=
  match st with
  | none => .other
  | some s =>
    match s.GetValue key with
    | none => .other
    | some v => v

mutual
/-- `extractStringValues` of `main.go`. -/
def extractStringValues : Value → List String
  | .str v => [v]
  | .list elems => extractStringValuesFrom elems
  | .array elems => extractStringValuesFrom elems
  | _ => []
/-- The loop of `extractFromValueList` and `extractFromValueArray` with
`extractStringValues` as the element function. -/
def extractStringValuesFrom : List Value → List String
  | [] => []
  | v :: rest => extractStringValues v ++ extractStringValuesFrom rest
end

mutual
/-- `extractIntValues` of `main.go`. -/
def extractIntValues : Value → List Int
  | .int v => [v]
  | .int32 v => [v]
  | .int64 v => [v]
  | .uint v => [wrapInt v]
  | .uint32 v => [(v : Int)]
  | .uint64 v => [wrapInt v]
  | .list elems => extractIntValuesFrom elems
  | .array elems => extractIntValuesFrom elems
  | _ => []
/-- The loop of `extractFromValueListInt` and `extractFromValueArrayInt` with
`extractIntValues` as the element function. -/
def extractIntValuesFrom : List Value → List Int
  | [] => []
  | v :: rest => extractIntValues v ++ extractIntValuesFrom rest
end

mutual
/-- `extractFractionValues` of `main.go`. -/
def extractFractionValues : Value → List String
  | .fraction num denom => [fractionString num denom]
  | .str v => if (parseFraction v).2 = none then [v] else []
  | .list elems => extractFractionValuesFrom elems
  | .array elems => extractFractionValuesFrom elems
  | _ => []
/-- The loop of `extractFromValueList` and `extractFromValueArray` with
`extractFractionValues` as the element function. -/
def extractFractionValuesFrom : List Value → List String
  | [] => []
  | v :: rest => extractFractionValues v ++ extractFractionValuesFrom rest
end

/-! ## extractModes -/

/-- The deduplication key `fmt.Sprintf("%s|%d|%d|%s", format, w, h, fr)`. -/
def modeKey (m : Mode) : String :=
  m.Format ++ "|" ++ fmtInt m.Width ++ "|" ++ fmtInt m.Height ++ "|" ++ m.Framerate

/-- The local variables `modes` and `seen` of `extractModes`. -/
structure ExtractState where
  modes : List Mode
  seen : List String

/-- The body of the innermost loop of `extractModes`; `Except.error` carries the
value of the early `return modes`. -/
def addMode (limit : Int) (st : ExtractState) (m : Mode) :
    Except (List Mode) ExtractState :=
  if modeKey m ∈ st.seen then .ok st
  else
    let modes := st.modes ++ [m]
    if (modes.length : Int) ≥ limit then .error modes
    else .ok ⟨modes, modeKey m :: st.seen⟩

/-- The body of the loop over the structures of `extractModes`. -/
def structureStep (limit : Int) (st : ExtractState) (s : Option Structure) :
    Except (List Mode) ExtractState :=
  match s with
  | none => .ok st
  | some s0 =>
    if s0.Name ≠ "video/x-raw" then .ok st
    else
      let formats := extractStringValues (getStructureValue s "format")
      let widths := extractIntValues (getStructureValue s "width")
      let heights := extractIntValues (getStructureValue s "height")
      let fps := extractFractionValues (getStructureValue s "framerate")
      if formats.length = 0 || widths.length = 0 || heights.length = 0 || fps.length = 0 then
        .ok st
      else
        formats.foldlM (fun st1 format =>
          widths.foldlM (fun st2 w =>
            heights.foldlM (fun st3 h =>
              fps.foldlM (fun st4 fr => addMode limit st4 ⟨format, w, h, fr⟩) st3) st2) st1) st

/-- `extractModes` of `main.go`; `caps = none` is the nil pointer. -/
def extractModes (caps : Option Caps) (limit : Int) : List Mode :=
  match caps with
  | none => []
  | some sts =>
    if sts.isEmpty then []
    else
      match sts.foldlM (structureStep limit) ⟨[], []⟩ with
      | .error modes => modes
      | .ok st => st.modes

/-! ## Enumerations -/

/-- The type `Codec` (a Go string type). -/
abbrev Codec := String
/-- Constant `CodecH264`. -/
def CodecH264 : Codec := "H264"
/-- Constant `CodecH265`. -/
def CodecH265 : Codec := "H265"
/-- Constant `CodecVP8`. -/
def CodecVP8 : Codec := "VP8"
/-- Constant `CodecVP9`. -/
def CodecVP9 : Codec := "VP9"
/-- Constant `CodecAV1`. -/
def CodecAV1 : Codec := "AV1"

/-- The type `LinuxH264Mode` (a Go string type). -/
abbrev LinuxH264Mode := String
/-- Constant `LinuxH264VAAPI`. -/
def LinuxH264VAAPI : LinuxH264Mode := "vaapi"
/-- Constant `LinuxH264RaspiV4L2`. -/
def LinuxH264RaspiV4L2 : LinuxH264Mode := "raspi-v4l2"
/-- Constant `LinuxH264Libcamera`. -/
def LinuxH264Libcamera : LinuxH264Mode := "libcamera"
/-- Constant `LinuxH264CameraH264`. -/
def LinuxH264CameraH264 : LinuxH264Mode := "camera-h264"

/-- The type `LinuxVariant` (a Go string type). -/
abbrev LinuxVariant := String
/-- Constant `LinuxGeneric`. -/
def LinuxGeneric : LinuxVariant := "generic"
/-- Constant `LinuxRaspi`. -/
def LinuxRaspi : LinuxVariant := "raspi"
/-- Constant `LinuxJetson`. -/
def LinuxJetson : LinuxVariant := "jetson"
/-- Constant `LinuxRock5`. -/
def LinuxRock5 : LinuxVariant := "rock5"

/-! ## Video pipeline builders -/

/-- `devicePropPrefix` of `main.go`. -/
def devicePropPrefix (deviceProp : String) : String :=
  if deviceProp = "" then "" else deviceProp ++ " "

/-- `buildDarwinVideoPipelineString` of `main.go`. -/
def buildDarwinVideoPipelineString (sourceName devicePrefix : String) (mode : Mode)
    (host : String) (port : Int) (codec : Codec) : String :=
  let caps := "video/x-raw,width=" ++ fmtInt mode.Width ++ ",height=" ++ fmtInt mode.Height ++
    ",framerate=" ++ mode.Framerate ++ ",format=" ++ mode.Format
  if codec = CodecH265 then
    sourceName ++ " do-stats=true do-timestamp=true " ++ devicePrefix ++ "! " ++ caps ++ " ! queue max-size-buffers=1 leaky=downstream ! vtenc_h265_hw realtime=true allow-frame-reordering=false ! h265parse ! rtph265pay config-interval=-1 aggregate-mode=zero-latency ! udpsink host=" ++ host ++ " port=" ++ fmtInt port ++ " sync=false async=false"
  else if codec = CodecVP8 then
    sourceName ++ " do-stats=true do-timestamp=true " ++ devicePrefix ++ "! video/x-raw,width=" ++ fmtInt mode.Width ++ ",height=" ++ fmtInt mode.Height ++ ",framerate=" ++ mode.Framerate ++ " ! videoconvert ! video/x-raw,format=I420 ! queue max-size-buffers=1 leaky=downstream ! vp8enc deadline=1 ! rtpvp8pay ! udpsink host=" ++ host ++ " port=" ++ fmtInt port ++ " sync=false async=false"
  else if codec = CodecVP9 then
    sourceName ++ " do-stats=true do-timestamp=true " ++ devicePrefix ++ "! video/x-raw,width=" ++ fmtInt mode.Width ++ ",height=" ++ fmtInt mode.Height ++ ",framerate=" ++ mode.Framerate ++ " ! videoconvert ! video/x-raw,format=I420 ! queue max-size-buffers=1 leaky=downstream ! vp9enc deadline=1 cpu-used=8 threads=4 lag-in-frames=0 ! vp9parse ! rtpvp9pay ! udpsink host=" ++ host ++ " port=" ++ fmtInt port ++ " sync=false async=false"
  else if codec = CodecAV1 then
    sourceName ++ " do-stats=true do-timestamp=true " ++ devicePrefix ++ "! video/x-raw,width=" ++ fmtInt mode.Width ++ ",height=" ++ fmtInt mode.Height ++ ",framerate=" ++ mode.Framerate ++ " ! videoconvert ! video/x-raw,format=I420 ! queue max-size-buffers=1 leaky=downstream ! svtav1enc ! av1parse ! rtpav1pay ! udpsink host=" ++ host ++ " port=" ++ fmtInt port ++ " sync=false async=false"
  else
    sourceName ++ " do-stats=true do-timestamp=true " ++ devicePrefix ++ "! " ++ caps ++ " ! queue max-size-buffers=1 leaky=downstream ! vtenc_h264_hw realtime=true ! h264parse ! rtph264pay config-interval=-1 aggregate-mode=zero-latency ! udpsink host=" ++ host ++ " port=" ++ fmtInt port ++ " sync=false async=false"

/-- `buildJetsonVideoPipelineString` of `main.go`. -/
def buildJetsonVideoPipelineString (sourceName devicePrefix : String) (mode : Mode)
    (host : String) (port : Int) (codec : Codec) : String :=
  if codec = CodecH265 then
    sourceName ++ " " ++ devicePrefix ++ "! video/x-raw(memory:NVMM),width=" ++ fmtInt mode.Width ++ ",height=" ++ fmtInt mode.Height ++ ",framerate=" ++ mode.Framerate ++ " ! queue max-size-buffers=1 leaky=downstream ! nvv4l2h265enc preset-level=3 profile=0 bitrate=30000000 ! capsfilter caps=video/x-h265,level=(string)4 ! queue max-size-buffers=3 leaky=downstream ! rtph265pay config-interval=1 aggregate-mode=zero-latency ! udpsink host=" ++ host ++ " port=" ++ fmtInt port ++ " sync=false async=false"
  else if codec = CodecVP8 then
    sourceName ++ " " ++ devicePrefix ++ "! video/x-raw(memory:NVMM),width=" ++ fmtInt mode.Width ++ ",height=" ++ fmtInt mode.Height ++ ",framerate=" ++ mode.Framerate ++ " ! queue max-size-buffers=1 leaky=downstream ! nvv4l2vp8enc bitrate=20000000 ! rtpvp8pay ! udpsink host=" ++ host ++ " port=" ++ fmtInt port ++ " sync=false async=false"
  else if codec = CodecVP9 then
    sourceName ++ " " ++ devicePrefix ++ "! video/x-raw(memory:NVMM),width=" ++ fmtInt mode.Width ++ ",height=" ++ fmtInt mode.Height ++ ",framerate=" ++ mode.Framerate ++ " ! queue max-size-buffers=1 leaky=downstream ! nvv4l2vp9enc bitrate=30000000 ! rtpvp9pay ! udpsink host=" ++ host ++ " port=" ++ fmtInt port ++ " sync=false async=false"
  else
    sourceName ++ " " ++ devicePrefix ++ "! video/x-raw(memory:NVMM),width=" ++ fmtInt mode.Width ++ ",height=" ++ fmtInt mode.Height ++ ",framerate=" ++ mode.Framerate ++ " ! queue max-size-buffers=1 leaky=downstream ! nvv4l2h264enc preset-level=3 profile=4 bitrate=20000000 ! capsfilter caps=video/x-h264,level=(string)4 ! queue max-size-buffers=3 leaky=downstream ! rtph264pay config-interval=-1 aggregate-mode=zero-latency ! udpsink host=" ++ host ++ " port=" ++ fmtInt port ++ " sync=false async=false"

/-- `buildLinuxH264PipelineString` of `main.go`. -/
def buildLinuxH264PipelineString (sourceName devicePrefix : String) (mode : Mode)
    (host : String) (port : Int) (linuxH264Mode : LinuxH264Mode) : String :=
  if linuxH264Mode = LinuxH264RaspiV4L2 then
    sourceName ++ " do-timestamp=true " ++ devicePrefix ++ "io-mode=dmabuf ! video/x-raw,width=" ++ fmtInt mode.Width ++ ",height=" ++ fmtInt mode.Height ++ ",framerate=" ++ mode.Framerate ++ ",format=NV12 ! queue max-size-buffers=1 leaky=downstream ! v4l2h264enc capture-io-mode=dmabuf output-io-mode=dmabuf ! capsfilter caps=video/x-h264,level=(string)4.1 ! queue max-size-buffers=3 leaky=downstream ! rtph264pay config-interval=-1 aggregate-mode=zero-latency ! udpsink host=" ++ host ++ " port=" ++ fmtInt port ++ " sync=false async=false"
  else if linuxH264Mode = LinuxH264Libcamera then
    "libcamerasrc " ++ devicePrefix ++ "! video/x-raw,width=" ++ fmtInt mode.Width ++ ",height=" ++ fmtInt mode.Height ++ ",framerate=" ++ mode.Framerate ++ ",format=YUY2,interlace-mode=progressive ! v4l2h264enc extra-controls=\"encode,h264_profile=4,h264_level=12,video_bitrate=20000000\" ! capsfilter caps=video/x-h264,level=(string)4.1 ! queue max-size-buffers=3 leaky=downstream ! rtph264pay config-interval=-1 aggregate-mode=zero-latency ! udpsink host=" ++ host ++ " port=" ++ fmtInt port ++ " sync=false async=false"
  else if linuxH264Mode = LinuxH264CameraH264 then
    sourceName ++ " do-timestamp=true " ++ devicePrefix ++ "! video/x-h264,width=" ++ fmtInt mode.Width ++ ",height=" ++ fmtInt mode.Height ++ ",framerate=" ++ mode.Framerate ++ ",stream-format=byte-stream ! queue max-size-buffers=1 leaky=downstream ! h264parse ! rtph264pay config-interval=-1 aggregate-mode=zero-latency ! udpsink host=" ++ host ++ " port=" ++ fmtInt port ++ " sync=false async=false"
  else
    sourceName ++ " do-timestamp=true " ++ devicePrefix ++ "io-mode=dmabuf ! vaapipostproc ! video/x-raw(memory:VASurface),format=NV12,width=" ++ fmtInt mode.Width ++ ",height=" ++ fmtInt mode.Height ++ ",framerate=" ++ mode.Framerate ++ " ! queue max-size-buffers=1 leaky=downstream ! vaapih264enc ! h264parse ! rtph264pay config-interval=-1 aggregate-mode=zero-latency ! udpsink host=" ++ host ++ " port=" ++ fmtInt port ++ " sync=false async=false"

/-- The part of `buildLinuxVideoPipelineString` after its dispatch on the variant: the
generic and raspi chains. -/
def buildLinuxGenericVideoPipelineString (sourceName devicePrefix : String) (mode : Mode)
    (host : String) (port : Int) (codec : Codec) (linuxH264Mode : LinuxH264Mode) : String :=
  if codec = CodecH264 then
    buildLinuxH264PipelineString sourceName devicePrefix mode host port linuxH264Mode
  else if codec = CodecH265 then
    sourceName ++ " do-timestamp=true " ++ devicePrefix ++ "io-mode=dmabuf ! vaapipostproc ! video/x-raw(memory:VASurface),format=NV12,width=" ++ fmtInt mode.Width ++ ",height=" ++ fmtInt mode.Height ++ ",framerate=" ++ mode.Framerate ++ " ! queue max-size-buffers=1 leaky=downstream ! vaapih265enc ! h265parse ! rtph265pay config-interval=-1 aggregate-mode=zero-latency ! udpsink host=" ++ host ++ " port=" ++ fmtInt port ++ " sync=false async=false"
  else if codec = CodecVP8 then
    sourceName ++ " do-timestamp=true " ++ devicePrefix ++ "io-mode=dmabuf ! video/x-raw,width=" ++ fmtInt mode.Width ++ ",height=" ++ fmtInt mode.Height ++ ",framerate=" ++ mode.Framerate ++ " ! videoconvert ! video/x-raw,format=I420 ! queue max-size-buffers=1 leaky=downstream ! vp8enc deadline=1 ! rtpvp8pay ! udpsink host=" ++ host ++ " port=" ++ fmtInt port ++ " sync=false async=false"
  else if codec = CodecVP9 then
    sourceName ++ " do-timestamp=true " ++ devicePrefix ++ "io-mode=dmabuf ! video/x-raw,width=" ++ fmtInt mode.Width ++ ",height=" ++ fmtInt mode.Height ++ ",framerate=" ++ mode.Framerate ++ " ! videoconvert ! video/x-raw,format=I420 ! queue max-size-buffers=1 leaky=downstream ! vp9enc deadline=1 cpu-used=4 ! vp9parse ! rtpvp9pay ! udpsink host=" ++ host ++ " port=" ++ fmtInt port ++ " sync=false async=false"
  else if codec = CodecAV1 then
    sourceName ++ " do-timestamp=true " ++ devicePrefix ++ "io-mode=dmabuf ! video/x-raw,width=" ++ fmtInt mode.Width ++ ",height=" ++ fmtInt mode.Height ++ ",framerate=" ++ mode.Framerate ++ " ! videoconvert ! video/x-raw,format=I420 ! queue max-size-buffers=1 leaky=downstream ! svtav1enc ! av1parse ! rtpav1pay ! udpsink host=" ++ host ++ " port=" ++ fmtInt port ++ " sync=false async=false"
  else
    buildLinuxH264PipelineString sourceName devicePrefix mode host port linuxH264Mode

/-- `buildRock5VideoPipelineString` of `main.go`. Its call of
`buildLinuxVideoPipelineString` with the variant `LinuxGeneric` passes both variant
tests of that function and so continues in the generic chains; the mutual recursion
of the source ends after this one re-entry. -/
def buildRock5VideoPipelineString (sourceName devicePrefix : String) (mode : Mode)
    (host : String) (port : Int) (codec : Codec) : String :=
  if codec = CodecH265 then
    sourceName ++ " " ++ devicePrefix ++ "! video/x-raw,width=" ++ fmtInt mode.Width ++ ",height=" ++ fmtInt mode.Height ++ ",framerate=" ++ mode.Framerate ++ ",format=YUY2 ! videoconvert ! video/x-raw,format=NV12 ! queue max-size-buffers=1 leaky=downstream ! mpph265enc ! rtph265pay config-interval=1 aggregate-mode=zero-latency ! udpsink host=" ++ host ++ " port=" ++ fmtInt port ++ " sync=false async=false"
  else if codec = CodecVP8 then
    sourceName ++ " " ++ devicePrefix ++ "! video/x-raw,width=" ++ fmtInt mode.Width ++ ",height=" ++ fmtInt mode.Height ++ ",framerate=" ++ mode.Framerate ++ ",format=YUY2 ! videoconvert ! video/x-raw,format=NV12 ! queue max-size-buffers=1 leaky=downstream ! mppvp8enc ! rtpvp8pay ! udpsink host=" ++ host ++ " port=" ++ fmtInt port ++ " sync=false async=false"
  else if codec = CodecVP9 ∨ codec = CodecAV1 then
    buildLinuxGenericVideoPipelineString sourceName devicePrefix mode host port codec LinuxH264VAAPI
  else
    sourceName ++ " " ++ devicePrefix ++ "! video/x-raw,width=" ++ fmtInt mode.Width ++ ",height=" ++ fmtInt mode.Height ++ ",framerate=" ++ mode.Framerate ++ ",format=YUY2 ! videoconvert ! video/x-raw,format=NV12 ! queue max-size-buffers=1 leaky=downstream ! mpph264enc level=40 profile=100 ! rtph264pay config-interval=-1 aggregate-mode=zero-latency ! udpsink host=" ++ host ++ " port=" ++ fmtInt port ++ " sync=false async=false"

/-- `buildLinuxVideoPipelineString` of `main.go`. -/
def buildLinuxVideoPipelineString (linuxVariant : LinuxVariant)
    (sourceName devicePrefix : String) (mode : Mode) (host : String) (port : Int)
    (codec : Codec) (linuxH264Mode : LinuxH264Mode) : String :=
  if linuxVariant = LinuxJetson then
    buildJetsonVideoPipelineString sourceName devicePrefix mode host port codec
  else if linuxVariant = LinuxRock5 then
    buildRock5VideoPipelineString sourceName devicePrefix mode host port codec
  else
    buildLinuxGenericVideoPipelineString sourceName devicePrefix mode host port codec
      linuxH264Mode

/-- `buildVideoPipelineString` of `main.go`. -/
def buildVideoPipelineString (platform : String) (linuxVariant : LinuxVariant)
    (sourceName deviceProp : String) (mode : Mode) (host : String) (port : Int)
    (codec : Codec) (linuxH264Mode : LinuxH264Mode) : String :=
  let devicePrefix := devicePropPrefix deviceProp
  if platform = "linux" then
    buildLinuxVideoPipelineString linuxVariant sourceName devicePrefix mode host port codec
      linuxH264Mode
  else
    buildDarwinVideoPipelineString sourceName devicePrefix mode host port codec

/-! ## Audio pipeline builders -/

/-- The type `AudioCodec` (a Go string type). -/
abbrev AudioCodec := String
/-- Constant `AudioOpus`. -/
def AudioOpus : AudioCodec := "OPUS"
/-- Constant `AudioPCMU`. -/
def AudioPCMU : AudioCodec := "PCMU"

/-- `buildDarwinAudioPipelineString` of `main.go`. -/
def buildDarwinAudioPipelineString (sourceName devicePrefix : String) (host : String)
    (port : Int) (codec : AudioCodec) : String :=
  if codec = AudioPCMU then
    sourceName ++ " " ++ devicePrefix ++ "do-timestamp=true ! audio/x-raw,rate=48000,channels=2 ! queue max-size-buffers=1 leaky=downstream ! audioconvert ! audioresample ! mulawenc ! rtppcmupay ! udpsink host=" ++ host ++ " port=" ++ fmtInt port ++ " sync=false async=false"
  else
    sourceName ++ " " ++ devicePrefix ++ "do-timestamp=true ! audio/x-raw,rate=48000,channels=2 ! queue max-size-buffers=1 leaky=downstream ! audioconvert ! audioresample ! opusenc ! rtpopuspay ! udpsink host=" ++ host ++ " port=" ++ fmtInt port ++ " sync=false async=false"

/-- `buildLinuxAudioPipelineString` of `main.go`. -/
def buildLinuxAudioPipelineString (sourceName devicePrefix : String) (host : String)
    (port : Int) (codec : AudioCodec) : String :=
  if codec = AudioPCMU then
    sourceName ++ " do-timestamp=true " ++ devicePrefix ++ "! audio/x-raw,rate=48000,channels=2 ! audioconvert ! audioresample ! queue max-size-buffers=1 leaky=downstream ! mulawenc ! rtppcmupay ! udpsink host=" ++ host ++ " port=" ++ fmtInt port ++ " sync=false async=false"
  else
    sourceName ++ " do-timestamp=true " ++ devicePrefix ++ "! audio/x-raw,rate=48000,channels=2 ! audioconvert ! audioresample ! queue max-size-buffers=1 leaky=downstream ! opusenc ! rtpopuspay ! udpsink host=" ++ host ++ " port=" ++ fmtInt port ++ " sync=false async=false"

/-- `buildAudioPipelineString` of `main.go`. -/
def buildAudioPipelineString (platform : String) (sourceName deviceProp : String)
    (host : String) (port : Int) (codec : AudioCodec) : String :=
  let devicePrefix := devicePropPrefix deviceProp
  if platform = "linux" then
    buildLinuxAudioPipelineString sourceName devicePrefix host port codec
  else
    buildDarwinAudioPipelineString sourceName devicePrefix host port codec

/-! ## The mutual calls of the Linux dispatcher and the Rock5 builder

`buildLinuxVideoPipelineString` calls `buildRock5VideoPipelineString`, which for VP9 and
AV1 calls `buildLinuxVideoPipelineString` again. The two functions below follow the source
call by call; `fuel` bounds the depth of the calls and `none` means that it ran out. -/

mutual
/-- `buildLinuxVideoPipelineString` of `main.go` with a bound on the depth of calls. -/
def linuxVideoCalls : Nat → LinuxVariant → String → String → Mode → String → Int → Codec →
    LinuxH264Mode → Option String
  | 0, _, _, _, _, _, _, _, _ => none
  | fuel + 1, linuxVariant, sourceName, devicePrefix, mode, host, port, codec, linuxH264Mode =>
    if linuxVariant = LinuxJetson then
      some (buildJetsonVideoPipelineString sourceName devicePrefix mode host port codec)
    else if linuxVariant = LinuxRock5 then
      rock5VideoCalls fuel sourceName devicePrefix mode host port codec
    else
      some (buildLinuxGenericVideoPipelineString sourceName devicePrefix mode host port codec
        linuxH264Mode)
/-- `buildRock5VideoPipelineString` of `main.go` with a bound on the depth of calls. -/
def rock5VideoCalls : Nat → String → String → Mode → String → Int → Codec → Option String
  | 0, _, _, _, _, _, _ => none
  | fuel + 1, sourceName, devicePrefix, mode, host, port, codec =>
    if codec = CodecH265 then
      some (sourceName ++ " " ++ devicePrefix ++ "! video/x-raw,width=" ++ fmtInt mode.Width ++ ",height=" ++ fmtInt mode.Height ++ ",framerate=" ++ mode.Framerate ++ ",format=YUY2 ! videoconvert ! video/x-raw,format=NV12 ! queue max-size-buffers=1 leaky=downstream ! mpph265enc ! rtph265pay config-interval=1 aggregate-mode=zero-latency ! udpsink host=" ++ host ++ " port=" ++ fmtInt port ++ " sync=false async=false")
    else if codec = CodecVP8 then
      some (sourceName ++ " " ++ devicePrefix ++ "! video/x-raw,width=" ++ fmtInt mode.Width ++ ",height=" ++ fmtInt mode.Height ++ ",framerate=" ++ mode.Framerate ++ ",format=YUY2 ! videoconvert ! video/x-raw,format=NV12 ! queue max-size-buffers=1 leaky=downstream ! mppvp8enc ! rtpvp8pay ! udpsink host=" ++ host ++ " port=" ++ fmtInt port ++ " sync=false async=false")
    else if codec = CodecVP9 ∨ codec = CodecAV1 then
      linuxVideoCalls fuel LinuxGeneric sourceName devicePrefix mode host port codec
        LinuxH264VAAPI
    else
      some (sourceName ++ " " ++ devicePrefix ++ "! video/x-raw,width=" ++ fmtInt mode.Width ++ ",height=" ++ fmtInt mode.Height ++ ",framerate=" ++ mode.Framerate ++ ",format=YUY2 ! videoconvert ! video/x-raw,format=NV12 ! queue max-size-buffers=1 leaky=downstream ! mpph264enc level=40 profile=100 ! rtph264pay config-interval=-1 aggregate-mode=zero-latency ! udpsink host=" ++ host ++ " port=" ++ fmtInt port ++ " sync=false async=false")
end

/-! ## Device properties -/

/-- Digit `n` of `0123456789abcdef`. -/
def lowerhex (n : Nat) : Char :=
  "0123456789abcdef".data.getD n '0'

/-- Go `strconv.IsPrint`: decided by ranges for the Latin-1 code points; above them Go
consults its tables of printable code points, which enter here as `printTable`. -/
def IsPrint (printTable : Char → Bool) (r : Char) : Bool :=
  let n := r.toNat
  if n ≤ 0xFF then
    if 0x20 ≤ n && n ≤ 0x7E then true
    else if 0xA1 ≤ n && n ≤ 0xFF then n != 0xAD
    else false
  else printTable r

/-- The escaping of one character by `strconv.Quote` (`appendEscapedRune` with the quote
`"`): the quote and the backslash get a backslash, a printable character stands for
itself, and every other character is written as a Go escape sequence. -/
def appendEscapedRune (printTable : Char → Bool) (r : Char) : List Char :=
  let n := r.toNat
  if r = '"' ∨ r = '\\' then ['\\', r]
  else if IsPrint printTable r then [r]
  else if n = 7 then ['\\', 'a']
  else if n = 8 then ['\\', 'b']
  else if n = 12 then ['\\', 'f']
  else if n = 10 then ['\\', 'n']
  else if n = 13 then ['\\', 'r']
  else if n = 9 then ['\\', 't']
  else if n = 11 then ['\\', 'v']
  else if n < 0x20 ∨ n = 0x7F then ['\\', 'x', lowerhex (n / 16), lowerhex (n % 16)]
  else if n < 0x10000 then
    ['\\', 'u', lowerhex (n / 4096 % 16), lowerhex (n / 256 % 16), lowerhex (n / 16 % 16),
      lowerhex (n % 16)]
  else
    ['\\', 'U', lowerhex (n / 268435456 % 16), lowerhex (n / 16777216 % 16),
      lowerhex (n / 1048576 % 16), lowerhex (n / 65536 % 16), lowerhex (n / 4096 % 16),
      lowerhex (n / 256 % 16), lowerhex (n / 16 % 16), lowerhex (n % 16)]

/-- Go `strconv.Quote`: the escaped characters of the text between two double quotes. -/
def Quote (printTable : Char → Bool) (s : String) : String :=
  ⟨'"' :: (s.data.flatMap (appendEscapedRune printTable) ++ ['"'])⟩

/-- A `*gst.Device` as `buildDeviceProperty` reads it: the map `GetProperties().Values()`,
or `none` when `GetProperties()` is nil. -/
structure Device where
  properties : Option (List (String × Value))

/-- `stringProp` of `main.go`. -/
def stringProp (values : List (String × Value)) (key : String) : String :=
  match values.lookup key with
  | some (.str s) => if s ≠ "" then s else ""
  | _ => ""

/-- `toInt` of `main.go`. -/
def toInt (val : Value) : Int × Bool :=
  match val with
  | .int v => (v, true)
  | .int32 v => (v, true)
  | .int64 v => (v, true)
  | .uint v => (wrapInt v, true)
  | .uint32 v => ((v : Int), true)
  | .uint64 v => (wrapInt v, true)
  | _ => (0, false)

/-- `intProp` of `main.go`. -/
def intProp (values : List (String × Value)) (key : String) : Int :=
  match values.lookup key with
  | some v => if (toInt v).2 then (toInt v).1 else -1
  | none => -1

/-- `buildDeviceProperty` of `main.go`; `device = none` is the nil pointer. -/
def buildDeviceProperty (printTable : Char → Bool) (device : Option Device) : String :=
  match device with
  | none => ""
  | some dev =>
    match dev.properties with
    | none => ""
    | some values =>
      if stringProp values "device" ≠ "" then
        "device=" ++ Quote printTable (stringProp values "device")
      else if stringProp values "path" ≠ "" then
        "device=" ++ Quote printTable (stringProp values "path")
      else if stringProp values "target-object" ≠ "" then
        "target-object=" ++ Quote printTable (stringProp values "target-object")
      else if stringProp values "node.id" ≠ "" then
        "target-object=" ++ Quote printTable (stringProp values "node.id")
      else if intProp values "device-index" ≥ 0 then
        "device-index=" ++ fmtInt (intProp values "device-index")
      else ""

/-! ## Definitions used to state the properties -/

/-- Whether a structure qualifies for `extractModes`: it is present, its name is
`video/x-raw`, and each of the four keys flattens to at least one candidate. -/
def qualifies (s : Option Structure) : Bool :=
  match s with
  | none => false
  | some s0 =>
    s0.Name = "video/x-raw" &&
    !(extractStringValues (getStructureValue s "format")).isEmpty &&
    !(extractIntValues (getStructureValue s "width")).isEmpty &&
    !(extractIntValues (getStructureValue s "height")).isEmpty &&
    !(extractFractionValues (getStructureValue s "framerate")).isEmpty

/-- The cross-product of four candidate lists, format outermost and framerate
innermost. -/
def crossProduct (formats : List String) (widths heights : List Int) (fps : List String) :
    List Mode :=
  formats.flatMap fun format =>
    widths.flatMap fun w =>
      heights.flatMap fun h =>
        fps.map fun fr => (⟨format, w, h, fr⟩ : Mode)

/-- The combinations of one structure: the cross-product of its flattened fields when it
qualifies, nothing otherwise. -/
def structureModes (s : Option Structure) : List Mode :=
  if qualifies s then
    crossProduct (extractStringValues (getStructureValue s "format"))
      (extractIntValues (getStructureValue s "width"))
      (extractIntValues (getStructureValue s "height"))
      (extractFractionValues (getStructureValue s "framerate"))
  else []

/-- All combinations of a capability set, over its structures in encounter order. -/
def candidateModes (caps : Caps) : List Mode :=
  caps.flatMap structureModes

/-- Keeps the first occurrence of each mode of a list, in the order of the list. -/
def keepFirst (ms : List Mode) : List Mode :=
  ms.foldl (fun acc m => if m ∈ acc then acc else acc ++ [m]) []

/-- The loop of `extractModes` run over a list of combinations from a given state,
followed by its `return modes`. -/
def runModes (limit : Int) (ms : List Mode) (st : ExtractState) : List Mode :=
  match ms.foldlM (addMode limit) st with
  | .error modes => modes
  | .ok st1 => st1.modes

/-- The state of the loop is consistent: `seen` holds exactly the keys of `modes`, and
no two entries of `modes` have the same key. -/
def ExtractState.consistent (st : ExtractState) : Prop :=
  (∀ k, k ∈ st.seen ↔ k ∈ st.modes.map modeKey) ∧ (st.modes.map modeKey).Nodup

/-- The regular expression `^-?\d+/\d+$`: exactly one `/`, before it an optional `-`
and one or more ASCII digits, after it one or more ASCII digits. -/
def matchesFramerateRe (s : String) : Bool :=
  match splitOnChar '/' s.data with
  | [num, den] =>
    let body := match num with
      | '-' :: r => r
      | r => r
    !body.isEmpty && body.all Char.isDigit && !den.isEmpty && den.all Char.isDigit
  | _ => false

/-- The value of the denominator of a text of the form `<num>/<den>`. -/
def framerateDenominator (s : String) : Nat :=
  match splitOnChar '/' s.data with
  | [_, den] => digitsValue den
  | _ => 0

/-- The invariant that the data model states for a `Mode`. -/
def modeInvariant (m : Mode) : Prop :=
  0 < m.Width ∧ 0 < m.Height ∧ matchesFramerateRe m.Framerate = true ∧
    framerateDenominator m.Framerate ≠ 0

/-- The range of a Go `int` on a 64-bit platform. -/
def inIntRange (i : Int) : Prop := -(2 ^ 63) ≤ i ∧ i < 2 ^ 63

/-- Number of positions of the text `s` at which the pattern `p` starts. -/
def occurrencesIn (p : List Char) : List Char → Nat
  | [] => if p.isPrefixOf [] then 1 else 0
  | c :: cs => (if p.isPrefixOf (c :: cs) then 1 else 0) + occurrencesIn p cs

/-- The last character of a text lies outside the pattern `p`. -/
def endsOutside (p : List Char) (l : List Char) : Bool :=
  match l.getLast? with
  | some c => !p.contains c
  | none => false

/-- The first character of a text lies outside the pattern `p`. -/
def startsOutside (p : List Char) (l : List Char) : Bool :=
  match l with
  | c :: _ => !p.contains c
  | [] => false

/-- The pattern `p` holds a character that no `%d` rendering holds. -/
def outsideDecimal (p : List Char) : Bool :=
  p.any fun c => !c.isDigit && c != '-'

/-- Number of occurrences of the text `p` in the text `s`. -/
def occurrences (p s : String) : Nat := occurrencesIn p.data s.data

/-- The text `p` occurs in the text `s`. -/
def containsText (s p : String) : Prop := p.data <:+: s.data

/-- The text `s` ends with the text `p`. -/
def endsWith (s p : String) : Prop := p.data <:+ s.data

/-- The network sink stage for a host and a port. -/
def udpsinkStage (host : String) (port : Int) : String :=
  "udpsink host=" ++ host ++ " port=" ++ fmtInt port ++ " sync=false async=false"

/-- The text `out` ends with the connector and the sink stage for `host` and `port`, and,
when none of the given texts holds `udpsink`, holds `udpsink` exactly once. -/
def sinkProperty (out sourceName deviceProp : String) (mode : Mode) (host : String)
    (port : Int) : Prop :=
  endsWith out (" ! " ++ udpsinkStage host port) ∧
    (occurrencesIn "udpsink".data sourceName.data = 0 →
      occurrencesIn "udpsink".data deviceProp.data = 0 →
      occurrencesIn "udpsink".data mode.Format.data = 0 →
      occurrencesIn "udpsink".data mode.Framerate.data = 0 →
      occurrencesIn "udpsink".data host.data = 0 →
      occurrencesIn "udpsink".data out.data = 1)

/-- The stages of a pipeline description, with `skip` characters of a connector still
to be passed over. -/
def splitStagesAux : Nat → List Char → List (List Char)
  | _, [] => [[]]
  | skip + 1, _ :: cs => splitStagesAux skip cs
  | 0, c :: cs =>
    if (" ! ".data).isPrefixOf (c :: cs) then [] :: splitStagesAux 2 cs
    else
      match splitStagesAux 0 cs with
      | [] => [[c]]
      | p :: ps => (c :: p) :: ps

/-- The stages of a pipeline description: its parts between the connectors ` ! `. -/
def splitStages (s : String) : List String :=
  (splitStagesAux 0 s.data).map String.mk

/-- The stage immediately before the last stage of a pipeline description. -/
def stageBeforeLast (s : String) : Option String :=
  (splitStages s).reverse.get? 1

/-- The element name of a stage: its text up to the first space. -/
def elementName (stage : String) : String :=
  ⟨stage.data.takeWhile (fun c => c ≠ ' ')⟩

/-! ## Definitions used to state the properties of the device fragment -/

/-- The precedence list of the device properties. -/
def devicePropertyKeys : List String :=
  ["device", "path", "target-object", "node.id", "device-index"]

/-- A device property is present in the sense of the precedence list: a string property
holds a non-empty string, the property `device-index` an integer that is not negative. -/
def propertyPresent (values : List (String × Value)) (key : String) : Bool :=
  if key = "device-index" then decide (intProp values key ≥ 0)
  else decide (stringProp values key ≠ "")

/-- The non-empty string that the property mapping holds under a key: `none` when the key
is missing, when its value is not a string, and when its value is the empty string. -/
def usableString (values : List (String × Value)) (key : String) : Option String :=
  match values.lookup key with
  | some (.str s) => if s = "" then none else some s
  | _ => none

/-- The integer that the property mapping holds under a key, as a Go `int`, when it is not
negative: `none` when the key is missing, when its value has none of the six integer
types, and when the integer is negative. -/
def usableInt (values : List (String × Value)) (key : String) : Option Int :=
  match values.lookup key with
  | some (.int v) => if 0 ≤ v then some v else none
  | some (.int32 v) => if 0 ≤ v then some v else none
  | some (.int64 v) => if 0 ≤ v then some v else none
  | some (.uint v) => if 0 ≤ wrapInt v then some (wrapInt v) else none
  | some (.uint32 v) => some (v : Int)
  | some (.uint64 v) => if 0 ≤ wrapInt v then some (wrapInt v) else none
  | _ => none

/-- The fragment of one property of the precedence list when that property is present in
the mapping: `device=<q>` for `device` and `path`, `target-object=<q>` for `target-object`
and `node.id`, with the quoted non-empty string, and `device-index=<n>` for `device-index`
with its integer that is not negative. -/
def presentFragment (printTable : Char → Bool) (values : List (String × Value))
    (key : String) : Option String :=
  if key = "device" ∨ key = "path" then
    (usableString values key).map fun s => "device=" ++ Quote printTable s
  else if key = "target-object" ∨ key = "node.id" then
    (usableString values key).map fun s => "target-object=" ++ Quote printTable s
  else if key = "device-index" then
    (usableInt values key).map fun i => "device-index=" ++ fmtInt i
  else none

/-- The value between double quotes with a backslash before every double quote and
backslash, and nothing else changed. -/
def quoteSimple (s : String) : String :=
  ⟨'"' :: (s.data.flatMap (fun c => if c = '"' ∨ c = '\\' then ['\\', c] else [c]) ++ ['"'])⟩

/-! ## Definitions used to state the spacing of a pipeline description -/

/-- The states of a reader of a pipeline description: at the start, inside a token,
after one space, after a space and `!`, after a connector ` ! `, and failed. -/
inductive LexState where
  | start
  | word
  | space
  | bang
  | bangSpace
  | dead
  deriving DecidableEq, Repr

/-- One step of the reader. -/
def lexStep (s : LexState) (c : Char) : LexState :=
  if c = ' ' then
    match s with
    | .word => .space
    | .bang => .bangSpace
    | _ => .dead
  else if c = '!' then
    match s with
    | .space => .bang
    | _ => .dead
  else
    match s with
    | .start => .word
    | .word => .word
    | .space => .word
    | .bangSpace => .word
    | _ => .dead

/-- The reader run over a text. -/
def lexRun (s : LexState) (l : List Char) : LexState :=
  l.foldl lexStep s

/-- The states in which a token may begin or continue. -/
def tokenStart (s : LexState) : Bool :=
  match s with
  | .start => true
  | .word => true
  | .space => true
  | .bangSpace => true
  | _ => false

/-- The stages joined by the connector ` ! `. -/
def joinStages : List (List Char) → List Char
  | [] => []
  | [x] => x
  | x :: y :: rest => x ++ ' ' :: '!' :: ' ' :: joinStages (y :: rest)

/-- A text without spaces and `!`. -/
def cleanText (s : String) : Prop := ' ' ∉ s.data ∧ '!' ∉ s.data

/-- The spacing of a pipeline description: no leading and no trailing space, no two
consecutive spaces, exactly one space on each side of every `!`, and the text is its
stages, none of them empty, joined by ` ! `. -/
def wellSpaced (out : String) : Prop :=
  out.data.head? ≠ some ' ' ∧ out.data.getLast? ≠ some ' ' ∧
    ¬ [' ', ' '] <:+: out.data ∧
    (∀ pre post, out.data = pre ++ '!' :: post →
      pre.getLast? = some ' ' ∧ post.head? = some ' ') ∧
    (∀ st ∈ splitStagesAux 0 out.data, st ≠ []) ∧
    joinStages (splitStagesAux 0 out.data) = out.data

/-- The spacing property of one output: it is well spaced, and a non-empty device
fragment occurs in it followed by a space. -/
def spacingProperty (out deviceProp : String) : Prop :=
  wellSpaced out ∧ (deviceProp ≠ "" → (deviceProp.data ++ [' ']) <:+: out.data)

/-- The reader accepts the output, and a non-empty device fragment occurs in it followed
by a space. -/
def readerProperty (out deviceProp : String) : Prop :=
  lexRun .start out.data = .word ∧ (deviceProp ≠ "" → (deviceProp.data ++ [' ']) <:+: out.data)

/-! ## Definitions used to state the properties of the stages and of the limit -/

/-- The text `s` starts with the text `p`. -/
def startsWith (s p : String) : Prop := p.data <+: s.data

/-- The source element of a pipeline description: the element name of its first stage. -/
def sourceElement (out : String) : String :=
  elementName ((splitStages out).headD "")

/-- The first `n` entries of a list of modes, or all of them when there are fewer. -/
def firstEntries (n : Int) (modes : List Mode) : List Mode :=
  modes.take n.toNat

/-! ## Definitions used to state the properties of the flattening -/

/-- The value is a list or an array (a nil pointer of these types included). -/
def Value.isContainer : Value → Bool
  | .list _ => true
  | .listNil => true
  | .array _ => true
  | .arrayNil => true
  | _ => false

/-- The value is a string. -/
def Value.isStringScalar : Value → Bool
  | .str _ => true
  | _ => false

/-- The value has one of the six integer types. -/
def Value.isIntScalar : Value → Bool
  | .int _ => true
  | .int32 _ => true
  | .int64 _ => true
  | .uint _ => true
  | .uint32 _ => true
  | .uint64 _ => true
  | _ => false

/-- The value is a fraction value. -/
def Value.isFractionScalar : Value → Bool
  | .fraction _ _ => true
  | _ => false

/-- The caps text `video/x-raw,width=W,height=H,framerate=F` of a mode, without its
format. -/
def rawCaps (mode : Mode) : String :=
  "video/x-raw,width=" ++ fmtInt mode.Width ++ ",height=" ++ fmtInt mode.Height ++
    ",framerate=" ++ mode.Framerate


/-! ## The loop of extractModes as one pass over the candidate list -/

/-- A loop with early exit over a flattened list is the nested loop. -/
theorem foldlM_flatMap_except {α β σ ε : Type} (g : α → List β) (f : σ → β → Except ε σ) :
    ∀ (l : List α) (s : σ),
      (l.flatMap g).foldlM f s = l.foldlM (fun s1 a => (g a).foldlM f s1) s := by
  intro l
  induction l with
  | nil => intro s; rfl
  | cons a l ih =>
    intro s
    simp only [List.flatMap_cons, List.foldlM_append, List.foldlM_cons]
    congr 1
    funext s1
    exact ih s1

/-- A loop with early exit over a mapped list. -/
theorem foldlM_map_except {α β σ ε : Type} (g : α → β) (f : σ → β → Except ε σ) :
    ∀ (l : List α) (s : σ),
      (l.map g).foldlM f s = l.foldlM (fun s1 a => f s1 (g a)) s := by
  intro l
  induction l with
  | nil => intro s; rfl
  | cons a l ih =>
    intro s
    simp only [List.map_cons, List.foldlM_cons]
    congr 1
    funext s1
    exact ih s1

/-- The four nested loops of `extractModes` are one loop over the cross-product. -/
theorem crossProduct_foldlM (limit : Int) (formats : List String) (widths heights : List Int)
    (fps : List String) (st : ExtractState) :
    (crossProduct formats widths heights fps).foldlM (addMode limit) st =
      formats.foldlM (fun st1 format =>
        widths.foldlM (fun st2 w =>
          heights.foldlM (fun st3 h =>
            fps.foldlM (fun st4 fr => addMode limit st4 ⟨format, w, h, fr⟩) st3) st2) st1) st := by
  unfold crossProduct
  rw [foldlM_flatMap_except]
  congr 1; funext st1 format
  rw [foldlM_flatMap_except]
  congr 1; funext st2 w
  rw [foldlM_flatMap_except]
  congr 1; funext st3 h
  rw [foldlM_map_except]

/-- The body of the loop over the structures is one loop over the combinations of the
structure. -/
theorem structureStep_eq (limit : Int) (st : ExtractState) (s : Option Structure) :
    structureStep limit st s = (structureModes s).foldlM (addMode limit) st := by
  cases s with
  | none => rfl
  | some s0 =>
    unfold structureStep structureModes qualifies
    by_cases hn : s0.Name = "video/x-raw"
    · simp only [hn, ne_eq, not_true_eq_false, if_false, decide_True, Bool.true_and]
      by_cases hq : ((extractStringValues (getStructureValue (some s0) "format")).length = 0
          || (extractIntValues (getStructureValue (some s0) "width")).length = 0
          || (extractIntValues (getStructureValue (some s0) "height")).length = 0
          || (extractFractionValues (getStructureValue (some s0) "framerate")).length = 0) = true
      · rw [if_pos hq]
        have : ¬ ((!(extractStringValues (getStructureValue (some s0) "format")).isEmpty &&
          !(extractIntValues (getStructureValue (some s0) "width")).isEmpty &&
          !(extractIntValues (getStructureValue (some s0) "height")).isEmpty &&
          !(extractFractionValues (getStructureValue (some s0) "framerate")).isEmpty) = true) := by
          simp only [Bool.or_eq_true, decide_eq_true_eq, List.length_eq_zero] at hq
          simp only [Bool.and_eq_true, Bool.not_eq_true', List.isEmpty_eq_false]
          tauto
        rw [if_neg this]
        rfl
      · rw [if_neg hq]
        have : ((!(extractStringValues (getStructureValue (some s0) "format")).isEmpty &&
          !(extractIntValues (getStructureValue (some s0) "width")).isEmpty &&
          !(extractIntValues (getStructureValue (some s0) "height")).isEmpty &&
          !(extractFractionValues (getStructureValue (some s0) "framerate")).isEmpty) = true) := by
          simp only [Bool.or_eq_true, decide_eq_true_eq, List.length_eq_zero, not_or] at hq
          simp only [Bool.and_eq_true, Bool.not_eq_true', List.isEmpty_eq_false]
          tauto
        rw [if_pos this, crossProduct_foldlM]
    · simp [hn]
      rfl

/-- The loop over the structures is one loop over all combinations. -/
theorem foldlM_structureStep (limit : Int) :
    ∀ (sts : List (Option Structure)) (st : ExtractState),
      sts.foldlM (structureStep limit) st = (candidateModes sts).foldlM (addMode limit) st := by
  intro sts st
  unfold candidateModes
  rw [foldlM_flatMap_except]
  congr 1
  funext s1 a
  exact structureStep_eq limit s1 a


theorem extractModes_eq_runModes (sts : Caps) (limit : Int) :
    extractModes (some sts) limit = runModes limit (candidateModes sts) ⟨[], []⟩ := by
  unfold extractModes runModes
  cases sts with
  | nil => rfl
  | cons s rest =>
    simp only [List.isEmpty_cons, Bool.false_eq_true, if_false]
    rw [foldlM_structureStep]

theorem runModes_nil (limit : Int) (st : ExtractState) : runModes limit [] st = st.modes := rfl

theorem runModes_cons_seen (limit : Int) (m : Mode) (ms : List Mode) (st : ExtractState)
    (h : modeKey m ∈ st.seen) : runModes limit (m :: ms) st = runModes limit ms st := by
  unfold runModes
  simp only [List.foldlM_cons, addMode, h, if_true]
  rfl

theorem runModes_cons_full (limit : Int) (m : Mode) (ms : List Mode) (st : ExtractState)
    (h : modeKey m ∉ st.seen) (hl : limit ≤ ((st.modes ++ [m]).length : Int)) :
    runModes limit (m :: ms) st = st.modes ++ [m] := by
  unfold runModes
  simp only [List.foldlM_cons, addMode, h, if_false, ge_iff_le, hl, if_true]
  rfl

theorem runModes_cons_more (limit : Int) (m : Mode) (ms : List Mode) (st : ExtractState)
    (h : modeKey m ∉ st.seen) (hl : ¬ limit ≤ ((st.modes ++ [m]).length : Int)) :
    runModes limit (m :: ms) st =
      runModes limit ms ⟨st.modes ++ [m], modeKey m :: st.seen⟩ := by
  unfold runModes
  simp only [List.foldlM_cons, addMode, h, if_false, ge_iff_le, hl]
  rfl

theorem consistent_push (st : ExtractState) (m : Mode) (hc : st.consistent)
    (h : modeKey m ∉ st.seen) :
    ExtractState.consistent ⟨st.modes ++ [m], modeKey m :: st.seen⟩ := by
  obtain ⟨h1, h2⟩ := hc
  constructor
  · intro k
    simp only [List.mem_cons, List.map_append, List.map_cons, List.map_nil, List.mem_append,
      List.mem_singleton, h1 k]
    tauto
  · simp only [List.map_append, List.map_cons, List.map_nil]
    rw [List.nodup_append]
    refine ⟨h2, List.nodup_singleton _, ?_⟩
    intro a ha hb
    simp only [List.mem_singleton] at hb
    subst hb
    exact h ((h1 _).mpr ha)

theorem runModes_keys_nodup (limit : Int) :
    ∀ (ms : List Mode) (st : ExtractState), st.consistent →
      ((runModes limit ms st).map modeKey).Nodup := by
  intro ms
  induction ms with
  | nil => intro st hc; exact hc.2
  | cons m ms ih =>
    intro st hc
    by_cases h : modeKey m ∈ st.seen
    · rw [runModes_cons_seen limit m ms st h]; exact ih st hc
    · by_cases hl : limit ≤ ((st.modes ++ [m]).length : Int)
      · rw [runModes_cons_full limit m ms st h hl]
        exact (consistent_push st m hc h).2
      · rw [runModes_cons_more limit m ms st h hl]
        exact ih _ (consistent_push st m hc h)

theorem runModes_subset (limit : Int) :
    ∀ (ms : List Mode) (st : ExtractState) (x : Mode),
      x ∈ runModes limit ms st → x ∈ st.modes ∨ x ∈ ms := by
  intro ms
  induction ms with
  | nil => intro st x hx; exact Or.inl hx
  | cons m ms ih =>
    intro st x hx
    by_cases h : modeKey m ∈ st.seen
    · rw [runModes_cons_seen limit m ms st h] at hx
      rcases ih st x hx with h1 | h1
      · exact Or.inl h1
      · exact Or.inr (List.mem_cons_of_mem _ h1)
    · by_cases hl : limit ≤ ((st.modes ++ [m]).length : Int)
      · rw [runModes_cons_full limit m ms st h hl] at hx
        simp only [List.mem_append, List.mem_singleton] at hx
        rcases hx with h1 | h1
        · exact Or.inl h1
        · exact Or.inr (h1 ▸ List.mem_cons_self _ _)
      · rw [runModes_cons_more limit m ms st h hl] at hx
        rcases ih _ x hx with h1 | h1
        · simp only [List.mem_append, List.mem_singleton] at h1
          rcases h1 with h2 | h2
          · exact Or.inl h2
          · exact Or.inr (h2 ▸ List.mem_cons_self _ _)
        · exact Or.inr (List.mem_cons_of_mem _ h1)

theorem consistent_init : ExtractState.consistent ⟨[], []⟩ := by
  constructor
  · intro k; simp
  · simp

theorem extractModes_nodup_all (caps : Option Caps) (limit : Int) :
    (extractModes caps limit).Nodup := by
  cases caps with
  | none => exact List.nodup_nil
  | some sts =>
    rw [extractModes_eq_runModes]
    exact List.Nodup.of_map _ (runModes_keys_nodup limit _ _ consistent_init)


/-! ## Decimal rendering and parsing of integers -/

theorem digitChar_spec (d : Nat) (h : d < 10) :
    (Nat.digitChar d).isDigit = true ∧ (Nat.digitChar d).toNat - 48 = d := by
  interval_cases d <;> decide

theorem digitsValue_append_single (pre : List Char) (d : Char) :
    digitsValue (pre ++ [d]) = digitsValue pre * 10 + (d.toNat - 48) := by
  simp [digitsValue, List.foldl_append]

theorem toDigitsCore_spec :
    ∀ (fuel n : Nat) (ds : List Char), n < fuel →
      ∃ pre : List Char, Nat.toDigitsCore 10 fuel n ds = pre ++ ds ∧ pre ≠ [] ∧
        (∀ c ∈ pre, c.isDigit = true) ∧ digitsValue pre = n := by
  intro fuel
  induction fuel with
  | zero => intro n ds h; omega
  | succ fuel ih =>
    intro n ds h
    unfold Nat.toDigitsCore
    have hd := digitChar_spec (n % 10) (Nat.mod_lt _ (by decide))
    by_cases h0 : n / 10 = 0
    · refine ⟨[Nat.digitChar (n % 10)], ?_, ?_, ?_, ?_⟩
      · simp [h0]
      · simp
      · intro c hc
        simp only [List.mem_singleton] at hc
        subst hc; exact hd.1
      · have : digitsValue [Nat.digitChar (n % 10)] = (Nat.digitChar (n % 10)).toNat - 48 := by
          simp [digitsValue]
        rw [this, hd.2]
        omega
    · have hlt : n / 10 < fuel := by omega
      obtain ⟨pre, h1, _, h3, h4⟩ := ih (n / 10) (Nat.digitChar (n % 10) :: ds) hlt
      refine ⟨pre ++ [Nat.digitChar (n % 10)], ?_, ?_, ?_, ?_⟩
      · simp only [h0, if_false]
        rw [h1]
        simp
      · simp
      · intro c hc
        simp only [List.mem_append, List.mem_singleton] at hc
        rcases hc with hc | hc
        · exact h3 c hc
        · subst hc; exact hd.1
      · rw [digitsValue_append_single, h4, hd.2]
        omega

/-- The digits of the rendering of a natural number. -/
theorem natRepr_spec (n : Nat) :
    (Nat.repr n).data ≠ [] ∧ (∀ c ∈ (Nat.repr n).data, c.isDigit = true) ∧
      digitsValue (Nat.repr n).data = n := by
  obtain ⟨pre, h1, h2, h3, h4⟩ := toDigitsCore_spec (n + 1) n [] (Nat.lt_succ_self n)
  have : (Nat.repr n).data = pre := by
    simp only [Nat.repr, Nat.toDigits, List.asString, h1, List.append_nil]
  rw [this]
  exact ⟨h2, h3, h4⟩

theorem fmtInt_ofNat (n : Nat) : fmtInt (n : Int) = Nat.repr n := rfl

theorem fmtInt_negSucc (m : Nat) : fmtInt (Int.negSucc m) = "-" ++ Nat.repr (m + 1) := rfl

/-- The shape of the `%d` rendering: an optional `-` and the digits of the absolute
value. -/
theorem fmtInt_spec (i : Int) :
    ∃ ds : List Char, ds ≠ [] ∧ (∀ c ∈ ds, c.isDigit = true) ∧ digitsValue ds = i.natAbs ∧
      (fmtInt i).data = if i < 0 then '-' :: ds else ds := by
  cases i with
  | ofNat n =>
    obtain ⟨h1, h2, h3⟩ := natRepr_spec n
    refine ⟨(Nat.repr n).data, h1, h2, ?_, ?_⟩
    · simpa using h3
    · have : ¬ (Int.ofNat n < 0) := by simp
      rw [if_neg this]
      rfl
  | negSucc m =>
    obtain ⟨h1, h2, h3⟩ := natRepr_spec (m + 1)
    refine ⟨(Nat.repr (m + 1)).data, h1, h2, ?_, ?_⟩
    · simpa using h3
    · have : Int.negSucc m < 0 := Int.negSucc_lt_zero m
      rw [if_pos this, fmtInt_negSucc]
      rfl

theorem isDigit_ne {c d : Char} (hc : c.isDigit = true) (hd : d.isDigit = false) : c ≠ d := by
  intro h; subst h; rw [hc] at hd; exact Bool.noConfusion hd

/-- Every character of a `%d` rendering is a digit or `-`. -/
theorem fmtInt_chars (i : Int) : ∀ c ∈ (fmtInt i).data, c.isDigit = true ∨ c = '-' := by
  obtain ⟨ds, _, h2, _, h4⟩ := fmtInt_spec i
  intro c hc
  rw [h4] at hc
  split at hc
  · simp only [List.mem_cons] at hc
    rcases hc with hc | hc
    · exact Or.inr hc
    · exact Or.inl (h2 c hc)
  · exact Or.inl (h2 c hc)

theorem fmtInt_not_mem (i : Int) (c : Char) (h1 : c.isDigit = false) (h2 : c ≠ '-') :
    c ∉ (fmtInt i).data := by
  intro hc
  rcases fmtInt_chars i c hc with h | h
  · rw [h] at h1; exact Bool.noConfusion h1
  · exact h2 h

theorem fmtInt_injective (i j : Int) (h : fmtInt i = fmtInt j) : i = j := by
  obtain ⟨ds, a1, a2, a3, a4⟩ := fmtInt_spec i
  obtain ⟨es, b1, b2, b3, b4⟩ := fmtInt_spec j
  rw [h] at a4
  rw [a4] at b4
  by_cases hi : i < 0 <;> by_cases hj : j < 0
  · simp only [hi, hj, if_true, List.cons.injEq, true_and] at b4
    subst b4
    omega
  · simp only [hi, hj, if_true, if_false] at b4
    cases es with
    | nil => exact absurd rfl b1
    | cons e es =>
      simp only [List.cons.injEq] at b4
      have := b2 e (List.mem_cons_self _ _)
      rw [← b4.1] at this
      exact absurd this (by decide)
  · simp only [hi, hj, if_true, if_false] at b4
    cases ds with
    | nil => exact absurd rfl a1
    | cons e es =>
      simp only [List.cons.injEq] at b4
      have := a2 e (List.mem_cons_self _ _)
      rw [b4.1] at this
      exact absurd this (by decide)
  · simp only [hi, hj, if_false] at b4
    subst b4
    omega

/-- `Atoi` reads back the `%d` rendering of every 64-bit integer. -/
theorem Atoi_fmtInt (i : Int) (h : inIntRange i) : Atoi (fmtInt i) = (i, none) := by
  obtain ⟨ds, a1, a2, a3, a4⟩ := fmtInt_spec i
  obtain ⟨hlo, hhi⟩ := h
  have hall : ds.all Char.isDigit = true := List.all_eq_true.mpr a2
  have hne : ds.isEmpty = false := by
    cases ds with
    | nil => exact absurd rfl a1
    | cons _ _ => rfl
  unfold Atoi
  rw [a4]
  by_cases hi : i < 0
  · simp only [hi, if_true, hne, hall, Bool.not_true, Bool.or_self, Bool.false_eq_true,
      if_false, a3]
    have h1 : ¬ (i.natAbs > 2 ^ 63) := by omega
    rw [if_neg h1]
    congr 1
    omega
  · simp only [hi, if_false]
    cases ds with
    | nil => exact absurd rfl a1
    | cons e es =>
      have he : e.isDigit = true := a2 e (List.mem_cons_self _ _)
      have e1 : e ≠ '-' := isDigit_ne he (by decide)
      have e2 : e ≠ '+' := isDigit_ne he (by decide)
      have hm : (match e :: es with
          | '-' :: r => (true, r)
          | '+' :: r => (false, r)
          | r => (false, r)) = ((false, e :: es) : Bool × List Char) := by
        split
        · next heq => simp only [List.cons.injEq] at heq; exact absurd heq.1 e1
        · next heq => simp only [List.cons.injEq] at heq; exact absurd heq.1 e2
        · rfl
      rw [hm]
      simp only [hne, hall, Bool.not_true, Bool.or_self, Bool.false_eq_true, if_false, a3]
      have h1 : ¬ (i.natAbs ≥ 2 ^ 63) := by omega
      rw [if_neg h1]
      congr 1
      omega


/-! ## Splitting and trimming -/

theorem append_sep_inj {c : Char} :
    ∀ (x₁ x₂ z₁ z₂ : List Char), c ∉ x₁ → c ∉ x₂ →
      x₁ ++ c :: z₁ = x₂ ++ c :: z₂ → x₁ = x₂ ∧ z₁ = z₂ := by
  intro x₁
  induction x₁ with
  | nil =>
    intro x₂ z₁ z₂ _ h2 h
    cases x₂ with
    | nil => simp only [List.nil_append, List.cons.injEq, true_and] at h; exact ⟨rfl, h⟩
    | cons d x₂ =>
      simp only [List.nil_append, List.cons_append, List.cons.injEq] at h
      exact absurd (h.1 ▸ List.mem_cons_self _ _) h2
  | cons e x₁ ih =>
    intro x₂ z₁ z₂ h1 h2 h
    cases x₂ with
    | nil =>
      simp only [List.nil_append, List.cons_append, List.cons.injEq] at h
      exact absurd (h.1 ▸ List.mem_cons_self _ _) h1
    | cons d x₂ =>
      simp only [List.cons_append, List.cons.injEq] at h
      obtain ⟨r1, r2⟩ := ih x₂ z₁ z₂ (fun hc => h1 (List.mem_cons_of_mem _ hc))
        (fun hc => h2 (List.mem_cons_of_mem _ hc)) h.2
      exact ⟨by rw [h.1, r1], r2⟩

/-- A text with the separator at a known last position splits uniquely there. -/
theorem append_sep_inj_right {c : Char} (x₁ x₂ z₁ z₂ : List Char) (h1 : c ∉ z₁) (h2 : c ∉ z₂)
    (h : x₁ ++ c :: z₁ = x₂ ++ c :: z₂) : x₁ = x₂ ∧ z₁ = z₂ := by
  have hr := congrArg List.reverse h
  simp only [List.reverse_append, List.reverse_cons, List.append_assoc, List.singleton_append]
    at hr
  obtain ⟨r1, r2⟩ := append_sep_inj z₁.reverse z₂.reverse x₁.reverse x₂.reverse
    (by simpa using h1) (by simpa using h2) hr
  exact ⟨List.reverse_injective r2, List.reverse_injective r1⟩

theorem splitOnChar_ne_nil (sep : Char) (l : List Char) : splitOnChar sep l ≠ [] := by
  cases l with
  | nil => simp [splitOnChar]
  | cons c cs =>
    unfold splitOnChar
    split
    · simp
    · split <;> simp

theorem splitOnChar_of_not_mem (sep : Char) :
    ∀ l : List Char, sep ∉ l → splitOnChar sep l = [l] := by
  intro l
  induction l with
  | nil => intro _; rfl
  | cons c cs ih =>
    intro h
    have hc : c ≠ sep := fun e => h (e ▸ List.mem_cons_self _ _)
    have hcs : sep ∉ cs := fun e => h (List.mem_cons_of_mem _ e)
    unfold splitOnChar
    rw [if_neg hc, ih hcs]

theorem splitOnChar_append_sep (sep : Char) :
    ∀ (a b : List Char), sep ∉ a →
      splitOnChar sep (a ++ sep :: b) = a :: splitOnChar sep b := by
  intro a
  induction a with
  | nil =>
    intro b _
    simp only [List.nil_append]
    rw [splitOnChar]
    simp
  | cons c cs ih =>
    intro b h
    have hc : c ≠ sep := fun e => h (e ▸ List.mem_cons_self _ _)
    have hcs : sep ∉ cs := fun e => h (List.mem_cons_of_mem _ e)
    simp only [List.cons_append]
    rw [splitOnChar, if_neg hc, ih b hcs]

/-- The first part of a split, and the split of what follows it. -/
theorem splitOnChar_cons_inv (sep : Char) :
    ∀ (l p : List Char) (ps : List (List Char)), splitOnChar sep l = p :: ps →
      sep ∉ p ∧ ((ps = [] ∧ l = p) ∨
        (∃ rest, l = p ++ sep :: rest ∧ splitOnChar sep rest = ps)) := by
  intro l
  induction l with
  | nil =>
    intro p ps h
    simp only [splitOnChar, List.cons.injEq] at h
    obtain ⟨h1, h2⟩ := h
    subst h1; subst h2
    exact ⟨by simp, Or.inl ⟨rfl, rfl⟩⟩
  | cons c cs ih =>
    intro p ps h
    rw [splitOnChar] at h
    by_cases hc : c = sep
    · rw [if_pos hc] at h
      simp only [List.cons.injEq] at h
      obtain ⟨h1, h2⟩ := h
      subst h1
      exact ⟨by simp, Or.inr ⟨cs, by simp [hc], h2⟩⟩
    · rw [if_neg hc] at h
      cases hs : splitOnChar sep cs with
      | nil => exact absurd hs (splitOnChar_ne_nil sep cs)
      | cons q qs =>
        rw [hs] at h
        simp only [List.cons.injEq] at h
        obtain ⟨h1, h2⟩ := h
        subst h1; subst h2
        obtain ⟨i1, i2⟩ := ih q qs hs
        refine ⟨?_, ?_⟩
        · intro hm
          simp only [List.mem_cons] at hm
          rcases hm with hm | hm
          · exact hc hm.symm
          · exact i1 hm
        · rcases i2 with ⟨j1, j2⟩ | ⟨rest, j1, j2⟩
          · exact Or.inl ⟨j1, by rw [j2]⟩
          · exact Or.inr ⟨rest, by rw [j1]; rfl, j2⟩

theorem splitOnChar_length (sep : Char) :
    ∀ l : List Char, (splitOnChar sep l).length = l.count sep + 1 := by
  intro l
  induction l with
  | nil => rfl
  | cons c cs ih =>
    rw [splitOnChar]
    by_cases hc : c = sep
    · rw [if_pos hc]
      subst hc
      simp [ih]
    · rw [if_neg hc]
      have hcount : (c :: cs).count sep = cs.count sep := by
        rw [List.count_cons]
        simp [hc]
      cases hs : splitOnChar sep cs with
      | nil => exact absurd hs (splitOnChar_ne_nil sep cs)
      | cons q qs =>
        rw [hs] at ih
        simp only [List.length_cons] at ih ⊢
        omega

/-- A text that splits into exactly two parts is those parts around one separator. -/
theorem splitOnChar_pair (sep : Char) (l a b : List Char) (h : splitOnChar sep l = [a, b]) :
    l = a ++ sep :: b ∧ sep ∉ a ∧ sep ∉ b := by
  obtain ⟨h1, h2⟩ := splitOnChar_cons_inv sep l a [b] h
  rcases h2 with ⟨h3, _⟩ | ⟨rest, h3, h4⟩
  · exact absurd h3 (by simp)
  · obtain ⟨k1, k2⟩ := splitOnChar_cons_inv sep rest b [] h4
    rcases k2 with ⟨_, k3⟩ | ⟨r2, _, k4⟩
    · subst k3
      exact ⟨h3, h1, k1⟩
    · exact absurd k4 (splitOnChar_ne_nil sep r2)

theorem mem_dropWhile_or (p : Char → Bool) (l : List Char) (c : Char) (h : c ∈ l) :
    c ∈ l.dropWhile p ∨ p c = true := by
  have := List.takeWhile_append_dropWhile p l
  rw [← this] at h
  rcases List.mem_append.mp h with h1 | h1
  · exact Or.inr (List.mem_takeWhile_imp h1)
  · exact Or.inl h1

/-- Every character of a text is kept by `TrimSpace` or is white space. -/
theorem TrimSpace_chars (s : String) (c : Char) (h : c ∈ s.data) :
    c ∈ (TrimSpace s).data ∨ isSpace c = true := by
  unfold TrimSpace
  simp only [List.mem_reverse]
  rcases mem_dropWhile_or isSpace s.data c h with h1 | h1
  · rcases mem_dropWhile_or isSpace _ c (List.mem_reverse.mpr h1) with h2 | h2
    · exact Or.inl h2
    · exact Or.inr h2
  · exact Or.inr h1

theorem dropWhile_eq_self_of_head (p : Char → Bool) (l : List Char)
    (h : ∀ c, l.head? = some c → p c = false) : l.dropWhile p = l := by
  cases l with
  | nil => rfl
  | cons c cs =>
    have := h c rfl
    simp [List.dropWhile, this]

/-- A text that starts and ends with characters other than white space is unchanged by
`TrimSpace`. -/
theorem TrimSpace_eq_self (s : String) (h1 : ∀ c, s.data.head? = some c → isSpace c = false)
    (h2 : ∀ c, s.data.getLast? = some c → isSpace c = false) : TrimSpace s = s := by
  unfold TrimSpace
  rw [dropWhile_eq_self_of_head isSpace s.data h1]
  rw [dropWhile_eq_self_of_head isSpace s.data.reverse (by
    intro c hc
    rw [List.head?_reverse] at hc
    exact h2 c hc)]
  simp


/-! ## The deduplication key -/

theorem modeKey_data (m : Mode) :
    (modeKey m).data = m.Format.data ++ '|' :: ((fmtInt m.Width).data ++ '|' ::
      ((fmtInt m.Height).data ++ '|' :: m.Framerate.data)) := by
  simp [modeKey, String.data_append]

theorem bar_not_mem_fmtInt (i : Int) : '|' ∉ (fmtInt i).data :=
  fmtInt_not_mem i '|' (by decide) (by decide)

/-- Two modes whose framerates hold no `|` have the same key only if they are equal. -/
theorem modeKey_inj (a b : Mode) (ha : '|' ∉ a.Framerate.data) (hb : '|' ∉ b.Framerate.data)
    (h : modeKey a = modeKey b) : a = b := by
  have hd : (modeKey a).data = (modeKey b).data := by rw [h]
  rw [modeKey_data, modeKey_data] at hd
  have e1 : a.Format.data ++ '|' :: ((fmtInt a.Width).data ++ '|' ::
      ((fmtInt a.Height).data ++ '|' :: a.Framerate.data)) =
      (a.Format.data ++ '|' :: ((fmtInt a.Width).data ++ '|' :: (fmtInt a.Height).data)) ++
        '|' :: a.Framerate.data := by simp
  have e2 : b.Format.data ++ '|' :: ((fmtInt b.Width).data ++ '|' ::
      ((fmtInt b.Height).data ++ '|' :: b.Framerate.data)) =
      (b.Format.data ++ '|' :: ((fmtInt b.Width).data ++ '|' :: (fmtInt b.Height).data)) ++
        '|' :: b.Framerate.data := by simp
  rw [e1, e2] at hd
  obtain ⟨r1, r2⟩ := append_sep_inj_right _ _ _ _ ha hb hd
  have e3 : ∀ m : Mode, m.Format.data ++ '|' :: ((fmtInt m.Width).data ++ '|' ::
      (fmtInt m.Height).data) =
      (m.Format.data ++ '|' :: (fmtInt m.Width).data) ++ '|' :: (fmtInt m.Height).data := by
    intro m; simp
  rw [e3 a, e3 b] at r1
  obtain ⟨r3, r4⟩ := append_sep_inj_right _ _ _ _ (bar_not_mem_fmtInt _)
    (bar_not_mem_fmtInt _) r1
  obtain ⟨r5, r6⟩ := append_sep_inj_right _ _ _ _ (bar_not_mem_fmtInt _)
    (bar_not_mem_fmtInt _) r3
  have w : a.Width = b.Width := fmtInt_injective _ _ (String.ext r6)
  have hh : a.Height = b.Height := fmtInt_injective _ _ (String.ext r4)
  have f : a.Format = b.Format := String.ext r5
  have fr : a.Framerate = b.Framerate := String.ext r2
  cases a; cases b
  simp only [Mode.mk.injEq]
  exact ⟨f, w, hh, fr⟩

/-! ## Atoi and parseFraction -/

/-- The texts that `Atoi` accepts: an optional sign and one or more digits, the value
within the 64-bit range. -/
theorem Atoi_ok_spec (s : String) (h : (Atoi s).2 = none) :
    inIntRange (Atoi s).1 ∧ ∀ c ∈ s.data, c.isDigit = true ∨ c = '-' ∨ c = '+' := by
  unfold Atoi at h ⊢
  generalize hm : (match s.data with
      | '-' :: r => (true, r)
      | '+' :: r => (false, r)
      | r => (false, r) : Bool × List Char) = sg at h ⊢
  have hchars : ∀ c ∈ s.data, c ∈ sg.2 ∨ c = '-' ∨ c = '+' := by
    intro c hc
    split at hm
    · next r heq =>
      rw [heq] at hc
      subst hm
      simp only [List.mem_cons] at hc
      rcases hc with hc | hc
      · exact Or.inr (Or.inl hc)
      · exact Or.inl hc
    · next r heq =>
      rw [heq] at hc
      subst hm
      simp only [List.mem_cons] at hc
      rcases hc with hc | hc
      · exact Or.inr (Or.inr hc)
      · exact Or.inl hc
    · subst hm
      exact Or.inl hc
  simp only at h ⊢
  by_cases hb : (sg.2.isEmpty || !sg.2.all Char.isDigit) = true
  · rw [if_pos hb] at h
    exact absurd h (by simp)
  · rw [if_neg hb] at h ⊢
    simp only [Bool.or_eq_true, Bool.not_eq_true', not_or, Bool.not_eq_false] at hb
    have hall := List.all_eq_true.mp hb.2
    refine ⟨?_, ?_⟩
    · unfold inIntRange
      by_cases hn : sg.1 = true
      · rw [if_pos hn] at h ⊢
        by_cases hv : digitsValue sg.2 > 2 ^ 63
        · rw [if_pos hv] at h; exact absurd h (by simp)
        · rw [if_neg hv]
          simp only
          omega
      · rw [if_neg hn] at h ⊢
        by_cases hv : digitsValue sg.2 ≥ 2 ^ 63
        · rw [if_pos hv] at h; exact absurd h (by simp)
        · rw [if_neg hv]
          simp only
          omega
    · intro c hc
      rcases hchars c hc with h1 | h1
      · exact Or.inl (hall c h1)
      · exact Or.inr h1

theorem splitSlash_pair (s a b : String) (h : splitSlash s = [a, b]) :
    s.data = a.data ++ '/' :: b.data ∧ '/' ∉ a.data ∧ '/' ∉ b.data := by
  unfold splitSlash at h
  cases hs : splitOnChar '/' s.data with
  | nil => exact absurd hs (splitOnChar_ne_nil _ _)
  | cons p ps =>
    rw [hs] at h
    cases ps with
    | nil => simp at h
    | cons q qs =>
      cases qs with
      | nil =>
        simp only [List.map_cons, List.map_nil, List.cons.injEq, and_true] at h
        obtain ⟨h1, h2⟩ := h
        subst h1; subst h2
        exact splitOnChar_pair '/' s.data p q hs
      | cons _ _ => simp at h

/-- The four outcomes of `parseFraction`, read off its code. -/
theorem parseFraction_cases (val : String) :
    (((splitSlash (TrimSpace val)).length ≠ 2 ∧
        parseFraction val = ("", some .invalidFraction)) ∨
      (∃ a b, splitSlash (TrimSpace val) = [a, b] ∧ (Atoi a).2 ≠ none ∧
        parseFraction val = ("", (Atoi a).2)) ∨
      (∃ a b, splitSlash (TrimSpace val) = [a, b] ∧ (Atoi a).2 = none ∧
        ((Atoi b).2 ≠ none ∨ (Atoi b).1 = 0) ∧
        parseFraction val = ("", some .invalidFraction)) ∨
      (∃ a b, splitSlash (TrimSpace val) = [a, b] ∧ (Atoi a).2 = none ∧
        (Atoi b).2 = none ∧ (Atoi b).1 ≠ 0 ∧
        parseFraction val = (fmtInt (Atoi a).1 ++ "/" ++ fmtInt (Atoi b).1, none))) := by
  unfold parseFraction
  by_cases hl : (splitSlash (TrimSpace val)).length ≠ 2
  · left
    exact ⟨hl, by rw [if_pos hl]⟩
  · right
    have hl2 : (splitSlash (TrimSpace val)).length = 2 := not_not.mp hl
    obtain ⟨a, b, hab⟩ := List.length_eq_two.mp hl2
    simp only [hab, List.length_cons, List.length_nil, ne_eq, not_true_eq_false, if_false,
      List.getD_cons_zero, List.getD_cons_succ]
    by_cases ha : (Atoi a).2 = none
    · right
      simp only [ha, not_true_eq_false, if_false]
      by_cases hb : (Atoi b).2 = none
      · by_cases hz : (Atoi b).1 = 0
        · left
          refine ⟨a, b, rfl, ha, Or.inr hz, ?_⟩
          simp [hb, hz]
        · right
          refine ⟨a, b, rfl, ha, hb, hz, ?_⟩
          simp [hb, hz]
      · left
        refine ⟨a, b, rfl, ha, Or.inl hb, ?_⟩
        simp [hb]
    · left
      refine ⟨a, b, rfl, ha, ?_⟩
      simp [ha]


theorem isDigit_toNat (c : Char) (h : c.isDigit = true) : 48 ≤ c.toNat ∧ c.toNat ≤ 57 := by
  simp only [Char.isDigit, Bool.and_eq_true, decide_eq_true_eq] at h
  obtain ⟨h1, h2⟩ := h
  have h1' : (48 : UInt32).toNat ≤ c.val.toNat := h1
  have h2' : c.val.toNat ≤ (57 : UInt32).toNat := h2
  exact ⟨h1', h2'⟩

theorem isSpace_of_isDigit (c : Char) (h : c.isDigit = true) : isSpace c = false := by
  obtain ⟨h1, h2⟩ := isDigit_toNat c h
  unfold isSpace
  simp only [Bool.or_eq_false_iff, Bool.and_eq_false_imp, decide_eq_true_eq,
    decide_eq_false_iff_not]
  omega

theorem slash_not_mem_fmtInt (i : Int) : '/' ∉ (fmtInt i).data :=
  fmtInt_not_mem i '/' (by decide) (by decide)

theorem fracText_data (n d : Int) :
    (fmtInt n ++ "/" ++ fmtInt d).data = (fmtInt n).data ++ '/' :: (fmtInt d).data := by
  simp [String.data_append]

theorem fracText_split (n d : Int) :
    splitOnChar '/' (fmtInt n ++ "/" ++ fmtInt d).data = [(fmtInt n).data, (fmtInt d).data] := by
  rw [fracText_data, splitOnChar_append_sep _ _ _ (slash_not_mem_fmtInt n),
    splitOnChar_of_not_mem _ _ (slash_not_mem_fmtInt d)]

theorem fracText_splitSlash (n d : Int) :
    splitSlash (fmtInt n ++ "/" ++ fmtInt d) = [fmtInt n, fmtInt d] := by
  unfold splitSlash
  rw [fracText_split]
  rfl

theorem fmtInt_head_not_space (i : Int) :
    ∀ c, (fmtInt i).data.head? = some c → isSpace c = false := by
  obtain ⟨ds, a1, a2, _, a4⟩ := fmtInt_spec i
  intro c hc
  rw [a4] at hc
  split at hc
  · simp only [List.head?_cons, Option.some.injEq] at hc
    subst hc; decide
  · cases ds with
    | nil => exact absurd rfl a1
    | cons e es =>
      simp only [List.head?_cons, Option.some.injEq] at hc
      subst hc
      exact isSpace_of_isDigit _ (a2 _ (List.mem_cons_self _ _))

theorem fmtInt_last_not_space (i : Int) :
    ∀ c, (fmtInt i).data.getLast? = some c → isSpace c = false := by
  obtain ⟨ds, a1, a2, _, a4⟩ := fmtInt_spec i
  intro c hc
  have hmem : c ∈ ds := by
    rw [a4] at hc
    have hl : ds.getLast? = some c := by
      split at hc
      · cases ds with
        | nil => exact absurd rfl a1
        | cons e es => rw [List.getLast?_cons_cons] at hc; exact hc
      · exact hc
    exact List.mem_of_getLast?_eq_some hl
  exact isSpace_of_isDigit _ (a2 c hmem)

theorem fmtInt_data_ne_nil (i : Int) : (fmtInt i).data ≠ [] := by
  obtain ⟨ds, a1, _, _, a4⟩ := fmtInt_spec i
  rw [a4]
  split
  · simp
  · exact a1

theorem fracText_trim (n d : Int) :
    TrimSpace (fmtInt n ++ "/" ++ fmtInt d) = fmtInt n ++ "/" ++ fmtInt d := by
  apply TrimSpace_eq_self
  · intro c hc
    rw [fracText_data] at hc
    cases hN : (fmtInt n).data with
    | nil => exact absurd hN (fmtInt_data_ne_nil n)
    | cons e es =>
      rw [hN] at hc
      simp only [List.cons_append, List.head?_cons, Option.some.injEq] at hc
      exact fmtInt_head_not_space n c (by rw [hN]; simpa using hc)
  · intro c hc
    rw [fracText_data] at hc
    rw [List.getLast?_append_of_ne_nil _ (by simp)] at hc
    cases hD : (fmtInt d).data with
    | nil => exact absurd hD (fmtInt_data_ne_nil d)
    | cons e es =>
      rw [hD] at hc
      rw [List.getLast?_cons_cons] at hc
      exact fmtInt_last_not_space d c (by rw [hD]; exact hc)

/-- `parseFraction` on the canonical text of a pair of 64-bit integers. -/
theorem parseFraction_fracText (n d : Int) (hn : inIntRange n) (hd : inIntRange d)
    (h0 : d ≠ 0) :
    parseFraction (fmtInt n ++ "/" ++ fmtInt d) = (fmtInt n ++ "/" ++ fmtInt d, none) := by
  unfold parseFraction
  rw [fracText_trim, fracText_splitSlash]
  simp [Atoi_fmtInt n hn, Atoi_fmtInt d hd, h0]

/-- Whether the canonical text of a pair of integers matches `^-?\d+/\d+$`. -/
theorem matchesFramerateRe_fracText (n d : Int) :
    (matchesFramerateRe (fmtInt n ++ "/" ++ fmtInt d) = true ↔ 0 ≤ d) ∧
      (0 ≤ d → framerateDenominator (fmtInt n ++ "/" ++ fmtInt d) = d.natAbs) := by
  unfold matchesFramerateRe framerateDenominator
  rw [fracText_split]
  obtain ⟨ns, a1, a2, _, a4⟩ := fmtInt_spec n
  obtain ⟨ds, b1, b2, b3, b4⟩ := fmtInt_spec d
  have hbody : (match (fmtInt n).data with
      | '-' :: r => r
      | r => r) = ns := by
    rw [a4]
    by_cases hneg : n < 0
    · rw [if_pos hneg]
      rfl
    · rw [if_neg hneg]
      cases ns with
      | nil => exact absurd rfl a1
      | cons e es =>
        have he : e ≠ '-' := isDigit_ne (a2 e (List.mem_cons_self _ _)) (by decide)
        split
        · next heq => simp only [List.cons.injEq] at heq; exact absurd heq.1 he
        · rfl
  have hns : ns.isEmpty = false := by
    cases ns with
    | nil => exact absurd rfl a1
    | cons _ _ => rfl
  have hds : ds.isEmpty = false := by
    cases ds with
    | nil => exact absurd rfl b1
    | cons _ _ => rfl
  simp only [hbody, hns, List.all_eq_true.mpr a2, Bool.not_false, Bool.true_and]
  rw [b4]
  by_cases hneg : d < 0
  · rw [if_pos hneg]
    constructor
    · constructor
      · intro h
        simp only [List.isEmpty_cons, Bool.not_false, Bool.true_and, List.all_cons,
          Bool.and_eq_true] at h
        exact absurd h.1 (by decide)
      · intro h; omega
    · intro h; omega
  · rw [if_neg hneg]
    constructor
    · constructor
      · intro _; omega
      · intro _
        simp [hds, List.all_eq_true.mpr b2]
    · intro _; exact b3


/-! ## Claims about parseFraction -/

/-- C5 (counterexample). The text `030/1` matches `^-?\d+/\d+$` and has a non-zero
denominator, yet `parseFraction` returns `30/1`, not the input; the text
`9223372036854775808/1` matches as well and is rejected. -/
theorem parseFraction_roundtrip_counterexample :
    matchesFramerateRe "030/1" = true ∧ framerateDenominator "030/1" ≠ 0 ∧
      parseFraction "030/1" = ("30/1", none) ∧ parseFraction "030/1" ≠ ("030/1", none) ∧
      matchesFramerateRe "9223372036854775808/1" = true ∧
      framerateDenominator "9223372036854775808/1" ≠ 0 ∧
      (parseFraction "9223372036854775808/1").2 ≠ none := by
  decide

/-- C5 (amended). For 64-bit integers `n` and `d` with `d > 0`, the canonical text
`<n>/<d>` (both numbers as `%d` prints them) matches `^-?\d+/\d+$`, has a non-zero
denominator, and `parseFraction` succeeds on it and returns exactly that text. -/
theorem parseFraction_canonical_roundtrip (n d : Int) (hn : inIntRange n) (hd : inIntRange d)
    (hpos : 0 < d) :
    matchesFramerateRe (fmtInt n ++ "/" ++ fmtInt d) = true ∧
      framerateDenominator (fmtInt n ++ "/" ++ fmtInt d) ≠ 0 ∧
      parseFraction (fmtInt n ++ "/" ++ fmtInt d) = (fmtInt n ++ "/" ++ fmtInt d, none) := by
  obtain ⟨h1, h2⟩ := matchesFramerateRe_fracText n d
  refine ⟨h1.mpr (le_of_lt hpos), ?_, parseFraction_fracText n d hn hd (ne_of_gt hpos)⟩
  rw [h2 (le_of_lt hpos)]
  omega

/-- C5 (witness). The amended round trip at the text `-30/1`. -/
theorem parseFraction_canonical_roundtrip_witness :
    matchesFramerateRe (fmtInt (-30) ++ "/" ++ fmtInt 1) = true ∧
      framerateDenominator (fmtInt (-30) ++ "/" ++ fmtInt 1) ≠ 0 ∧
      parseFraction (fmtInt (-30) ++ "/" ++ fmtInt 1) =
        (fmtInt (-30) ++ "/" ++ fmtInt 1, none) :=
  parseFraction_canonical_roundtrip (-30) 1 (by unfold inIntRange; decide)
    (by unfold inIntRange; decide) (by decide)

/-- C6. `parseFraction` succeeds exactly when the trimmed input splits on `/` into two
parts that `Atoi` both accepts, the second with a non-zero value; when it fails it
returns the empty text with the error; and an input whose trimmed text does not hold
exactly one `/` fails. -/
theorem parseFraction_succeeds_iff (val : String) :
    ((parseFraction val).2 = none ↔
        ∃ a b : String, splitSlash (TrimSpace val) = [a, b] ∧ (Atoi a).2 = none ∧
          (Atoi b).2 = none ∧ (Atoi b).1 ≠ 0) ∧
      ((parseFraction val).2 ≠ none → (parseFraction val).1 = "") ∧
      ((TrimSpace val).data.count '/' ≠ 1 → (parseFraction val).2 ≠ none) := by
  have hlen : (splitSlash (TrimSpace val)).length = (TrimSpace val).data.count '/' + 1 := by
    unfold splitSlash
    rw [List.length_map, splitOnChar_length]
  rcases parseFraction_cases val with ⟨h1, h2⟩ | ⟨a, b, h1, h2, h3⟩ | ⟨a, b, h1, h2, h3, h4⟩ |
    ⟨a, b, h1, h2, h3, h4, h5⟩
  · refine ⟨⟨?_, ?_⟩, ?_, ?_⟩
    · intro h; rw [h2] at h; exact absurd h (by simp)
    · rintro ⟨a, b, hab, _⟩
      rw [hab] at h1
      exact absurd rfl h1
    · intro _; rw [h2]
    · intro _; rw [h2]; simp
  · refine ⟨⟨?_, ?_⟩, ?_, ?_⟩
    · intro h; rw [h3] at h; exact absurd h h2
    · rintro ⟨a', b', hab, ha, _⟩
      rw [h1] at hab
      simp only [List.cons.injEq, and_true] at hab
      rw [hab.1] at h2
      exact absurd ha h2
    · intro _; rw [h3]
    · intro _; rw [h3]; exact h2
  · refine ⟨⟨?_, ?_⟩, ?_, ?_⟩
    · intro h; rw [h4] at h; exact absurd h (by simp)
    · rintro ⟨a', b', hab, _, hb1, hb2⟩
      rw [h1] at hab
      simp only [List.cons.injEq, and_true] at hab
      rw [← hab.2] at hb1 hb2
      rcases h3 with h3 | h3
      · exact absurd hb1 h3
      · exact absurd h3 hb2
    · intro _; rw [h4]
    · intro _; rw [h4]; simp
  · refine ⟨⟨?_, ?_⟩, ?_, ?_⟩
    · intro _; exact ⟨a, b, h1, h2, h3, h4⟩
    · intro _; rw [h5]
    · intro h; rw [h5] at h; exact absurd rfl h
    · intro h
      rw [h1] at hlen
      simp only [List.length_cons, List.length_nil] at hlen
      omega

/-- C6 (witness). The characterization at the input ` 30/1 `, which succeeds. -/
theorem parseFraction_succeeds_iff_witness :
    (parseFraction " 30/1 ").2 = none ∧
      ∃ a b : String, splitSlash (TrimSpace " 30/1 ") = [a, b] ∧ (Atoi a).2 = none ∧
        (Atoi b).2 = none ∧ (Atoi b).1 ≠ 0 :=
  ⟨by decide, (parseFraction_succeeds_iff " 30/1 ").1.mp (by decide)⟩

/-- C7 (counterexample). `parseFraction` succeeds on the text `1`, `/`, `-2` and returns
it unchanged; its denominator carries a sign: the result does not match `^-?\d+/\d+$`. -/
theorem parseFraction_signed_denominator_counterexample :
    parseFraction "1/-2" = ("1/-2", none) ∧
      matchesFramerateRe (parseFraction "1/-2").1 = false := by
  decide

/-- C7 (amended). Whenever `parseFraction` succeeds, its result is `<n>/<d>` for 64-bit
integers `n` and `d`, each as `%d` prints it (so each may carry a minus sign), with
`d` non-zero; the result matches `^-?\d+/\d+$` exactly when `d` is positive, and then its
denominator is non-zero. -/
theorem parseFraction_result_shape (val : String) (h : (parseFraction val).2 = none) :
    ∃ n d : Int, inIntRange n ∧ inIntRange d ∧ d ≠ 0 ∧
      (parseFraction val).1 = fmtInt n ++ "/" ++ fmtInt d ∧
      (matchesFramerateRe (parseFraction val).1 = true ↔ 0 < d) ∧
      (0 < d → framerateDenominator (parseFraction val).1 ≠ 0) := by
  rcases parseFraction_cases val with ⟨_, h2⟩ | ⟨a, b, _, h2, h3⟩ | ⟨a, b, _, _, _, h4⟩ |
    ⟨a, b, _, h2, h3, h4, h5⟩
  · rw [h2] at h; exact absurd h (by simp)
  · rw [h3] at h; exact absurd h h2
  · rw [h4] at h; exact absurd h (by simp)
  · obtain ⟨m1, m2⟩ := matchesFramerateRe_fracText (Atoi a).1 (Atoi b).1
    refine ⟨(Atoi a).1, (Atoi b).1, (Atoi_ok_spec a h2).1, (Atoi_ok_spec b h3).1, h4, ?_, ?_, ?_⟩
    · rw [h5]
    · rw [h5]
      simp only
      rw [m1]
      omega
    · intro hpos
      rw [h5]
      simp only
      rw [m2 (le_of_lt hpos)]
      omega

/-- C7 (witness). The shape of the result at an input with a signed denominator. -/
theorem parseFraction_result_shape_witness :
    ∃ n d : Int, inIntRange n ∧ inIntRange d ∧ d ≠ 0 ∧
      (parseFraction " +7/-2").1 = fmtInt n ++ "/" ++ fmtInt d ∧
      (matchesFramerateRe (parseFraction " +7/-2").1 = true ↔ 0 < d) ∧
      (0 < d → framerateDenominator (parseFraction " +7/-2").1 ≠ 0) :=
  parseFraction_result_shape " +7/-2" (by decide)


/-! ## Candidates of extractModes -/

mutual
/-- Every flattened framerate is the rendering of a fraction value or a text that
`parseFraction` accepts. -/
theorem extractFractionValues_origin :
    ∀ (v : Value) (x : String), x ∈ extractFractionValues v →
      (∃ num denom : Int, x = fractionString num denom) ∨ (parseFraction x).2 = none
  | .fraction num denom, x, h => by
    simp only [extractFractionValues, List.mem_singleton] at h
    exact Or.inl ⟨num, denom, h⟩
  | .str v, x, h => by
    simp only [extractFractionValues] at h
    split at h
    · next hp =>
      simp only [List.mem_singleton] at h
      subst h
      exact Or.inr hp
    · simp at h
  | .list elems, x, h => by
    simp only [extractFractionValues] at h
    exact extractFractionValuesFrom_origin elems x h
  | .array elems, x, h => by
    simp only [extractFractionValues] at h
    exact extractFractionValuesFrom_origin elems x h
  | .int _, x, h => by simp [extractFractionValues] at h
  | .int32 _, x, h => by simp [extractFractionValues] at h
  | .int64 _, x, h => by simp [extractFractionValues] at h
  | .uint _, x, h => by simp [extractFractionValues] at h
  | .uint32 _, x, h => by simp [extractFractionValues] at h
  | .uint64 _, x, h => by simp [extractFractionValues] at h
  | .listNil, x, h => by simp [extractFractionValues] at h
  | .arrayNil, x, h => by simp [extractFractionValues] at h
  | .other, x, h => by simp [extractFractionValues] at h
/-- The same for the elements of a list or an array. -/
theorem extractFractionValuesFrom_origin :
    ∀ (vs : List Value) (x : String), x ∈ extractFractionValuesFrom vs →
      (∃ num denom : Int, x = fractionString num denom) ∨ (parseFraction x).2 = none
  | [], x, h => by simp [extractFractionValuesFrom] at h
  | v :: rest, x, h => by
    simp only [extractFractionValuesFrom, List.mem_append] at h
    rcases h with h | h
    · exact extractFractionValues_origin v x h
    · exact extractFractionValuesFrom_origin rest x h
end

theorem isSpace_bar : isSpace '|' = false := by decide

/-- A text that `parseFraction` accepts holds no `|`. -/
theorem bar_not_mem_of_parseFraction (v : String) (h : (parseFraction v).2 = none) :
    '|' ∉ v.data := by
  intro hmem
  rcases parseFraction_cases v with ⟨_, h2⟩ | ⟨a, b, _, h2, h3⟩ | ⟨a, b, _, _, _, h4⟩ |
    ⟨a, b, h1, h2, h3, _, _⟩
  · rw [h2] at h; exact absurd h (by simp)
  · rw [h3] at h; exact absurd h h2
  · rw [h4] at h; exact absurd h (by simp)
  · rcases TrimSpace_chars v '|' hmem with ht | ht
    · obtain ⟨e1, _, _⟩ := splitSlash_pair _ a b h1
      rw [e1] at ht
      simp only [List.mem_append, List.mem_cons] at ht
      rcases ht with ht | ht | ht
      · rcases (Atoi_ok_spec a h2).2 '|' ht with k | k | k
        · exact absurd k (by decide)
        · exact absurd k (by decide)
        · exact absurd k (by decide)
      · exact absurd ht (by decide)
      · rcases (Atoi_ok_spec b h3).2 '|' ht with k | k | k
        · exact absurd k (by decide)
        · exact absurd k (by decide)
        · exact absurd k (by decide)
    · rw [isSpace_bar] at ht
      exact Bool.noConfusion ht

theorem bar_not_mem_fractionString (num denom : Int) :
    '|' ∉ (fractionString num denom).data := by
  unfold fractionString
  rw [fracText_data]
  intro h
  simp only [List.mem_append, List.mem_cons] at h
  rcases h with h | h | h
  · exact bar_not_mem_fmtInt _ h
  · exact absurd h (by decide)
  · exact bar_not_mem_fmtInt _ h

theorem mem_crossProduct (formats : List String) (widths heights : List Int)
    (fps : List String) (m : Mode) :
    m ∈ crossProduct formats widths heights fps ↔
      m.Format ∈ formats ∧ m.Width ∈ widths ∧ m.Height ∈ heights ∧ m.Framerate ∈ fps := by
  unfold crossProduct
  simp only [List.mem_flatMap, List.mem_map]
  constructor
  · rintro ⟨f, hf, w, hw, h, hh, fr, hfr, rfl⟩
    exact ⟨hf, hw, hh, hfr⟩
  · rintro ⟨hf, hw, hh, hfr⟩
    exact ⟨m.Format, hf, m.Width, hw, m.Height, hh, m.Framerate, hfr, rfl⟩

/-- The combinations of a capability set are the tuples drawn from the flattened fields of
one of its qualifying structures. -/
theorem mem_candidateModes (sts : Caps) (m : Mode) :
    m ∈ candidateModes sts ↔
      ∃ s ∈ sts, qualifies s = true ∧
        m.Format ∈ extractStringValues (getStructureValue s "format") ∧
        m.Width ∈ extractIntValues (getStructureValue s "width") ∧
        m.Height ∈ extractIntValues (getStructureValue s "height") ∧
        m.Framerate ∈ extractFractionValues (getStructureValue s "framerate") := by
  unfold candidateModes structureModes
  simp only [List.mem_flatMap]
  constructor
  · rintro ⟨s, hs, hm⟩
    by_cases hq : qualifies s = true
    · rw [if_pos hq, mem_crossProduct] at hm
      exact ⟨s, hs, hq, hm⟩
    · rw [if_neg hq] at hm
      simp at hm
  · rintro ⟨s, hs, hq, hm⟩
    refine ⟨s, hs, ?_⟩
    rw [if_pos hq, mem_crossProduct]
    exact hm

theorem bar_not_mem_candidate (sts : Caps) (m : Mode) (h : m ∈ candidateModes sts) :
    '|' ∉ m.Framerate.data := by
  obtain ⟨s, _, _, _, _, _, hfr⟩ := (mem_candidateModes sts m).mp h
  rcases extractFractionValues_origin _ _ hfr with ⟨num, denom, e⟩ | hp
  · rw [e]; exact bar_not_mem_fractionString num denom
  · exact bar_not_mem_of_parseFraction _ hp

/-! ## The loop without early exit -/

theorem keepFirst_eq (ms : List Mode) :
    keepFirst ms = ms.foldl (fun acc m => if m ∈ acc then acc else acc ++ [m]) [] := rfl

/-- With a limit that the loop cannot reach before its last step, the loop keeps the first
occurrence of every mode. -/
theorem runModes_eq_foldl (limit : Int) :
    ∀ (ms : List Mode) (st : ExtractState), st.consistent →
      (∀ m ∈ st.modes ++ ms, '|' ∉ m.Framerate.data) →
      ((st.modes.length : Int) + (ms.length : Int) ≤ limit) →
      runModes limit ms st =
        ms.foldl (fun acc m => if m ∈ acc then acc else acc ++ [m]) st.modes := by
  intro ms
  induction ms with
  | nil => intro st _ _ _; rfl
  | cons m ms ih =>
    intro st hc hbar hlen
    have hm : '|' ∉ m.Framerate.data := hbar m (by simp)
    have hiff : modeKey m ∈ st.seen ↔ m ∈ st.modes := by
      rw [hc.1]
      constructor
      · intro hk
        obtain ⟨x, hx, hxk⟩ := List.mem_map.mp hk
        have : x = m := modeKey_inj x m (hbar x (List.mem_append_left _ hx)) hm hxk
        exact this ▸ hx
      · intro hx
        exact List.mem_map_of_mem _ hx
    simp only [List.length_cons, Nat.cast_add, Nat.cast_one] at hlen
    by_cases h : modeKey m ∈ st.seen
    · rw [runModes_cons_seen limit m ms st h, List.foldl_cons, if_pos (hiff.mp h)]
      apply ih st hc
      · intro x hx
        rcases List.mem_append.mp hx with hx | hx
        · exact hbar x (List.mem_append_left _ hx)
        · exact hbar x (List.mem_append_right _ (List.mem_cons_of_mem _ hx))
      · omega
    · have hnot : m ∉ st.modes := fun hx => h (hiff.mpr hx)
      rw [List.foldl_cons, if_neg hnot]
      by_cases hl : limit ≤ ((st.modes ++ [m]).length : Int)
      · rw [runModes_cons_full limit m ms st h hl]
        simp only [List.length_append, List.length_cons, List.length_nil, Nat.cast_add,
          Nat.cast_one, zero_add] at hl
        have hz : ms.length = 0 := by omega
        rw [List.length_eq_zero.mp hz]
        rfl
      · rw [runModes_cons_more limit m ms st h hl]
        apply ih _ (consistent_push st m hc h)
        · intro x hx
          apply hbar x
          simp only [List.mem_append, List.mem_cons, List.mem_singleton,
            List.not_mem_nil, or_false] at hx ⊢
          tauto
        · simp only [List.length_append, List.length_cons, List.length_nil, Nat.cast_add,
            Nat.cast_one, zero_add]
          omega

/-- With a limit of at least one, the loop never returns more than `limit` modes. -/
theorem runModes_length_le (limit : Int) :
    ∀ (ms : List Mode) (st : ExtractState), (st.modes.length : Int) < limit →
      ((runModes limit ms st).length : Int) ≤ limit := by
  intro ms
  induction ms with
  | nil => intro st h; rw [runModes_nil]; omega
  | cons m ms ih =>
    intro st hlt
    by_cases h : modeKey m ∈ st.seen
    · rw [runModes_cons_seen limit m ms st h]; exact ih st hlt
    · by_cases hl : limit ≤ ((st.modes ++ [m]).length : Int)
      · rw [runModes_cons_full limit m ms st h hl]
        simp only [List.length_append, List.length_cons, List.length_nil, Nat.cast_add,
          Nat.cast_one, zero_add]
        omega
      · rw [runModes_cons_more limit m ms st h hl]
        apply ih
        simp only [not_le] at hl
        exact hl

theorem extractModes_length_le (caps : Option Caps) (limit : Int) (h : 1 ≤ limit) :
    ((extractModes caps limit).length : Int) ≤ limit := by
  cases caps with
  | none => simp [extractModes]; omega
  | some sts =>
    rw [extractModes_eq_runModes]
    apply runModes_length_le
    simp only [List.length_nil, Nat.cast_zero]
    omega


/-! ## Claims about extractModes -/

/-- C1. For every capability set (absent or present) and every limit, no two entries of
the result of `extractModes` have the same (Format, Width, Height, Framerate) tuple. -/
theorem extractModes_no_duplicate_tuples (caps : Option Caps) (limit : Int) :
    ((extractModes caps limit).map
      (fun m => (m.Format, m.Width, m.Height, m.Framerate))).Nodup := by
  apply List.Nodup.map _ (extractModes_nodup_all caps limit)
  intro a b h
  cases a; cases b
  simp only [Prod.mk.injEq] at h
  simp only [Mode.mk.injEq]
  exact h

/-- C2 (failing input). With the limit `0` and a capability set of one qualifying
structure that has two combinations, `extractModes` returns one mode, which is more than
the limit: the test `len(modes) >= limit` is only reached after an append. -/
theorem extractModes_limit_zero_returns_one :
    extractModes (some [some ⟨"video/x-raw", [("format", .str "NV12"), ("width", .int 640),
        ("height", .int 480), ("framerate", .list [.fraction 30 1, .fraction 15 1])]⟩]) 0 =
      [⟨"NV12", 640, 480, "30/1"⟩] ∧
    ¬ ((extractModes (some [some ⟨"video/x-raw", [("format", .str "NV12"),
        ("width", .int 640), ("height", .int 480),
        ("framerate", .list [.fraction 30 1, .fraction 15 1])]⟩]) 0).length ≤ 0) := by
  decide

/-- C8 (counterexample). A device that reports the width `0` and the framerate text
` 30/1` (with a leading space) yields a mode with `Width = 0` and that framerate: the
mode invariant fails on both counts. -/
theorem extractModes_mode_invariant_counterexample :
    extractModes (some [some ⟨"video/x-raw", [("format", .str "NV12"), ("width", .int 0),
        ("height", .int 480), ("framerate", .str " 30/1")]⟩]) 10 =
      [⟨"NV12", 0, 480, " 30/1"⟩] ∧
    ¬ modeInvariant ⟨"NV12", 0, 480, " 30/1"⟩ ∧
    ¬ (0 < (⟨"NV12", 0, 480, " 30/1"⟩ : Mode).Width) ∧
    matchesFramerateRe (⟨"NV12", 0, 480, " 30/1"⟩ : Mode).Framerate = false := by
  refine ⟨by decide, ?_, by decide, by decide⟩
  intro h
  exact absurd h.1 (by decide)

/-- C8 (amended). Every mode returned by `extractModes` takes its Format, Width, Height
and Framerate from the flattened `format`, `width`, `height` and `framerate` values of
one qualifying structure of the capability set, and its Framerate is the rendering
`<num>/<denom>` of a fraction value or a text that `parseFraction` accepts. -/
theorem extractModes_modes_from_candidates (caps : Option Caps) (limit : Int) (m : Mode)
    (h : m ∈ extractModes caps limit) :
    ∃ sts, caps = some sts ∧ ∃ s ∈ sts, qualifies s = true ∧
      m.Format ∈ extractStringValues (getStructureValue s "format") ∧
      m.Width ∈ extractIntValues (getStructureValue s "width") ∧
      m.Height ∈ extractIntValues (getStructureValue s "height") ∧
      m.Framerate ∈ extractFractionValues (getStructureValue s "framerate") ∧
      ((∃ num denom : Int, m.Framerate = fractionString num denom) ∨
        (parseFraction m.Framerate).2 = none) := by
  cases caps with
  | none => simp [extractModes] at h
  | some sts =>
    rw [extractModes_eq_runModes] at h
    rcases runModes_subset limit _ _ m h with h1 | h1
    · simp at h1
    · obtain ⟨s, hs, hq, hf, hw, hh, hfr⟩ := (mem_candidateModes sts m).mp h1
      exact ⟨sts, rfl, s, hs, hq, hf, hw, hh, hfr, extractFractionValues_origin _ _ hfr⟩

/-- C8 (witness). The amended statement at a capability set of one structure. -/
theorem extractModes_modes_from_candidates_witness :
    ∃ sts, some [some (⟨"video/x-raw", [("format", .str "NV12"), ("width", .int 0),
        ("height", .int 480), ("framerate", .str " 30/1")]⟩ : Structure)] = some sts ∧
      ∃ s ∈ sts, qualifies s = true ∧
      (⟨"NV12", 0, 480, " 30/1"⟩ : Mode).Format ∈
        extractStringValues (getStructureValue s "format") ∧
      (⟨"NV12", 0, 480, " 30/1"⟩ : Mode).Width ∈
        extractIntValues (getStructureValue s "width") ∧
      (⟨"NV12", 0, 480, " 30/1"⟩ : Mode).Height ∈
        extractIntValues (getStructureValue s "height") ∧
      (⟨"NV12", 0, 480, " 30/1"⟩ : Mode).Framerate ∈
        extractFractionValues (getStructureValue s "framerate") ∧
      ((∃ num denom : Int,
          (⟨"NV12", 0, 480, " 30/1"⟩ : Mode).Framerate = fractionString num denom) ∨
        (parseFraction (⟨"NV12", 0, 480, " 30/1"⟩ : Mode).Framerate).2 = none) :=
  extractModes_modes_from_candidates
    (some [some ⟨"video/x-raw", [("format", .str "NV12"), ("width", .int 0),
        ("height", .int 480), ("framerate", .str " 30/1")]⟩]) 10 ⟨"NV12", 0, 480, " 30/1"⟩
    (by decide)

theorem structureModes_of_not_qualifies (s : Option Structure) (h : qualifies s = false) :
    structureModes s = [] := by
  unfold structureModes
  rw [h]
  rfl

/-- C9. A structure that does not qualify contributes no mode: removing it from any
position of the capability set leaves the result of `extractModes` unchanged, for every
limit. A nil structure, a structure with another name, and a structure in which one of
the four keys is missing or flattens to no candidate do not qualify. -/
theorem extractModes_remove_nonqualifying (before after : List (Option Structure))
    (s : Option Structure) (limit : Int)
    (h : s = none ∨ ∃ s0, s = some s0 ∧ (s0.Name ≠ "video/x-raw" ∨
      ∃ key ∈ ["format", "width", "height", "framerate"],
        s0.GetValue key = none ∨
        (key = "format" ∧ extractStringValues (getStructureValue s key) = []) ∨
        (key = "width" ∧ extractIntValues (getStructureValue s key) = []) ∨
        (key = "height" ∧ extractIntValues (getStructureValue s key) = []) ∨
        (key = "framerate" ∧ extractFractionValues (getStructureValue s key) = []))) :
    qualifies s = false ∧
      extractModes (some (before ++ s :: after)) limit =
        extractModes (some (before ++ after)) limit := by
  have hq : qualifies s = false := by
    rcases h with h | ⟨s0, hs, h⟩
    · subst h; rfl
    · subst hs
      unfold qualifies
      rcases h with h | ⟨key, hkey, h⟩
      · simp [h]
      · have hmiss : ∀ k, s0.GetValue k = none → getStructureValue (some s0) k = .other := by
          intro k hk
          simp [getStructureValue, hk]
        simp only [List.mem_cons, List.mem_singleton, List.not_mem_nil, or_false] at hkey
        rcases hkey with rfl | rfl | rfl | rfl
        · have : extractStringValues (getStructureValue (some s0) "format") = [] := by
            rcases h with h | h | h | h | h
            · rw [hmiss _ h]; rfl
            · exact h.2
            · exact absurd h.1 (by decide)
            · exact absurd h.1 (by decide)
            · exact absurd h.1 (by decide)
          simp [this]
        · have : extractIntValues (getStructureValue (some s0) "width") = [] := by
            rcases h with h | h | h | h | h
            · rw [hmiss _ h]; rfl
            · exact absurd h.1 (by decide)
            · exact h.2
            · exact absurd h.1 (by decide)
            · exact absurd h.1 (by decide)
          simp [this]
        · have : extractIntValues (getStructureValue (some s0) "height") = [] := by
            rcases h with h | h | h | h | h
            · rw [hmiss _ h]; rfl
            · exact absurd h.1 (by decide)
            · exact absurd h.1 (by decide)
            · exact h.2
            · exact absurd h.1 (by decide)
          simp [this]
        · have : extractFractionValues (getStructureValue (some s0) "framerate") = [] := by
            rcases h with h | h | h | h | h
            · rw [hmiss _ h]; rfl
            · exact absurd h.1 (by decide)
            · exact absurd h.1 (by decide)
            · exact absurd h.1 (by decide)
            · exact h.2
          simp [this]
  refine ⟨hq, ?_⟩
  rw [extractModes_eq_runModes, extractModes_eq_runModes]
  have : candidateModes (before ++ s :: after) = candidateModes (before ++ after) := by
    unfold candidateModes
    simp only [List.flatMap_append, List.flatMap_cons, structureModes_of_not_qualifies s hq,
      List.nil_append]
  rw [this]

/-- C9 (witness). Removing a structure named `audio/x-raw` between two video
structures. -/
theorem extractModes_remove_nonqualifying_witness :
    qualifies (some ⟨"audio/x-raw", [("format", .str "S16LE")]⟩) = false ∧
      extractModes (some ([some ⟨"video/x-raw", [("format", .str "NV12"), ("width", .int 640),
          ("height", .int 480), ("framerate", .fraction 30 1)]⟩] ++
        some ⟨"audio/x-raw", [("format", .str "S16LE")]⟩ ::
        [some ⟨"video/x-raw", [("format", .str "I420"), ("width", .int 640),
          ("height", .int 480), ("framerate", .fraction 30 1)]⟩])) 5 =
      extractModes (some ([some ⟨"video/x-raw", [("format", .str "NV12"), ("width", .int 640),
          ("height", .int 480), ("framerate", .fraction 30 1)]⟩] ++
        [some ⟨"video/x-raw", [("format", .str "I420"), ("width", .int 640),
          ("height", .int 480), ("framerate", .fraction 30 1)]⟩])) 5 :=
  extractModes_remove_nonqualifying _ _ _ 5
    (Or.inr ⟨_, rfl, Or.inl (by decide)⟩)

/-- C10. When the limit is at least the total number of combinations, `extractModes`
returns the first occurrences, in order, of the list of all combinations: the
concatenation, over the qualifying structures in encounter order, of the cross-products
of their flattened fields with format outermost and framerate innermost. The result is in
insertion order; nothing sorts it. -/
theorem extractModes_eq_keepFirst (sts : Caps) (limit : Int)
    (h : ((candidateModes sts).length : Int) ≤ limit) :
    extractModes (some sts) limit = keepFirst (candidateModes sts) := by
  rw [extractModes_eq_runModes, keepFirst_eq]
  apply runModes_eq_foldl limit (candidateModes sts) ⟨[], []⟩ consistent_init
  · intro m hm
    simp only [List.nil_append] at hm
    exact bar_not_mem_candidate sts m hm
  · simp only [List.length_nil, Nat.cast_zero, zero_add]
    exact h

/-- C10 (witness). A capability set of two structures with six combinations, two of them
repeated, and the limit `6`: the result lists `NV12` before `I420`, as encountered. -/
theorem extractModes_eq_keepFirst_witness :
    extractModes (some [some ⟨"video/x-raw", [("format", .list [.str "NV12", .str "I420"]),
        ("width", .int 640), ("height", .int 480),
        ("framerate", .array [.fraction 30 1, .fraction 15 1])]⟩,
      some ⟨"video/x-raw", [("format", .str "NV12"), ("width", .int 640),
        ("height", .int 480), ("framerate", .list [.fraction 15 1, .fraction 60 1])]⟩]) 6 =
      [⟨"NV12", 640, 480, "30/1"⟩, ⟨"NV12", 640, 480, "15/1"⟩, ⟨"I420", 640, 480, "30/1"⟩,
        ⟨"I420", 640, 480, "15/1"⟩, ⟨"NV12", 640, 480, "60/1"⟩] :=
  (extractModes_eq_keepFirst _ 6 (by decide)).trans (by decide)


/-! ## Occurrences of a pattern in a text -/

theorem isPrefixOf_append_sep (c : Char) :
    ∀ (p l b : List Char), c ∉ p → p.isPrefixOf (l ++ c :: b) = p.isPrefixOf l := by
  intro p
  induction p with
  | nil => intro l b _; simp
  | cons y p ih =>
    intro l b h
    have hy : y ≠ c := fun e => h (e ▸ List.mem_cons_self _ _)
    have hp : c ∉ p := fun e => h (List.mem_cons_of_mem _ e)
    cases l with
    | nil =>
      simp only [List.nil_append, List.isPrefixOf, Bool.and_eq_false_imp, beq_iff_eq]
      intro e; exact absurd e hy
    | cons x l =>
      rw [List.cons_append, List.isPrefixOf_cons₂, List.isPrefixOf_cons₂, ih l b hp]

theorem occurrencesIn_cons (p : List Char) (c : Char) (cs : List Char) :
    occurrencesIn p (c :: cs) =
      (if p.isPrefixOf (c :: cs) then 1 else 0) + occurrencesIn p cs := rfl

theorem occurrencesIn_nil (p : List Char) (hp : p ≠ []) : occurrencesIn p [] = 0 := by
  cases p with
  | nil => exact absurd rfl hp
  | cons _ _ => rfl

/-- A character outside the pattern separates the occurrences on its two sides. -/
theorem occurrencesIn_append_sep (p : List Char) (hp : p ≠ []) (c : Char) (hc : c ∉ p) :
    ∀ (a b : List Char),
      occurrencesIn p (a ++ c :: b) = occurrencesIn p a + occurrencesIn p b := by
  intro a
  induction a with
  | nil =>
    intro b
    have := isPrefixOf_append_sep c p [] b hc
    simp only [List.nil_append] at this
    rw [List.nil_append, occurrencesIn_cons, this, occurrencesIn_nil p hp]
    cases p with
    | nil => exact absurd rfl hp
    | cons _ _ => simp [List.isPrefixOf]
  | cons x a ih =>
    intro b
    have := isPrefixOf_append_sep c p (x :: a) b hc
    simp only [List.cons_append] at this
    rw [List.cons_append, occurrencesIn_cons, occurrencesIn_cons, this, ih b]
    omega

theorem mem_of_contains_false (p : List Char) (c : Char) (h : (!p.contains c) = true) :
    c ∉ p := by
  intro hm
  have : p.contains c = true := List.elem_eq_true_of_mem hm
  rw [this] at h
  exact Bool.noConfusion h

/-- A text that ends outside the pattern separates its occurrences from those of what
follows. -/
theorem occurrencesIn_append_of_endsOutside (p : List Char) (hp : p ≠ []) (l t : List Char)
    (h : endsOutside p l = true) :
    occurrencesIn p (l ++ t) = occurrencesIn p l + occurrencesIn p t := by
  unfold endsOutside at h
  cases hl : l.getLast? with
  | none => rw [hl] at h; exact Bool.noConfusion h
  | some c =>
    rw [hl] at h
    have hc := mem_of_contains_false p c h
    obtain ⟨ys, rfl⟩ := List.getLast?_eq_some_iff.mp hl
    rw [List.append_assoc, List.singleton_append, occurrencesIn_append_sep p hp c hc,
      occurrencesIn_append_sep p hp c hc, occurrencesIn_nil p hp]
    omega

/-- A text that starts outside the pattern separates its occurrences from those of what
precedes. -/
theorem occurrencesIn_append_of_startsOutside (p : List Char) (hp : p ≠ []) (v t : List Char)
    (h : startsOutside p t = true) :
    occurrencesIn p (v ++ t) = occurrencesIn p v + occurrencesIn p t := by
  cases t with
  | nil => exact Bool.noConfusion h
  | cons c t =>
    have hc := mem_of_contains_false p c h
    rw [occurrencesIn_append_sep p hp c hc]
    have := occurrencesIn_append_sep p hp c hc [] t
    simp only [List.nil_append, occurrencesIn_nil p hp, zero_add] at this
    rw [this]

theorem startsOutside_append (p l t : List Char) (h : startsOutside p l = true) :
    startsOutside p (l ++ t) = true := by
  cases l with
  | nil => exact Bool.noConfusion h
  | cons c l => exact h

/-- The number of occurrences counts the positions at which the pattern starts, so it is
zero exactly when the pattern does not occur. -/
theorem occurrencesIn_eq_zero_iff (p : List Char) :
    ∀ s : List Char, occurrencesIn p s = 0 ↔ ¬ p <:+: s := by
  intro s
  induction s with
  | nil =>
    cases p with
    | nil => simp [occurrencesIn]
    | cons y p => simp [occurrencesIn, List.isPrefixOf]
  | cons c s ih =>
    rw [List.infix_cons_iff, occurrencesIn]
    by_cases hpre : p.isPrefixOf (c :: s) = true
    · have := List.isPrefixOf_iff_prefix.mp hpre
      simp [hpre, this]
    · have hn : ¬ p <+: c :: s := fun h => hpre (List.isPrefixOf_iff_prefix.mpr h)
      simp only [hpre, if_false, zero_add, ih, hn, false_or, Bool.false_eq_true]

theorem occurrencesIn_eq_zero_of_not_mem (p s : List Char) (c : Char) (hc : c ∈ p)
    (hs : c ∉ s) : occurrencesIn p s = 0 := by
  rw [occurrencesIn_eq_zero_iff]
  intro h
  exact hs (h.subset hc)

theorem occurrences_eq_zero_of_not_contains (p s : String) (h : ¬ containsText s p) :
    occurrencesIn p.data s.data = 0 :=
  (occurrencesIn_eq_zero_iff p.data s.data).mpr h

theorem ne_nil_of_isEmpty_false (p : List Char) (h : p.isEmpty = false) : p ≠ [] := by
  intro e; rw [e] at h; exact Bool.noConfusion h

theorem occ_fmtInt (p : List Char) (i : Int) (h : outsideDecimal p = true) :
    occurrencesIn p (fmtInt i).data = 0 := by
  unfold outsideDecimal at h
  obtain ⟨c, hc, hcc⟩ := List.any_eq_true.mp h
  simp only [Bool.and_eq_true, Bool.not_eq_true', bne_iff_ne, ne_eq] at hcc
  exact occurrencesIn_eq_zero_of_not_mem p _ c hc (fmtInt_not_mem i c hcc.1 hcc.2)

theorem occ_lit (p l t : List Char) (hp : p.isEmpty = false) (h : endsOutside p l = true) :
    occurrencesIn p (l ++ t) = occurrencesIn p l + occurrencesIn p t :=
  occurrencesIn_append_of_endsOutside p (ne_nil_of_isEmpty_false p hp) l t h

theorem occ_var_lit (p v l t : List Char) (hp : p.isEmpty = false)
    (h : startsOutside p l = true) :
    occurrencesIn p (v ++ (l ++ t)) = occurrencesIn p v + occurrencesIn p (l ++ t) :=
  occurrencesIn_append_of_startsOutside p (ne_nil_of_isEmpty_false p hp) v (l ++ t)
    (startsOutside_append _ l t h)

theorem occ_var_end (p v l : List Char) (hp : p.isEmpty = false)
    (h : startsOutside p l = true) :
    occurrencesIn p (v ++ l) = occurrencesIn p v + occurrencesIn p l :=
  occurrencesIn_append_of_startsOutside p (ne_nil_of_isEmpty_false p hp) v l h

theorem string_empty_data : ("" : String).data = [] := rfl

/-! ## The end of a text -/

theorem suffix_append_of_suffix_right {s a b : List Char} (h : s <:+ b) : s <:+ a ++ b :=
  h.trans (List.suffix_append a b)

theorem suffix_closing {s1 s2 l t : List Char} (h : s1 ++ s2 <:+ l) :
    s1 ++ (s2 ++ t) <:+ l ++ t := by
  obtain ⟨pre, hpre⟩ := h
  exact ⟨pre, by rw [← hpre]; simp⟩

theorem ne_empty_of_endsWith (s p : String) (h : endsWith s p) (hp : p.data ≠ []) :
    s ≠ "" := by
  intro hs
  rw [hs] at h
  obtain ⟨pre, hpre⟩ := h
  have : p.data = [] := by
    have hl := congrArg List.length hpre
    simp only [List.length_append, string_empty_data, List.length_nil] at hl
    exact List.length_eq_zero.mp (by omega)
  exact hp this


/-! ## The sink stage of the video pipelines -/

set_option maxRecDepth 100000 in
/-- The Darwin chains end with the sink stage, which holds their only `udpsink`. -/
theorem buildDarwin_sink (sourceName deviceProp : String) (mode : Mode) (host : String)
    (port : Int) (codec : Codec) :
    sinkProperty (buildDarwinVideoPipelineString sourceName (devicePropPrefix deviceProp) mode host port codec)
      sourceName deviceProp mode host port := by
  unfold sinkProperty buildDarwinVideoPipelineString devicePropPrefix endsWith udpsinkStage
  refine ⟨?_, fun h1 h2 h3 h4 h5 => ?_⟩
  · split_ifs <;>
      simp only [String.data_append, List.append_assoc] <;>
      repeat (first | exact suffix_closing (by decide) | apply suffix_append_of_suffix_right)
  · simp only [String.data_append] at h1 h2 h3 h4 h5
    split_ifs <;>
      simp (disch := decide) only [String.data_append, List.append_assoc, string_empty_data,
        List.nil_append, occ_lit, occ_var_lit, occ_var_end, occ_fmtInt, h1, h2, h3, h4, h5] <;>
      decide

set_option maxRecDepth 100000 in
/-- The Jetson chains end with the sink stage, which holds their only `udpsink`. -/
theorem buildJetson_sink (sourceName deviceProp : String) (mode : Mode) (host : String)
    (port : Int) (codec : Codec) :
    sinkProperty (buildJetsonVideoPipelineString sourceName (devicePropPrefix deviceProp) mode host port codec)
      sourceName deviceProp mode host port := by
  unfold sinkProperty buildJetsonVideoPipelineString devicePropPrefix endsWith udpsinkStage
  refine ⟨?_, fun h1 h2 h3 h4 h5 => ?_⟩
  · split_ifs <;>
      simp only [String.data_append, List.append_assoc] <;>
      repeat (first | exact suffix_closing (by decide) | apply suffix_append_of_suffix_right)
  · simp only [String.data_append] at h1 h2 h3 h4 h5
    split_ifs <;>
      simp (disch := decide) only [String.data_append, List.append_assoc, string_empty_data,
        List.nil_append, occ_lit, occ_var_lit, occ_var_end, occ_fmtInt, h1, h2, h3, h4, h5] <;>
      decide

set_option maxRecDepth 100000 in
/-- The Linux H264 chains end with the sink stage, which holds their only `udpsink`. -/
theorem buildLinuxH264_sink (sourceName deviceProp : String) (mode : Mode) (host : String)
    (port : Int) (linuxH264Mode : LinuxH264Mode) :
    sinkProperty (buildLinuxH264PipelineString sourceName (devicePropPrefix deviceProp) mode host port linuxH264Mode)
      sourceName deviceProp mode host port := by
  unfold sinkProperty buildLinuxH264PipelineString devicePropPrefix endsWith udpsinkStage
  refine ⟨?_, fun h1 h2 h3 h4 h5 => ?_⟩
  · split_ifs <;>
      simp only [String.data_append, List.append_assoc] <;>
      repeat (first | exact suffix_closing (by decide) | apply suffix_append_of_suffix_right)
  · simp only [String.data_append] at h1 h2 h3 h4 h5
    split_ifs <;>
      simp (disch := decide) only [String.data_append, List.append_assoc, string_empty_data,
        List.nil_append, occ_lit, occ_var_lit, occ_var_end, occ_fmtInt, h1, h2, h3, h4, h5] <;>
      decide

set_option maxRecDepth 100000 in
/-- The generic Linux chains end with the sink stage, which holds their only `udpsink`. -/
theorem buildLinuxGeneric_sink (sourceName deviceProp : String) (mode : Mode) (host : String)
    (port : Int) (codec : Codec) (linuxH264Mode : LinuxH264Mode) :
    sinkProperty (buildLinuxGenericVideoPipelineString sourceName (devicePropPrefix deviceProp)
      mode host port codec linuxH264Mode) sourceName deviceProp mode host port := by
  unfold buildLinuxGenericVideoPipelineString
  split_ifs
  all_goals first
    | exact buildLinuxH264_sink sourceName deviceProp mode host port linuxH264Mode
    | skip
  all_goals unfold sinkProperty devicePropPrefix endsWith udpsinkStage
  all_goals refine ⟨?_, fun h1 h2 h3 h4 h5 => ?_⟩
  all_goals first
    | (split_ifs <;>
        simp only [String.data_append, List.append_assoc] <;>
        repeat (first | exact suffix_closing (by decide) | apply suffix_append_of_suffix_right)
       done)
    | (simp only [String.data_append] at h1 h2 h3 h4 h5
       split_ifs <;>
         simp (disch := decide) only [String.data_append, List.append_assoc, string_empty_data,
           List.nil_append, occ_lit, occ_var_lit, occ_var_end, occ_fmtInt, h1, h2, h3, h4, h5] <;>
         decide)

set_option maxRecDepth 100000 in
/-- The Rock5 chains end with the sink stage, which holds their only `udpsink`. -/
theorem buildRock5_sink (sourceName deviceProp : String) (mode : Mode) (host : String)
    (port : Int) (codec : Codec) :
    sinkProperty (buildRock5VideoPipelineString sourceName (devicePropPrefix deviceProp)
      mode host port codec) sourceName deviceProp mode host port := by
  unfold buildRock5VideoPipelineString
  split_ifs
  all_goals first
    | exact buildLinuxGeneric_sink sourceName deviceProp mode host port codec LinuxH264VAAPI
    | skip
  all_goals unfold sinkProperty devicePropPrefix endsWith udpsinkStage
  all_goals refine ⟨?_, fun h1 h2 h3 h4 h5 => ?_⟩
  all_goals first
    | (split_ifs <;>
        simp only [String.data_append, List.append_assoc] <;>
        repeat (first | exact suffix_closing (by decide) | apply suffix_append_of_suffix_right)
       done)
    | (simp only [String.data_append] at h1 h2 h3 h4 h5
       split_ifs <;>
         simp (disch := decide) only [String.data_append, List.append_assoc, string_empty_data,
           List.nil_append, occ_lit, occ_var_lit, occ_var_end, occ_fmtInt, h1, h2, h3, h4, h5] <;>
         decide)

/-- Every video pipeline ends with the sink stage, which holds its only `udpsink`. -/
theorem buildVideo_sink (platform : String) (linuxVariant : LinuxVariant)
    (sourceName deviceProp : String) (mode : Mode) (host : String) (port : Int)
    (codec : Codec) (linuxH264Mode : LinuxH264Mode) :
    sinkProperty (buildVideoPipelineString platform linuxVariant sourceName deviceProp mode
      host port codec linuxH264Mode) sourceName deviceProp mode host port := by
  unfold buildVideoPipelineString buildLinuxVideoPipelineString
  simp only
  split_ifs
  · exact buildJetson_sink sourceName deviceProp mode host port codec
  · exact buildRock5_sink sourceName deviceProp mode host port codec
  · exact buildLinuxGeneric_sink sourceName deviceProp mode host port codec linuxH264Mode
  · exact buildDarwin_sink sourceName deviceProp mode host port codec


/-! ## Claims about the video pipeline -/

/-- With the variant `LinuxGeneric` the Linux dispatcher continues in the generic chains:
this is the call that the Rock5 builder makes for VP9 and AV1. -/
theorem buildLinux_generic_eq (sourceName devicePrefix : String) (mode : Mode)
    (host : String) (port : Int) (codec : Codec) (linuxH264Mode : LinuxH264Mode) :
    buildLinuxVideoPipelineString LinuxGeneric sourceName devicePrefix mode host port codec
        linuxH264Mode =
      buildLinuxGenericVideoPipelineString sourceName devicePrefix mode host port codec
        linuxH264Mode := by
  unfold buildLinuxVideoPipelineString
  rw [if_neg (by decide), if_neg (by decide)]

set_option maxRecDepth 100000 in
/-- C3 (failing input). For platform linux, variant jetson and codec AV1 the stage
immediately before the network sink is `rtph264pay`, not `rtpav1pay`: the Jetson builder
has no AV1 case, so the request falls into its H264 default and the output is the one of
codec H264. -/
theorem jetson_av1_payloader_is_h264 :
    (stageBeforeLast (buildVideoPipelineString "linux" LinuxJetson "v4l2src" ""
        ⟨"NV12", 1280, 720, "30/1"⟩ "10.0.0.5" 6000 CodecAV1 LinuxH264VAAPI)).map elementName =
      some "rtph264pay" ∧
    (splitStages (buildVideoPipelineString "linux" LinuxJetson "v4l2src" ""
        ⟨"NV12", 1280, 720, "30/1"⟩ "10.0.0.5" 6000 CodecAV1 LinuxH264VAAPI)).getLast? =
      some (udpsinkStage "10.0.0.5" 6000) ∧
    (stageBeforeLast (buildVideoPipelineString "linux" LinuxJetson "v4l2src" ""
        ⟨"NV12", 1280, 720, "30/1"⟩ "10.0.0.5" 6000 CodecAV1 LinuxH264VAAPI)).map elementName ≠
      some "rtpav1pay" ∧
    buildVideoPipelineString "linux" LinuxJetson "v4l2src" ""
        ⟨"NV12", 1280, 720, "30/1"⟩ "10.0.0.5" 6000 CodecAV1 LinuxH264VAAPI =
      buildVideoPipelineString "linux" LinuxJetson "v4l2src" ""
        ⟨"NV12", 1280, 720, "30/1"⟩ "10.0.0.5" 6000 CodecH264 LinuxH264VAAPI := by
  decide

/-- C4. For every platform, variant, codec, Linux H264 sub-mode, mode, source name, device
fragment, host and port, the output of `buildVideoPipelineString` is non-empty and ends
with ` ! ` followed by the stage `udpsink host=<host> port=<port> sync=false async=false`
(the port in decimal); when none of the source name, device fragment, mode format, mode
framerate and host contains `udpsink`, that text occurs exactly once in the output. -/
theorem buildVideoPipelineString_ends_in_sink (platform : String)
    (linuxVariant : LinuxVariant) (sourceName deviceProp : String) (mode : Mode)
    (host : String) (port : Int) (codec : Codec) (linuxH264Mode : LinuxH264Mode) :
    buildVideoPipelineString platform linuxVariant sourceName deviceProp mode host port codec
        linuxH264Mode ≠ "" ∧
      endsWith (buildVideoPipelineString platform linuxVariant sourceName deviceProp mode host
        port codec linuxH264Mode)
        (" ! " ++ ("udpsink host=" ++ host ++ " port=" ++ fmtInt port ++
          " sync=false async=false")) ∧
      (¬ containsText sourceName "udpsink" → ¬ containsText deviceProp "udpsink" →
        ¬ containsText mode.Format "udpsink" → ¬ containsText mode.Framerate "udpsink" →
        ¬ containsText host "udpsink" →
        occurrences "udpsink" (buildVideoPipelineString platform linuxVariant sourceName
          deviceProp mode host port codec linuxH264Mode) = 1) := by
  obtain ⟨h1, h2⟩ := buildVideo_sink platform linuxVariant sourceName deviceProp mode host port
    codec linuxH264Mode
  refine ⟨?_, h1, ?_⟩
  · apply ne_empty_of_endsWith _ _ h1
    simp [String.data_append]
  · intro a b c d e
    exact h2 (occurrences_eq_zero_of_not_contains _ _ a)
      (occurrences_eq_zero_of_not_contains _ _ b)
      (occurrences_eq_zero_of_not_contains _ _ c)
      (occurrences_eq_zero_of_not_contains _ _ d)
      (occurrences_eq_zero_of_not_contains _ _ e)

/-- C4 (witness). The Raspberry Pi libcamera chain with a device fragment: the output
holds `udpsink` exactly once. -/
theorem buildVideoPipelineString_ends_in_sink_witness :
    occurrences "udpsink" (buildVideoPipelineString "linux" LinuxRaspi "v4l2src"
      "device=\"/dev/video0\"" ⟨"NV12", 1920, 1080, "30/1"⟩ "127.0.0.1" 5000 CodecH264
      LinuxH264Libcamera) = 1 :=
  (buildVideoPipelineString_ends_in_sink "linux" LinuxRaspi "v4l2src" "device=\"/dev/video0\""
    ⟨"NV12", 1920, 1080, "30/1"⟩ "127.0.0.1" 5000 CodecH264 LinuxH264Libcamera).2.2
    (by unfold containsText; decide) (by unfold containsText; decide)
    (by unfold containsText; decide) (by unfold containsText; decide)
    (by unfold containsText; decide)


/-! ## Further claims about extractModes -/

theorem mem_foldl_keepFirst (ms : List Mode) :
    ∀ (acc : List Mode) (m : Mode), m ∈ acc ∨ m ∈ ms →
      m ∈ ms.foldl (fun acc x => if x ∈ acc then acc else acc ++ [x]) acc := by
  induction ms with
  | nil =>
    intro acc m h
    rcases h with h | h
    · exact h
    · simp at h
  | cons x ms ih =>
    intro acc m h
    rw [List.foldl_cons]
    apply ih
    by_cases hx : x ∈ acc
    · rw [if_pos hx]
      rcases h with h | h
      · exact Or.inl h
      · rcases List.mem_cons.mp h with h | h
        · exact Or.inl (h ▸ hx)
        · exact Or.inr h
    · rw [if_neg hx]
      rcases h with h | h
      · exact Or.inl (List.mem_append_left _ h)
      · rcases List.mem_cons.mp h with h | h
        · exact Or.inl (by simp [h])
        · exact Or.inr h

/-- Every mode of a list is among its first occurrences. -/
theorem mem_keepFirst (ms : List Mode) (m : Mode) (h : m ∈ ms) : m ∈ keepFirst ms :=
  mem_foldl_keepFirst ms [] m (Or.inr h)

/-- C11. Deduplication in `extractModes` is exactly by the 4-tuple: two combinations of a
capability set (tuples of flattened format, width, height and framerate of a qualifying
structure) have the same key `format|width|height|framerate` only if they are equal, also
when a format holds `|`; so with a limit of at least the number of combinations every
combination of every qualifying structure appears in the result. -/
theorem extractModes_dedup_by_tuple (sts : Caps) (limit : Int) :
    (∀ a ∈ candidateModes sts, ∀ b ∈ candidateModes sts, modeKey a = modeKey b → a = b) ∧
      (((candidateModes sts).length : Int) ≤ limit →
        ∀ s ∈ sts, qualifies s = true →
          ∀ format ∈ extractStringValues (getStructureValue s "format"),
          ∀ w ∈ extractIntValues (getStructureValue s "width"),
          ∀ h ∈ extractIntValues (getStructureValue s "height"),
          ∀ fr ∈ extractFractionValues (getStructureValue s "framerate"),
            (⟨format, w, h, fr⟩ : Mode) ∈ extractModes (some sts) limit) := by
  constructor
  · intro a ha b hb hk
    exact modeKey_inj a b (bar_not_mem_candidate sts a ha) (bar_not_mem_candidate sts b hb) hk
  · intro hl s hs hq format hf w hw h hh fr hfr
    rw [extractModes_eq_keepFirst sts limit hl]
    apply mem_keepFirst
    exact (mem_candidateModes sts _).mpr ⟨s, hs, hq, hf, hw, hh, hfr⟩

/-- C11 (witness). Two structures whose formats hold `|`: the tuples `a|1`, 2, 3 and
`a`, 1, 2 with the same framerate have different keys, and all four combinations are
returned. -/
theorem extractModes_dedup_by_tuple_witness :
    (⟨"a|1", 2, 3, "30/1"⟩ : Mode) ∈
      extractModes (some [some ⟨"video/x-raw", [("format", .list [.str "a|1", .str "a"]),
        ("width", .int 2), ("height", .int 3),
        ("framerate", .list [.fraction 30 1, .str "2|3/1", .fraction 15 1])]⟩]) 4 :=
  (extractModes_dedup_by_tuple
    [some ⟨"video/x-raw", [("format", .list [.str "a|1", .str "a"]),
        ("width", .int 2), ("height", .int 3),
        ("framerate", .list [.fraction 30 1, .str "2|3/1", .fraction 15 1])]⟩] 4).2
    (by decide) _ (List.mem_singleton.mpr rfl) (by decide) "a|1" (by decide) 2 (by decide)
    3 (by decide) "30/1" (by decide)

/-- C12. `extractModes` returns the empty sequence for every limit when the capability set
is absent, when it is empty, and when none of its structures qualifies; it is a total
function, so it has no error result. -/
theorem extractModes_empty (limit : Int) :
    extractModes none limit = [] ∧ extractModes (some []) limit = [] ∧
      ∀ sts : Caps, (∀ s ∈ sts, qualifies s = false) → extractModes (some sts) limit = [] := by
  refine ⟨rfl, rfl, ?_⟩
  intro sts h
  rw [extractModes_eq_runModes]
  have : candidateModes sts = [] := by
    unfold candidateModes
    rw [List.flatMap_eq_nil_iff]
    intro s hs
    exact structureModes_of_not_qualifies s (h s hs)
  rw [this]
  rfl

/-- C12 (witness). A capability set of an audio structure, a video structure without
framerate and a nil structure, with the limit `0`. -/
theorem extractModes_empty_witness :
    extractModes (some [some ⟨"audio/x-raw", [("format", .str "S16LE")]⟩,
      some ⟨"video/x-raw", [("format", .str "NV12"), ("width", .int 640),
        ("height", .int 480)]⟩, none]) 0 = [] :=
  (extractModes_empty 0).2.2 _ (by decide)


/-! ## Dispatch of the video pipeline -/

/-- The calls of the source, followed with enough fuel, return what the Rock5 builder of
this development returns: two levels suffice from the Rock5 builder. -/
theorem rock5VideoCalls_eq (fuel : Nat) (sourceName devicePrefix : String) (mode : Mode)
    (host : String) (port : Int) (codec : Codec) :
    rock5VideoCalls (fuel + 2) sourceName devicePrefix mode host port codec =
      some (buildRock5VideoPipelineString sourceName devicePrefix mode host port codec) := by
  unfold buildRock5VideoPipelineString
  rw [rock5VideoCalls]
  split_ifs
  · rfl
  · rfl
  · rw [linuxVideoCalls, if_neg (by decide), if_neg (by decide)]
  · rfl

/-- The calls of the source, followed with enough fuel, return what the Linux dispatcher
of this development returns: three levels suffice for every request. -/
theorem linuxVideoCalls_eq (fuel : Nat) (linuxVariant : LinuxVariant)
    (sourceName devicePrefix : String) (mode : Mode) (host : String) (port : Int)
    (codec : Codec) (linuxH264Mode : LinuxH264Mode) :
    linuxVideoCalls (fuel + 3) linuxVariant sourceName devicePrefix mode host port codec
        linuxH264Mode =
      some (buildLinuxVideoPipelineString linuxVariant sourceName devicePrefix mode host port
        codec linuxH264Mode) := by
  unfold buildLinuxVideoPipelineString
  rw [linuxVideoCalls]
  split_ifs
  · rfl
  · exact rock5VideoCalls_eq fuel sourceName devicePrefix mode host port codec
  · rfl

/-- C16. For the variant rock5 and the codec VP9 or AV1, `buildLinuxVideoPipelineString`
returns exactly the output of the variant generic for the same codec, source name, device
prefix, mode, host and port, whatever the two Linux H264 sub-modes are; the calls of the
source (dispatcher, Rock5 builder, dispatcher again) end at depth three, so three levels
of fuel give the result and two do not. -/
theorem rock5_vp9_av1_falls_back_to_generic (sourceName devicePrefix : String) (mode : Mode)
    (host : String) (port : Int) (codec : Codec) (m1 m2 : LinuxH264Mode)
    (h : codec = CodecVP9 ∨ codec = CodecAV1) :
    buildLinuxVideoPipelineString LinuxRock5 sourceName devicePrefix mode host port codec m1 =
        buildLinuxVideoPipelineString LinuxGeneric sourceName devicePrefix mode host port
          codec m2 ∧
      (∀ fuel : Nat,
        linuxVideoCalls (fuel + 3) LinuxRock5 sourceName devicePrefix mode host port codec m1 =
          some (buildLinuxVideoPipelineString LinuxGeneric sourceName devicePrefix mode host
            port codec m2)) ∧
      linuxVideoCalls 2 LinuxRock5 sourceName devicePrefix mode host port codec m1 = none := by
  have hne1 : codec ≠ CodecH264 := by
    rcases h with h | h <;> rw [h] <;> decide
  have hne2 : codec ≠ CodecH265 := by
    rcases h with h | h <;> rw [h] <;> decide
  have hne3 : codec ≠ CodecVP8 := by
    rcases h with h | h <;> rw [h] <;> decide
  have hgen : ∀ m : LinuxH264Mode,
      buildLinuxGenericVideoPipelineString sourceName devicePrefix mode host port codec m =
        buildLinuxGenericVideoPipelineString sourceName devicePrefix mode host port codec
          LinuxH264VAAPI := by
    intro m
    unfold buildLinuxGenericVideoPipelineString
    rw [if_neg hne1, if_neg hne1, if_neg hne2, if_neg hne2, if_neg hne3, if_neg hne3]
    rcases h with h | h
    · rw [if_pos h, if_pos h]
    · have : codec ≠ CodecVP9 := by rw [h]; decide
      rw [if_neg this, if_neg this, if_pos h, if_pos h]
  have hmain : buildLinuxVideoPipelineString LinuxRock5 sourceName devicePrefix mode host port
      codec m1 = buildLinuxVideoPipelineString LinuxGeneric sourceName devicePrefix mode host
      port codec m2 := by
    rw [buildLinux_generic_eq, hgen m2]
    unfold buildLinuxVideoPipelineString buildRock5VideoPipelineString
    rw [if_neg (by decide), if_pos rfl, if_neg hne2, if_neg hne3, if_pos h]
  refine ⟨hmain, ?_, ?_⟩
  · intro fuel
    rw [linuxVideoCalls_eq, hmain]
  · rw [linuxVideoCalls, if_neg (by decide), if_pos rfl, rock5VideoCalls, if_neg hne2,
      if_neg hne3, if_pos h, linuxVideoCalls]

/-- C16 (witness). The Rock5 AV1 request with the sub-modes libcamera and vaapi. -/
theorem rock5_vp9_av1_falls_back_to_generic_witness :
    buildLinuxVideoPipelineString LinuxRock5 "v4l2src" "" ⟨"NV12", 1280, 720, "30/1"⟩
        "10.0.0.5" 6000 CodecAV1 LinuxH264Libcamera =
      buildLinuxVideoPipelineString LinuxGeneric "v4l2src" "" ⟨"NV12", 1280, 720, "30/1"⟩
        "10.0.0.5" 6000 CodecAV1 LinuxH264VAAPI :=
  (rock5_vp9_av1_falls_back_to_generic "v4l2src" "" ⟨"NV12", 1280, 720, "30/1"⟩ "10.0.0.5"
    6000 CodecAV1 LinuxH264Libcamera LinuxH264VAAPI (Or.inr rfl)).1

/-- C17. `buildVideoPipelineString` is total and falls back to the H264 branch: for every
platform, variant, sub-mode, mode, source name, device fragment, host and port, and every
codec value other than H265, VP8, VP9 and AV1, the output equals the output for the codec
H264 with the other inputs unchanged; and the calls of the source between the Linux
dispatcher and the Rock5 builder return this output at depth three at most. -/
theorem buildVideoPipelineString_unmatched_codec (platform : String)
    (linuxVariant : LinuxVariant) (sourceName deviceProp : String) (mode : Mode)
    (host : String) (port : Int) (codec : Codec) (linuxH264Mode : LinuxH264Mode)
    (h1 : codec ≠ CodecH265) (h2 : codec ≠ CodecVP8) (h3 : codec ≠ CodecVP9)
    (h4 : codec ≠ CodecAV1) :
    buildVideoPipelineString platform linuxVariant sourceName deviceProp mode host port codec
        linuxH264Mode =
      buildVideoPipelineString platform linuxVariant sourceName deviceProp mode host port
        CodecH264 linuxH264Mode ∧
      ∀ fuel : Nat,
        linuxVideoCalls (fuel + 3) linuxVariant sourceName (devicePropPrefix deviceProp) mode
            host port codec linuxH264Mode =
          some (buildLinuxVideoPipelineString linuxVariant sourceName
            (devicePropPrefix deviceProp) mode host port codec linuxH264Mode) := by
  refine ⟨?_, fun fuel => linuxVideoCalls_eq fuel _ _ _ _ _ _ _ _⟩
  have k1 : CodecH264 ≠ CodecH265 := by decide
  have k2 : CodecH264 ≠ CodecVP8 := by decide
  have k3 : CodecH264 ≠ CodecVP9 := by decide
  have k4 : CodecH264 ≠ CodecAV1 := by decide
  unfold buildVideoPipelineString buildLinuxVideoPipelineString buildDarwinVideoPipelineString
    buildJetsonVideoPipelineString buildRock5VideoPipelineString
    buildLinuxGenericVideoPipelineString
  simp only [h1, h2, h3, h4, k1, k2, k3, k4, if_false, if_true, or_self, ite_self]

/-- C17 (witness). The codec value `MJPEG` on Darwin gives the H264 output. -/
theorem buildVideoPipelineString_unmatched_codec_witness :
    buildVideoPipelineString "darwin" LinuxGeneric "avfvideosrc" "" ⟨"NV12", 640, 480, "30/1"⟩
        "127.0.0.1" 5000 "MJPEG" LinuxH264VAAPI =
      buildVideoPipelineString "darwin" LinuxGeneric "avfvideosrc" ""
        ⟨"NV12", 640, 480, "30/1"⟩ "127.0.0.1" 5000 CodecH264 LinuxH264VAAPI :=
  (buildVideoPipelineString_unmatched_codec "darwin" LinuxGeneric "avfvideosrc" ""
    ⟨"NV12", 640, 480, "30/1"⟩ "127.0.0.1" 5000 "MJPEG" LinuxH264VAAPI (by decide) (by decide)
    (by decide) (by decide)).1

/-- C18. The Linux H264 sub-mode does not reach the output when the platform is not
linux (so for darwin), or the variant is jetson, or the codec is one of H265, VP8, VP9 and
AV1: any two values of `linuxH264Mode` then give identical output from
`buildVideoPipelineString`. -/
theorem buildVideoPipelineString_submode_irrelevant (platform : String)
    (linuxVariant : LinuxVariant) (sourceName deviceProp : String) (mode : Mode)
    (host : String) (port : Int) (codec : Codec) (m1 m2 : LinuxH264Mode)
    (h : platform ≠ "linux" ∨ linuxVariant = LinuxJetson ∨
      codec = CodecH265 ∨ codec = CodecVP8 ∨ codec = CodecVP9 ∨ codec = CodecAV1) :
    buildVideoPipelineString platform linuxVariant sourceName deviceProp mode host port codec
        m1 =
      buildVideoPipelineString platform linuxVariant sourceName deviceProp mode host port
        codec m2 := by
  unfold buildVideoPipelineString buildLinuxVideoPipelineString
  simp only
  rcases h with h | h | h
  · rw [if_neg h, if_neg h]
  · rw [if_pos h, if_pos h]
  · have hne : codec ≠ CodecH264 := by
      rcases h with h | h | h | h <;> rw [h] <;> decide
    split_ifs
    · rfl
    · rfl
    · unfold buildLinuxGenericVideoPipelineString
      rw [if_neg hne, if_neg hne]
      rcases h with h | h | h | h
      · rw [if_pos h, if_pos h]
      · have e1 : codec ≠ CodecH265 := by rw [h]; decide
        rw [if_neg e1, if_neg e1, if_pos h, if_pos h]
      · have e1 : codec ≠ CodecH265 := by rw [h]; decide
        have e2 : codec ≠ CodecVP8 := by rw [h]; decide
        rw [if_neg e1, if_neg e1, if_neg e2, if_neg e2, if_pos h, if_pos h]
      · have e1 : codec ≠ CodecH265 := by rw [h]; decide
        have e2 : codec ≠ CodecVP8 := by rw [h]; decide
        have e3 : codec ≠ CodecVP9 := by rw [h]; decide
        rw [if_neg e1, if_neg e1, if_neg e2, if_neg e2, if_neg e3, if_neg e3, if_pos h,
          if_pos h]
    · rfl

/-- C18 (witness). The generic Linux VP8 request with the sub-modes libcamera and
camera-h264. -/
theorem buildVideoPipelineString_submode_irrelevant_witness :
    buildVideoPipelineString "linux" LinuxGeneric "v4l2src" "" ⟨"NV12", 640, 480, "30/1"⟩
        "127.0.0.1" 5000 CodecVP8 LinuxH264Libcamera =
      buildVideoPipelineString "linux" LinuxGeneric "v4l2src" "" ⟨"NV12", 640, 480, "30/1"⟩
        "127.0.0.1" 5000 CodecVP8 LinuxH264CameraH264 :=
  buildVideoPipelineString_submode_irrelevant "linux" LinuxGeneric "v4l2src" ""
    ⟨"NV12", 640, 480, "30/1"⟩ "127.0.0.1" 5000 CodecVP8 LinuxH264Libcamera
    LinuxH264CameraH264 (Or.inr (Or.inr (Or.inr (Or.inl rfl))))


/-! ## The two concrete scenarios -/

theorem infix_append_of_infix_right {p a t : List Char} (h : p <:+: t) : p <:+: a ++ t := by
  obtain ⟨x, y, hxy⟩ := h
  exact ⟨a ++ x, y, by rw [← hxy]; simp⟩

theorem containsText_of_data (out src : String) (tail p : List Char)
    (h : out.data = src.data ++ tail) (hp : p <:+: tail) : p <:+: out.data := by
  rw [h]
  exact infix_append_of_infix_right hp

set_option maxRecDepth 100000 in
/-- The output of the Darwin H264 scenario: the source name followed by a fixed text. -/
theorem darwin_h264_scenario_output (linuxVariant : LinuxVariant) (sourceName : String)
    (linuxH264Mode : LinuxH264Mode) :
    buildVideoPipelineString "darwin" linuxVariant sourceName "" ⟨"NV12", 1920, 1080, "30/1"⟩
        "127.0.0.1" 5000 CodecH264 linuxH264Mode =
      sourceName ++ " do-stats=true do-timestamp=true ! video/x-raw,width=1920,height=1080,framerate=30/1,format=NV12 ! queue max-size-buffers=1 leaky=downstream ! vtenc_h264_hw realtime=true ! h264parse ! rtph264pay config-interval=-1 aggregate-mode=zero-latency ! udpsink host=127.0.0.1 port=5000 sync=false async=false" := by
  unfold buildVideoPipelineString buildDarwinVideoPipelineString devicePropPrefix
  simp only
  rw [if_neg (by decide), if_neg (by decide), if_neg (by decide), if_neg (by decide),
    if_neg (by decide), if_pos True.intro]
  apply String.ext
  simp only [String.data_append, List.append_assoc]
  congr 1

set_option maxRecDepth 100000 in
/-- C19. For platform darwin, codec H264, the mode NV12 1920x1080 30/1, host 127.0.0.1,
port 5000 and an empty device fragment (any source name, variant and sub-mode), the output
of `buildVideoPipelineString` contains the encoder stage `vtenc_h264_hw`, contains the
caps fragment `width=1920,height=1080,framerate=30/1,format=NV12`, and ends with
`udpsink host=127.0.0.1 port=5000 sync=false async=false`. -/
theorem darwin_h264_scenario (linuxVariant : LinuxVariant) (sourceName : String)
    (linuxH264Mode : LinuxH264Mode) :
    containsText (buildVideoPipelineString "darwin" linuxVariant sourceName ""
        ⟨"NV12", 1920, 1080, "30/1"⟩ "127.0.0.1" 5000 CodecH264 linuxH264Mode)
        " ! vtenc_h264_hw realtime=true ! " ∧
      containsText (buildVideoPipelineString "darwin" linuxVariant sourceName ""
        ⟨"NV12", 1920, 1080, "30/1"⟩ "127.0.0.1" 5000 CodecH264 linuxH264Mode)
        "width=1920,height=1080,framerate=30/1,format=NV12" ∧
      endsWith (buildVideoPipelineString "darwin" linuxVariant sourceName ""
        ⟨"NV12", 1920, 1080, "30/1"⟩ "127.0.0.1" 5000 CodecH264 linuxH264Mode)
        "udpsink host=127.0.0.1 port=5000 sync=false async=false" := by
  rw [darwin_h264_scenario_output]
  unfold containsText endsWith
  simp only [String.data_append]
  refine ⟨infix_append_of_infix_right (by decide), infix_append_of_infix_right (by decide),
    suffix_append_of_suffix_right (by decide)⟩


set_option maxRecDepth 100000 in
/-- The Jetson VP9 chain for the host 10.0.0.5 and the port 6000: its encoder and
payloader stages and its last stage. -/
theorem jetson_vp9_stages (sourceName deviceProp : String) (mode : Mode) :
    containsText (buildJetsonVideoPipelineString sourceName (devicePropPrefix deviceProp) mode
        "10.0.0.5" 6000 CodecVP9)
        " ! nvv4l2vp9enc bitrate=30000000 ! rtpvp9pay ! udpsink " ∧
      endsWith (buildJetsonVideoPipelineString sourceName (devicePropPrefix deviceProp) mode
        "10.0.0.5" 6000 CodecVP9)
        " ! udpsink host=10.0.0.5 port=6000 sync=false async=false" := by
  have e1 : ¬ (CodecVP9 = CodecH265) := by decide
  have e2 : ¬ (CodecVP9 = CodecVP8) := by decide
  unfold buildJetsonVideoPipelineString devicePropPrefix containsText endsWith
  rw [if_neg e1, if_neg e2, if_pos rfl]
  constructor
  · split_ifs <;>
      simp only [String.data_append, List.append_assoc] <;>
      repeat (first | exact (by decide) | apply infix_append_of_infix_right)
  · split_ifs <;>
      simp only [String.data_append, List.append_assoc] <;>
      repeat (first | exact (by decide) | apply suffix_append_of_suffix_right)

set_option maxRecDepth 100000 in
/-- The number of `capsfilter` in the Jetson chains for VP9, H264 and H265. -/
theorem jetson_capsfilter_count (sourceName deviceProp : String) (mode : Mode)
    (h1 : occurrencesIn "capsfilter".data sourceName.data = 0)
    (h2 : occurrencesIn "capsfilter".data deviceProp.data = 0)
    (h3 : occurrencesIn "capsfilter".data mode.Framerate.data = 0) :
    occurrencesIn "capsfilter".data (buildJetsonVideoPipelineString sourceName
        (devicePropPrefix deviceProp) mode "10.0.0.5" 6000 CodecVP9).data = 0 ∧
      occurrencesIn "capsfilter".data (buildJetsonVideoPipelineString sourceName
        (devicePropPrefix deviceProp) mode "10.0.0.5" 6000 CodecH264).data = 1 ∧
      occurrencesIn "capsfilter".data (buildJetsonVideoPipelineString sourceName
        (devicePropPrefix deviceProp) mode "10.0.0.5" 6000 CodecH265).data = 1 := by
  have e1 : ¬ (CodecVP9 = CodecH265) := by decide
  have e2 : ¬ (CodecVP9 = CodecVP8) := by decide
  have e3 : ¬ (CodecH264 = CodecH265) := by decide
  have e4 : ¬ (CodecH264 = CodecVP8) := by decide
  have e5 : ¬ (CodecH264 = CodecVP9) := by decide
  unfold buildJetsonVideoPipelineString devicePropPrefix
  rw [if_neg e1, if_neg e2, if_pos rfl, if_neg e3, if_neg e4, if_neg e5, if_pos rfl]
  simp only [String.data_append] at h1 h2 h3
  refine ⟨?_, ?_, ?_⟩ <;>
    split_ifs <;>
    simp (disch := decide) only [String.data_append, List.append_assoc, string_empty_data,
      List.nil_append, occ_lit, occ_var_lit, occ_var_end, occ_fmtInt, h1, h2, h3] <;>
    decide

/-- C20. For platform linux, variant jetson, codec VP9, host 10.0.0.5 and port 6000, with
any mode, source name and device fragment that do not contain `capsfilter` (and any
sub-mode), the output of `buildVideoPipelineString` contains the stage
`nvv4l2vp9enc bitrate=30000000` directly followed by the stage `rtpvp9pay`, ends with the
stage `udpsink host=10.0.0.5 port=6000 sync=false async=false`, and contains no
`capsfilter`, whereas the Jetson outputs for H264 and for H265 each contain it once. -/
theorem jetson_vp9_scenario (sourceName deviceProp : String) (mode : Mode)
    (linuxH264Mode : LinuxH264Mode)
    (h1 : ¬ containsText sourceName "capsfilter") (h2 : ¬ containsText deviceProp "capsfilter")
    (h3 : ¬ containsText mode.Framerate "capsfilter") :
    containsText (buildVideoPipelineString "linux" LinuxJetson sourceName deviceProp mode
        "10.0.0.5" 6000 CodecVP9 linuxH264Mode)
        " ! nvv4l2vp9enc bitrate=30000000 ! rtpvp9pay ! udpsink " ∧
      endsWith (buildVideoPipelineString "linux" LinuxJetson sourceName deviceProp mode
        "10.0.0.5" 6000 CodecVP9 linuxH264Mode)
        " ! udpsink host=10.0.0.5 port=6000 sync=false async=false" ∧
      occurrences "capsfilter" (buildVideoPipelineString "linux" LinuxJetson sourceName
        deviceProp mode "10.0.0.5" 6000 CodecVP9 linuxH264Mode) = 0 ∧
      ¬ containsText (buildVideoPipelineString "linux" LinuxJetson sourceName deviceProp mode
        "10.0.0.5" 6000 CodecVP9 linuxH264Mode) "capsfilter" ∧
      occurrences "capsfilter" (buildVideoPipelineString "linux" LinuxJetson sourceName
        deviceProp mode "10.0.0.5" 6000 CodecH264 linuxH264Mode) = 1 ∧
      occurrences "capsfilter" (buildVideoPipelineString "linux" LinuxJetson sourceName
        deviceProp mode "10.0.0.5" 6000 CodecH265 linuxH264Mode) = 1 := by
  have hj : ∀ codec : Codec,
      buildVideoPipelineString "linux" LinuxJetson sourceName deviceProp mode "10.0.0.5" 6000
          codec linuxH264Mode =
        buildJetsonVideoPipelineString sourceName (devicePropPrefix deviceProp) mode
          "10.0.0.5" 6000 codec := by
    intro codec
    unfold buildVideoPipelineString buildLinuxVideoPipelineString
    simp only [if_true]
  obtain ⟨a1, a2⟩ := jetson_vp9_stages sourceName deviceProp mode
  obtain ⟨b1, b2, b3⟩ := jetson_capsfilter_count sourceName deviceProp mode
    (occurrences_eq_zero_of_not_contains _ _ h1) (occurrences_eq_zero_of_not_contains _ _ h2)
    (occurrences_eq_zero_of_not_contains _ _ h3)
  rw [hj CodecVP9, hj CodecH264, hj CodecH265]
  refine ⟨a1, a2, b1, ?_, b2, b3⟩
  exact (occurrencesIn_eq_zero_iff _ _).mp b1

/-- C20 (witness). The scenario with the source `v4l2src`, a device fragment and the mode
NV12 1280x720 30/1: the output holds no `capsfilter`. -/
theorem jetson_vp9_scenario_witness :
    occurrences "capsfilter" (buildVideoPipelineString "linux" LinuxJetson "v4l2src"
      "device=\"/dev/video0\"" ⟨"NV12", 1280, 720, "30/1"⟩ "10.0.0.5" 6000 CodecVP9
      LinuxH264VAAPI) = 0 :=
  (jetson_vp9_scenario "v4l2src" "device=\"/dev/video0\"" ⟨"NV12", 1280, 720, "30/1"⟩
    LinuxH264VAAPI (by unfold containsText; decide) (by unfold containsText; decide)
    (by unfold containsText; decide)).2.2.1


/-! ## The device fragment -/

theorem stringProp_of_usable (values : List (String × Value)) (key s : String)
    (h : usableString values key = some s) : stringProp values key = s ∧ s ≠ "" := by
  unfold usableString at h
  unfold stringProp
  cases hl : values.lookup key with
  | none => rw [hl] at h; exact Option.noConfusion h
  | some v =>
    rw [hl] at h
    cases v with
    | str t =>
      by_cases ht : t = ""
      · simp only [ht, if_true] at h
        exact Option.noConfusion h
      · simp only [ht, if_false, Option.some.injEq] at h
        subst h
        simp only [ne_eq, ht, not_false_eq_true, if_true, and_self]
    | _ => exact Option.noConfusion h

theorem stringProp_of_not_usable (values : List (String × Value)) (key : String)
    (h : usableString values key = none) : stringProp values key = "" := by
  unfold usableString at h
  unfold stringProp
  cases hl : values.lookup key with
  | none => rfl
  | some v =>
    rw [hl] at h
    cases v with
    | str t =>
      by_cases ht : t = ""
      · simp only [ne_eq, ht, not_true_eq_false, if_false]
      · simp only [ht, if_false] at h
        exact Option.noConfusion h
    | _ => rfl

theorem usableInt_aux (w i : Int) (h : (if 0 ≤ w then some w else none) = some i) :
    w = i ∧ 0 ≤ i := by
  by_cases h0 : 0 ≤ w
  · rw [if_pos h0] at h
    injection h with h
    subst h
    exact ⟨rfl, h0⟩
  · rw [if_neg h0] at h
    exact Option.noConfusion h

theorem usableInt_aux_none (w : Int) (h : (if 0 ≤ w then some w else none) = none) :
    ¬ w ≥ 0 := by
  by_cases h0 : 0 ≤ w
  · rw [if_pos h0] at h
    exact Option.noConfusion h
  · exact h0

theorem intProp_of_usable (values : List (String × Value)) (key : String) (i : Int)
    (h : usableInt values key = some i) : intProp values key = i ∧ 0 ≤ i := by
  unfold usableInt at h
  unfold intProp toInt
  cases hl : values.lookup key with
  | none => rw [hl] at h; exact Option.noConfusion h
  | some v =>
    rw [hl] at h
    cases v with
    | int w => simpa using usableInt_aux w i h
    | int32 w => simpa using usableInt_aux w i h
    | int64 w => simpa using usableInt_aux w i h
    | uint w => simpa using usableInt_aux (wrapInt w) i h
    | uint64 w => simpa using usableInt_aux (wrapInt w) i h
    | uint32 w =>
      simp only [Option.some.injEq] at h
      subst h
      simp
    | _ => exact Option.noConfusion h

theorem intProp_of_not_usable (values : List (String × Value)) (key : String)
    (h : usableInt values key = none) : ¬ intProp values key ≥ 0 := by
  unfold usableInt at h
  unfold intProp toInt
  cases hl : values.lookup key with
  | none => simp
  | some v =>
    rw [hl] at h
    cases v with
    | int w => simpa using usableInt_aux_none w h
    | int32 w => simpa using usableInt_aux_none w h
    | int64 w => simpa using usableInt_aux_none w h
    | uint w => simpa using usableInt_aux_none (wrapInt w) h
    | uint64 w => simpa using usableInt_aux_none (wrapInt w) h
    | uint32 w => exact Option.noConfusion h
    | _ => simp

/-- The cascade of `buildDeviceProperty` over the five properties, stated on the mapping
itself. -/
theorem buildDeviceProperty_cascade (printTable : Char → Bool)
    (values : List (String × Value)) :
    buildDeviceProperty printTable (some ⟨some values⟩) =
      match usableString values "device" with
      | some s => "device=" ++ Quote printTable s
      | none =>
        match usableString values "path" with
        | some s => "device=" ++ Quote printTable s
        | none =>
          match usableString values "target-object" with
          | some s => "target-object=" ++ Quote printTable s
          | none =>
            match usableString values "node.id" with
            | some s => "target-object=" ++ Quote printTable s
            | none =>
              match usableInt values "device-index" with
              | some i => "device-index=" ++ fmtInt i
              | none => "" := by
  unfold buildDeviceProperty
  simp only
  cases h1 : usableString values "device" with
  | some s =>
    obtain ⟨a, b⟩ := stringProp_of_usable values "device" s h1
    rw [a, if_pos b]
  | none =>
    rw [stringProp_of_not_usable values "device" h1, if_neg (fun h => h rfl)]
    cases h2 : usableString values "path" with
    | some s =>
      obtain ⟨a, b⟩ := stringProp_of_usable values "path" s h2
      rw [a, if_pos b]
    | none =>
      rw [stringProp_of_not_usable values "path" h2, if_neg (fun h => h rfl)]
      cases h3 : usableString values "target-object" with
      | some s =>
        obtain ⟨a, b⟩ := stringProp_of_usable values "target-object" s h3
        rw [a, if_pos b]
      | none =>
        rw [stringProp_of_not_usable values "target-object" h3, if_neg (fun h => h rfl)]
        cases h4 : usableString values "node.id" with
        | some s =>
          obtain ⟨a, b⟩ := stringProp_of_usable values "node.id" s h4
          rw [a, if_pos b]
        | none =>
          rw [stringProp_of_not_usable values "node.id" h4, if_neg (fun h => h rfl)]
          cases h5 : usableInt values "device-index" with
          | some i =>
            obtain ⟨a, b⟩ := intProp_of_usable values "device-index" i h5
            rw [a, if_pos b]
          | none =>
            rw [if_neg (intProp_of_not_usable values "device-index" h5)]

/-- C13. For every device property mapping, `buildDeviceProperty` returns the fragment of
the first property of the list device, path, target-object, node.id, device-index that is
present in the mapping (the mapping holds under the key a non-empty string, or for
device-index an integer that is not negative), and the empty text when none is. Case by
case: a present `device` gives `device=<q>` whatever the other properties are; otherwise a
present `path` gives `device=<q>`; otherwise a present `target-object` gives
`target-object=<q>`; otherwise a present `node.id` gives `target-object=<q>`; otherwise a
present `device-index` gives `device-index=<n>`; otherwise the result is empty. A device
that is nil or has no properties gives the empty text. -/
theorem buildDeviceProperty_precedence (printTable : Char → Bool)
    (values : List (String × Value)) :
    buildDeviceProperty printTable (some ⟨some values⟩) =
        (devicePropertyKeys.findSome? (presentFragment printTable values)).getD "" ∧
    (∀ s, usableString values "device" = some s →
      buildDeviceProperty printTable (some ⟨some values⟩) = "device=" ++ Quote printTable s) ∧
    (usableString values "device" = none → ∀ s, usableString values "path" = some s →
      buildDeviceProperty printTable (some ⟨some values⟩) = "device=" ++ Quote printTable s) ∧
    (usableString values "device" = none → usableString values "path" = none →
      ∀ s, usableString values "target-object" = some s →
      buildDeviceProperty printTable (some ⟨some values⟩) =
        "target-object=" ++ Quote printTable s) ∧
    (usableString values "device" = none → usableString values "path" = none →
      usableString values "target-object" = none →
      ∀ s, usableString values "node.id" = some s →
      buildDeviceProperty printTable (some ⟨some values⟩) =
        "target-object=" ++ Quote printTable s) ∧
    (usableString values "device" = none → usableString values "path" = none →
      usableString values "target-object" = none → usableString values "node.id" = none →
      ∀ i, usableInt values "device-index" = some i →
      buildDeviceProperty printTable (some ⟨some values⟩) = "device-index=" ++ fmtInt i) ∧
    (usableString values "device" = none → usableString values "path" = none →
      usableString values "target-object" = none → usableString values "node.id" = none →
      usableInt values "device-index" = none →
      buildDeviceProperty printTable (some ⟨some values⟩) = "") ∧
    buildDeviceProperty printTable none = "" ∧
    buildDeviceProperty printTable (some ⟨none⟩) = "" := by
  have k1 : ¬ ("path" = "device") := by decide
  have k2 : ¬ ("target-object" = "device") := by decide
  have k3 : ¬ ("target-object" = "path") := by decide
  have k4 : ¬ ("node.id" = "device") := by decide
  have k5 : ¬ ("node.id" = "path") := by decide
  have k6 : ¬ ("node.id" = "target-object") := by decide
  have k7 : ¬ ("device-index" = "device") := by decide
  have k8 : ¬ ("device-index" = "path") := by decide
  have k9 : ¬ ("device-index" = "target-object") := by decide
  have k10 : ¬ ("device-index" = "node.id") := by decide
  have hc := buildDeviceProperty_cascade printTable values
  refine ⟨?_, ?_, ?_, ?_, ?_, ?_, ?_, rfl, rfl⟩
  · rw [hc]
    unfold devicePropertyKeys presentFragment
    simp only [List.findSome?, k1, k2, k3, k4, k5, k6, k7, k8, k9, k10, or_false, false_or,
      or_true, true_or, or_self, if_true, if_false]
    cases usableString values "device" <;> cases usableString values "path" <;>
      cases usableString values "target-object" <;> cases usableString values "node.id" <;>
      cases usableInt values "device-index" <;> rfl
  · intro s h1
    rw [hc, h1]
  · intro h1 s h2
    rw [hc, h1, h2]
  · intro h1 h2 s h3
    rw [hc, h1, h2, h3]
  · intro h1 h2 h3 s h4
    rw [hc, h1, h2, h3, h4]
  · intro h1 h2 h3 h4 i h5
    rw [hc, h1, h2, h3, h4, h5]
  · intro h1 h2 h3 h4 h5
    rw [hc, h1, h2, h3, h4, h5]

set_option maxRecDepth 100000 in
/-- C13 (witness). A device with both `device` and `device-index` set yields the `device=`
fragment, and a device with `device-index` alone the `device-index=` fragment. -/
theorem buildDeviceProperty_precedence_witness :
    buildDeviceProperty (fun _ => true)
        (some ⟨some [("device-index", .int 2), ("device", .str "/dev/video0")]⟩) =
      "device=\"/dev/video0\"" ∧
    buildDeviceProperty (fun _ => true) (some ⟨some [("device-index", .int 2)]⟩) =
      "device-index=2" :=
  ⟨((buildDeviceProperty_precedence (fun _ => true)
      [("device-index", .int 2), ("device", .str "/dev/video0")]).2.1 "/dev/video0"
      (by decide)).trans (by decide),
    ((buildDeviceProperty_precedence (fun _ => true) [("device-index", .int 2)]).2.2.2.2.2.1
      (by decide) (by decide) (by decide) (by decide) 2 (by decide)).trans (by decide)⟩

theorem appendEscapedRune_of_isPrint (printTable : Char → Bool) (c : Char)
    (h : IsPrint printTable c = true) :
    appendEscapedRune printTable c = if c = '"' ∨ c = '\\' then ['\\', c] else [c] := by
  unfold appendEscapedRune
  simp only
  by_cases hq : c = '"' ∨ c = '\\'
  · rw [if_pos hq, if_pos hq]
  · rw [if_neg hq, if_neg hq, if_pos h]

theorem flatMap_escape_of_isPrint (printTable : Char → Bool) :
    ∀ l : List Char, (∀ c ∈ l, IsPrint printTable c = true) →
      l.flatMap (appendEscapedRune printTable) =
        l.flatMap (fun c => if c = '"' ∨ c = '\\' then ['\\', c] else [c]) := by
  intro l
  induction l with
  | nil => intro _; rfl
  | cons c l ih =>
    intro h
    simp only [List.flatMap_cons]
    rw [appendEscapedRune_of_isPrint printTable c (h c (List.mem_cons_self _ _)),
      ih (fun x hx => h x (List.mem_cons_of_mem _ hx))]

/-- On a text of printable characters `strconv.Quote` only adds the two double quotes and
a backslash before every double quote and backslash. -/
theorem Quote_of_isPrint (printTable : Char → Bool) (s : String)
    (h : ∀ c ∈ s.data, IsPrint printTable c = true) : Quote printTable s = quoteSimple s := by
  unfold Quote quoteSimple
  rw [flatMap_escape_of_isPrint printTable s.data h]

theorem fmtInt_digits_of_nonneg (n : Int) (h : 0 ≤ n) :
    ∀ c ∈ (fmtInt n).data, c.isDigit = true := by
  obtain ⟨ds, _, a2, _, a4⟩ := fmtInt_spec n
  have : ¬ n < 0 := by omega
  rw [a4, if_neg this]
  exact a2

set_option maxRecDepth 100000 in
/-- C14 (counterexample). For a device whose property `device` holds a tab between `a` and
`b`, the fragment is `device="a\tb"` with the two characters backslash and `t`: it is not
the value between double quotes with only quotes and backslashes escaped. -/
theorem buildDeviceProperty_quote_counterexample :
    buildDeviceProperty (fun _ => true) (some ⟨some [("device", .str "a\tb")]⟩) =
        "device=\"a\\tb\"" ∧
      buildDeviceProperty (fun _ => true) (some ⟨some [("device", .str "a\tb")]⟩) ≠
        "device=" ++ quoteSimple "a\tb" := by
  decide

/-- C14 (amended). The fragment returned by `buildDeviceProperty` has exactly one of these
shapes: `device=<q>` when the winning property is `device` or `path`, `target-object=<q>`
when it is `target-object` or `node.id`, where `<q>` is `strconv.Quote` of the non-empty
value; `device-index=<n>` with `n >= 0` in unquoted decimal digits when it is
`device-index`; and the empty text when the device is absent, has no properties, or none
of the five properties is present. For a value of printable characters `<q>` is the value
between double quotes with a backslash before every embedded double quote and backslash;
other characters are written as Go escape sequences. -/
theorem buildDeviceProperty_shape (printTable : Char → Bool) :
    buildDeviceProperty printTable none = "" ∧
      buildDeviceProperty printTable (some ⟨none⟩) = "" ∧
      (∀ values : List (String × Value),
        ((∃ key v, (key = "device" ∨ key = "path") ∧ v = stringProp values key ∧ v ≠ "" ∧
            devicePropertyKeys.find? (propertyPresent values) = some key ∧
            buildDeviceProperty printTable (some ⟨some values⟩) =
              "device=" ++ Quote printTable v) ∨
          (∃ key v, (key = "target-object" ∨ key = "node.id") ∧ v = stringProp values key ∧
            v ≠ "" ∧ devicePropertyKeys.find? (propertyPresent values) = some key ∧
            buildDeviceProperty printTable (some ⟨some values⟩) =
              "target-object=" ++ Quote printTable v) ∨
          (∃ n : Int, n = intProp values "device-index" ∧ 0 ≤ n ∧
            devicePropertyKeys.find? (propertyPresent values) = some "device-index" ∧
            (∀ c ∈ (fmtInt n).data, c.isDigit = true) ∧
            buildDeviceProperty printTable (some ⟨some values⟩) =
              "device-index=" ++ fmtInt n) ∨
          (devicePropertyKeys.find? (propertyPresent values) = none ∧
            buildDeviceProperty printTable (some ⟨some values⟩) = ""))) ∧
      (∀ s : String, (∀ c ∈ s.data, IsPrint printTable c = true) →
        Quote printTable s = quoteSimple s) := by
  refine ⟨rfl, rfl, ?_, Quote_of_isPrint printTable⟩
  intro values
  have k1 : ¬ ("device" = "device-index") := by decide
  have k2 : ¬ ("path" = "device-index") := by decide
  have k3 : ¬ ("target-object" = "device-index") := by decide
  have k4 : ¬ ("node.id" = "device-index") := by decide
  unfold buildDeviceProperty devicePropertyKeys
  simp only [List.find?, propertyPresent, k1, k2, k3, k4, if_false, if_true]
  by_cases h1 : stringProp values "device" = ""
  · by_cases h2 : stringProp values "path" = ""
    · by_cases h3 : stringProp values "target-object" = ""
      · by_cases h4 : stringProp values "node.id" = ""
        · by_cases h5 : intProp values "device-index" ≥ 0
          · right; right; left
            exact ⟨_, rfl, h5, by simp [h1, h2, h3, h4, h5],
              fmtInt_digits_of_nonneg _ h5, by simp [h1, h2, h3, h4, h5]⟩
          · right; right; right
            exact ⟨by simp [h1, h2, h3, h4, h5], by simp [h1, h2, h3, h4, h5]⟩
        · right; left
          exact ⟨"node.id", _, Or.inr rfl, rfl, h4, by simp [h1, h2, h3, h4],
            by simp [h1, h2, h3, h4]⟩
      · right; left
        exact ⟨"target-object", _, Or.inl rfl, rfl, h3, by simp [h1, h2, h3],
          by simp [h1, h2, h3]⟩
    · left
      exact ⟨"path", _, Or.inr rfl, rfl, h2, by simp [h1, h2], by simp [h1, h2]⟩
  · left
    exact ⟨"device", _, Or.inl rfl, rfl, h1, by simp [h1], by simp [h1]⟩

set_option maxRecDepth 100000 in
/-- C14 (witness). The quoting of the printable value `/dev/my "cam"`. -/
theorem buildDeviceProperty_shape_witness :
    Quote (fun _ => true) "/dev/my \"cam\"" = "\"/dev/my \\\"cam\\\"\"" :=
  ((buildDeviceProperty_shape (fun _ => true)).2.2.2 "/dev/my \"cam\"" (by decide)).trans
    (by decide)


/-! ## The reader of pipeline descriptions -/

theorem lexRun_nil (s : LexState) : lexRun s [] = s := rfl

theorem lexRun_cons (s : LexState) (c : Char) (l : List Char) :
    lexRun s (c :: l) = lexRun (lexStep s c) l := rfl

theorem lexRun_append (s : LexState) (a b : List Char) :
    lexRun s (a ++ b) = lexRun (lexRun s a) b := by
  unfold lexRun
  rw [List.foldl_append]

theorem lexStep_dead (c : Char) : lexStep .dead c = .dead := by
  unfold lexStep
  split_ifs <;> rfl

theorem lexRun_dead : ∀ l : List Char, lexRun .dead l = .dead := by
  intro l
  induction l with
  | nil => rfl
  | cons c l ih => rw [lexRun_cons, lexStep_dead, ih]

theorem lexStep_space (s : LexState) :
    lexStep s ' ' = match s with
      | .word => .space
      | .bang => .bangSpace
      | _ => .dead := by
  unfold lexStep
  rw [if_pos rfl]

theorem lexStep_bang (s : LexState) :
    lexStep s '!' = match s with
      | .space => .bang
      | _ => .dead := by
  unfold lexStep
  rw [if_neg (by decide), if_pos rfl]

theorem lexStep_other (s : LexState) (c : Char) (h1 : c ≠ ' ') (h2 : c ≠ '!') :
    lexStep s c = match s with
      | .start => .word
      | .word => .word
      | .space => .word
      | .bangSpace => .word
      | _ => .dead := by
  unfold lexStep
  rw [if_neg h1, if_neg h2]

theorem lexStep_space_space (s : LexState) : lexStep (lexStep s ' ') ' ' = .dead := by
  rw [lexStep_space, lexStep_space]
  cases s <;> rfl

theorem lexStep_eq_word (s : LexState) (c : Char) (h : lexStep s c = .word) :
    c ≠ ' ' ∧ c ≠ '!' ∧ tokenStart s = true := by
  by_cases h1 : c = ' '
  · subst h1
    rw [lexStep_space] at h
    cases s <;> simp at h
  · by_cases h2 : c = '!'
    · subst h2
      rw [lexStep_bang] at h
      cases s <;> simp at h
    · rw [lexStep_other s c h1 h2] at h
      refine ⟨h1, h2, ?_⟩
      cases s <;> simp at h <;> rfl

theorem lexStep_eq_space (s : LexState) (c : Char) (h : lexStep s c = .space) :
    c = ' ' ∧ s = .word := by
  by_cases h1 : c = ' '
  · subst h1
    rw [lexStep_space] at h
    cases s <;> simp at h
    exact ⟨rfl, rfl⟩
  · by_cases h2 : c = '!'
    · subst h2
      rw [lexStep_bang] at h
      cases s <;> simp at h
    · rw [lexStep_other s c h1 h2] at h
      cases s <;> simp at h

theorem lexStep_word_of_clean (s : LexState) (c : Char) (hs : tokenStart s = true)
    (h1 : c ≠ ' ') (h2 : c ≠ '!') : lexStep s c = .word := by
  rw [lexStep_other s c h1 h2]
  cases s <;> simp [tokenStart] at hs <;> rfl

/-- A text without spaces and `!` keeps the reader inside a token. -/
theorem lexRun_word_of_clean :
    ∀ v : List Char, ' ' ∉ v → '!' ∉ v → lexRun .word v = .word := by
  intro v
  induction v with
  | nil => intro _ _; rfl
  | cons c v ih =>
    intro h1 h2
    rw [lexRun_cons, lexStep_word_of_clean .word c rfl
      (fun e => h1 (e ▸ List.mem_cons_self _ _)) (fun e => h2 (e ▸ List.mem_cons_self _ _))]
    exact ih (fun e => h1 (List.mem_cons_of_mem _ e)) (fun e => h2 (List.mem_cons_of_mem _ e))

/-- A non-empty text without spaces and `!` is read as a token wherever one may begin. -/
theorem lexRun_token (s : LexState) (v : List Char) (hs : tokenStart s = true) (hv : v ≠ [])
    (h1 : ' ' ∉ v) (h2 : '!' ∉ v) : lexRun s v = .word := by
  cases v with
  | nil => exact absurd rfl hv
  | cons c v =>
    rw [lexRun_cons, lexStep_word_of_clean s c hs
      (fun e => h1 (e ▸ List.mem_cons_self _ _)) (fun e => h2 (e ▸ List.mem_cons_self _ _))]
    exact lexRun_word_of_clean v (fun e => h1 (List.mem_cons_of_mem _ e))
      (fun e => h2 (List.mem_cons_of_mem _ e))

theorem lexRun_fmtInt (s : LexState) (i : Int) (hs : tokenStart s = true) :
    lexRun s (fmtInt i).data = .word :=
  lexRun_token s _ hs (fmtInt_data_ne_nil i) (fmtInt_not_mem i ' ' (by decide) (by decide))
    (fmtInt_not_mem i '!' (by decide) (by decide))

theorem lexRun_append_single (s : LexState) (l : List Char) (c : Char) :
    lexRun s (l ++ [c]) = lexStep (lexRun s l) c := by
  rw [lexRun_append]
  rfl

/-! ### What an accepted text looks like -/

theorem accepted_head (l : List Char) (h : lexRun .start l = .word) : l.head? ≠ some ' ' := by
  cases l with
  | nil => simp
  | cons c l =>
    intro hc
    simp only [List.head?_cons, Option.some.injEq] at hc
    subst hc
    rw [lexRun_cons, lexStep_space] at h
    simp only at h
    rw [lexRun_dead] at h
    exact absurd h (by decide)

theorem accepted_last (l : List Char) (h : lexRun .start l = .word) :
    l.getLast? ≠ some ' ' := by
  intro hc
  obtain ⟨ys, rfl⟩ := List.getLast?_eq_some_iff.mp hc
  rw [lexRun_append_single] at h
  exact (lexStep_eq_word _ _ h).1 rfl

theorem accepted_no_double_space (s : LexState) (l : List Char) (h : lexRun s l = .word) :
    ¬ [' ', ' '] <:+: l := by
  rintro ⟨x, y, hxy⟩
  rw [← hxy] at h
  simp only [List.append_assoc, List.cons_append, List.nil_append] at h
  rw [lexRun_append, lexRun_cons, lexRun_cons, lexStep_space_space, lexRun_dead] at h
  exact absurd h (by decide)

theorem lexRun_eq_space (l : List Char) (h : lexRun .start l = .space) :
    l.getLast? = some ' ' := by
  rcases List.eq_nil_or_concat l with rfl | ⟨ys, c, rfl⟩
  · exact absurd h (by decide)
  · rw [List.concat_eq_append, lexRun_append_single] at h
    rw [List.concat_eq_append, (lexStep_eq_space _ _ h).1]
    simp

theorem accepted_bang (l pre post : List Char) (h : lexRun .start l = .word)
    (hl : l = pre ++ '!' :: post) : pre.getLast? = some ' ' ∧ post.head? = some ' ' := by
  subst hl
  rw [lexRun_append, lexRun_cons, lexStep_bang] at h
  have hs : lexRun .start pre = .space := by
    cases hp : lexRun .start pre <;> rw [hp] at h <;> simp only at h <;>
      first
        | rfl
        | (rw [lexRun_dead] at h; exact absurd h (by decide))
  rw [hs] at h
  simp only at h
  refine ⟨lexRun_eq_space pre hs, ?_⟩
  cases post with
  | nil => exact absurd h (by decide)
  | cons d post =>
    by_cases hd : d = ' '
    · rw [hd]; rfl
    · exfalso
      rw [lexRun_cons] at h
      by_cases hd2 : d = '!'
      · rw [hd2, lexStep_bang] at h
        simp only at h
        rw [lexRun_dead] at h
        exact absurd h (by decide)
      · rw [lexStep_other _ _ hd hd2] at h
        simp only at h
        rw [lexRun_dead] at h
        exact absurd h (by decide)


/-! ## The stages of an accepted text -/

theorem splitStagesAux_ne_nil : ∀ (l : List Char) (skip : Nat), splitStagesAux skip l ≠ [] := by
  intro l
  induction l with
  | nil => intro skip; cases skip <;> simp [splitStagesAux]
  | cons c l ih =>
    intro skip
    cases skip with
    | zero =>
      rw [splitStagesAux]
      split_ifs
      · simp
      · split <;> simp
    | succ n =>
      rw [splitStagesAux]
      exact ih n

theorem splitStages_connector (r : List Char) :
    splitStagesAux 0 (' ' :: '!' :: ' ' :: r) = [] :: splitStagesAux 0 r := by
  rw [splitStagesAux, if_pos (by simp [List.isPrefixOf]), splitStagesAux, splitStagesAux]

theorem splitStages_cons_of_not_connector (c : Char) (cs : List Char)
    (h : (" ! ".data).isPrefixOf (c :: cs) = false) :
    ∃ p ps, splitStagesAux 0 cs = p :: ps ∧ splitStagesAux 0 (c :: cs) = (c :: p) :: ps := by
  cases hs : splitStagesAux 0 cs with
  | nil => exact absurd hs (splitStagesAux_ne_nil cs 0)
  | cons p ps =>
    refine ⟨p, ps, rfl, ?_⟩
    rw [splitStagesAux, if_neg (by rw [h]; decide), hs]

theorem connector_prefix_iff (l : List Char) :
    (" ! ".data).isPrefixOf l = true ↔ ∃ r, l = ' ' :: '!' :: ' ' :: r := by
  constructor
  · intro h
    have := List.isPrefixOf_iff_prefix.mp h
    obtain ⟨r, hr⟩ := this
    exact ⟨r, by rw [← hr]; rfl⟩
  · rintro ⟨r, rfl⟩
    simp [List.isPrefixOf]

theorem not_connector_of_head (c : Char) (cs : List Char) (h : c ≠ ' ') :
    (" ! ".data).isPrefixOf (c :: cs) = false := by
  cases hp : (" ! ".data).isPrefixOf (c :: cs) with
  | false => rfl
  | true =>
    obtain ⟨r, hr⟩ := (connector_prefix_iff _).mp hp
    simp only [List.cons.injEq] at hr
    exact absurd hr.1 h

theorem not_connector_of_second (c d : Char) (cs : List Char) (h : d ≠ '!') :
    (" ! ".data).isPrefixOf (c :: d :: cs) = false := by
  cases hp : (" ! ".data).isPrefixOf (c :: d :: cs) with
  | false => rfl
  | true =>
    obtain ⟨r, hr⟩ := (connector_prefix_iff _).mp hp
    simp only [List.cons.injEq] at hr
    exact absurd hr.2.1 h

theorem joinStages_cons_cons (c : Char) (p : List Char) (ps : List (List Char)) :
    joinStages ((c :: p) :: ps) = c :: joinStages (p :: ps) := by
  cases ps with
  | nil => rfl
  | cons q qs => rfl

/-- Joining the stages of a text with the connector gives the text back. -/
theorem joinStages_splitStages :
    ∀ (n : Nat) (l : List Char), l.length ≤ n → joinStages (splitStagesAux 0 l) = l := by
  intro n
  induction n with
  | zero =>
    intro l hl
    have : l = [] := List.length_eq_zero.mp (by omega)
    subst this
    rfl
  | succ n ih =>
    intro l hl
    cases l with
    | nil => rfl
    | cons c cs =>
      cases hp : (" ! ".data).isPrefixOf (c :: cs) with
      | true =>
        obtain ⟨r, hr⟩ := (connector_prefix_iff _).mp hp
        rw [hr, splitStages_connector]
        have hlen : r.length ≤ n := by
          rw [hr] at hl
          simp only [List.length_cons] at hl
          omega
        cases hs : splitStagesAux 0 r with
        | nil => exact absurd hs (splitStagesAux_ne_nil r 0)
        | cons p ps =>
          have := ih r hlen
          rw [hs] at this
          show [] ++ ' ' :: '!' :: ' ' :: joinStages (p :: ps) = _
          rw [this]
          rfl
      | false =>
        obtain ⟨p, ps, h1, h2⟩ := splitStages_cons_of_not_connector c cs hp
        have hlen : cs.length ≤ n := by
          simp only [List.length_cons] at hl
          omega
        have := ih cs hlen
        rw [h1] at this
        rw [h2, joinStages_cons_cons, this]

/-- In a text that the reader accepts no stage is empty: from the start of a token every
stage of the rest, and from inside a token every stage after the current one. -/
theorem stages_nonempty_aux :
    ∀ (n : Nat) (l : List Char), l.length ≤ n →
      ((lexRun .start l = .word ∨ lexRun .bangSpace l = .word) →
          ∀ st ∈ splitStagesAux 0 l, st ≠ []) ∧
        (lexRun .word l = .word → ∀ st ∈ (splitStagesAux 0 l).tail, st ≠ []) := by
  intro n
  induction n with
  | zero =>
    intro l hl
    have : l = [] := List.length_eq_zero.mp (by omega)
    subst this
    constructor
    · rintro (h | h) <;> exact absurd h (by decide)
    · intro _ st hst
      simp [splitStagesAux] at hst
  | succ n ih =>
    intro l hl
    cases l with
    | nil =>
      constructor
      · rintro (h | h) <;> exact absurd h (by decide)
      · intro _ st hst
        simp [splitStagesAux] at hst
    | cons c cs =>
      have hlen : cs.length ≤ n := by
        simp only [List.length_cons] at hl
        omega
      constructor
      · intro h
        have hc : c ≠ ' ' := by
          intro e
          subst e
          rcases h with h | h <;>
            (rw [lexRun_cons, lexStep_space] at h
             simp only at h
             rw [lexRun_dead] at h
             exact absurd h (by decide))
        have hc2 : c ≠ '!' := by
          intro e
          subst e
          rcases h with h | h <;>
            (rw [lexRun_cons, lexStep_bang] at h
             simp only at h
             rw [lexRun_dead] at h
             exact absurd h (by decide))
        have hrest : lexRun .word cs = .word := by
          rcases h with h | h <;>
            (rw [lexRun_cons, lexStep_other _ _ hc hc2] at h
             exact h)
        obtain ⟨p, ps, h1, h2⟩ :=
          splitStages_cons_of_not_connector c cs (not_connector_of_head c cs hc)
        intro st hst
        rw [h2] at hst
        rcases List.mem_cons.mp hst with hst | hst
        · rw [hst]; simp
        · have := (ih cs hlen).2 hrest st
          rw [h1] at this
          exact this hst
      · intro h st hst
        rw [lexRun_cons] at h
        by_cases hc1 : c = ' '
        · subst hc1
          rw [lexStep_space] at h
          simp only at h
          cases cs with
          | nil => exact absurd h (by decide)
          | cons d ds =>
            rw [lexRun_cons] at h
            by_cases hd1 : d = ' '
            · subst hd1
              rw [lexStep_space] at h
              simp only at h
              rw [lexRun_dead] at h
              exact absurd h (by decide)
            · by_cases hd2 : d = '!'
              · subst hd2
                rw [lexStep_bang] at h
                simp only at h
                cases ds with
                | nil => exact absurd h (by decide)
                | cons e es =>
                  rw [lexRun_cons] at h
                  by_cases he : e = ' '
                  · subst he
                    rw [lexStep_space] at h
                    simp only at h
                    rw [splitStages_connector] at hst
                    simp only [List.tail_cons] at hst
                    have hlen2 : es.length ≤ n := by
                      simp only [List.length_cons] at hl
                      omega
                    exact (ih es hlen2).1 (Or.inr h) st hst
                  · exfalso
                    by_cases he2 : e = '!'
                    · rw [he2, lexStep_bang] at h
                      simp only at h
                      rw [lexRun_dead] at h
                      exact absurd h (by decide)
                    · rw [lexStep_other _ _ he he2] at h
                      simp only at h
                      rw [lexRun_dead] at h
                      exact absurd h (by decide)
              · rw [lexStep_other _ _ hd1 hd2] at h
                simp only at h
                obtain ⟨p, ps, h1, h2⟩ := splitStages_cons_of_not_connector ' ' (d :: ds)
                  (not_connector_of_second ' ' d ds hd2)
                obtain ⟨q, qs, k1, k2⟩ :=
                  splitStages_cons_of_not_connector d ds (not_connector_of_head d ds hd1)
                rw [h2] at hst
                simp only [List.tail_cons] at hst
                rw [k2] at h1
                simp only [List.cons.injEq] at h1
                have hlen2 : ds.length ≤ n := by
                  simp only [List.length_cons] at hl
                  omega
                have := (ih ds hlen2).2 h st
                rw [k1] at this
                simp only [List.tail_cons] at this
                rw [← h1.2] at hst
                exact this hst
        · by_cases hc2 : c = '!'
          · subst hc2
            rw [lexStep_bang] at h
            simp only at h
            rw [lexRun_dead] at h
            exact absurd h (by decide)
          · rw [lexStep_other _ _ hc1 hc2] at h
            simp only at h
            obtain ⟨p, ps, h1, h2⟩ :=
              splitStages_cons_of_not_connector c cs (not_connector_of_head c cs hc1)
            rw [h2] at hst
            simp only [List.tail_cons] at hst
            have := (ih cs hlen).2 h st
            rw [h1] at this
            exact this hst

/-- A text that the reader accepts is well spaced. -/
theorem wellSpaced_of_accepted (out : String) (h : lexRun .start out.data = .word) :
    wellSpaced out := by
  refine ⟨accepted_head _ h, accepted_last _ h, accepted_no_double_space _ _ h, ?_, ?_, ?_⟩
  · intro pre post hl
    exact accepted_bang _ pre post h hl
  · exact (stages_nonempty_aux out.data.length out.data (le_refl _)).1 (Or.inl h)
  · exact joinStages_splitStages out.data.length out.data (le_refl _)


/-! ## The spacing of the pipelines -/

theorem lexRun_clean (s : LexState) (v : List Char) (hs : (s == LexState.word) = true)
    (h1 : ' ' ∉ v) (h2 : '!' ∉ v) : lexRun s v = .word := by
  have : s = .word := by simpa using hs
  rw [this]
  exact lexRun_word_of_clean v h1 h2

theorem infix_head (a b rest : List Char) : a ++ b <:+: a ++ (b ++ rest) :=
  ⟨[], rest, by simp⟩

theorem data_ne_nil_of_ne_empty (s : String) (h : ¬ s = "") : s.data ≠ [] := by
  intro e
  apply h
  exact String.ext e

set_option maxRecDepth 100000 in
set_option maxHeartbeats 1600000 in
/-- The reader accepts the Darwin video chains. -/
theorem buildDarwin_reader (sourceName deviceProp : String) (mode : Mode) (host : String)
    (port : Int) (codec : Codec) (hs0 : sourceName.data ≠ [])
    (hs1 : ' ' ∉ sourceName.data) (hs2 : '!' ∉ sourceName.data)
    (hd1 : ' ' ∉ deviceProp.data) (hd2 : '!' ∉ deviceProp.data)
    (hf1 : ' ' ∉ mode.Format.data) (hf2 : '!' ∉ mode.Format.data)
    (hr1 : ' ' ∉ mode.Framerate.data) (hr2 : '!' ∉ mode.Framerate.data)
    (hh1 : ' ' ∉ host.data) (hh2 : '!' ∉ host.data) :
    readerProperty (buildDarwinVideoPipelineString sourceName (devicePropPrefix deviceProp) mode host port codec)
      deviceProp := by
  refine ⟨?_, fun hne => ?_⟩
  · unfold buildDarwinVideoPipelineString
    split_ifs
    all_goals unfold devicePropPrefix
    all_goals
      by_cases hd0 : deviceProp = ""
      · simp only [hd0, if_true]
        simp (disch := first | assumption | decide) only [String.data_append,
          List.append_assoc, string_empty_data, List.nil_append, lexRun_append, lexRun_token,
          lexRun_clean, lexRun_fmtInt]
        decide
      · have hd3 := data_ne_nil_of_ne_empty deviceProp hd0
        simp only [hd0, if_false]
        simp (disch := first | assumption | decide) only [String.data_append,
          List.append_assoc, string_empty_data, List.nil_append, lexRun_append, lexRun_token,
          lexRun_clean, lexRun_fmtInt]
        decide
  · unfold buildDarwinVideoPipelineString
    split_ifs
    all_goals unfold devicePropPrefix
    all_goals simp only [hne, if_false]
    all_goals simp only [String.data_append, List.append_assoc]
    all_goals repeat (first | exact infix_head _ _ _ | apply infix_append_of_infix_right)

set_option maxRecDepth 100000 in
set_option maxHeartbeats 1600000 in
/-- The reader accepts the Jetson chains. -/
theorem buildJetson_reader (sourceName deviceProp : String) (mode : Mode) (host : String)
    (port : Int) (codec : Codec) (hs0 : sourceName.data ≠ [])
    (hs1 : ' ' ∉ sourceName.data) (hs2 : '!' ∉ sourceName.data)
    (hd1 : ' ' ∉ deviceProp.data) (hd2 : '!' ∉ deviceProp.data)
    (hr1 : ' ' ∉ mode.Framerate.data) (hr2 : '!' ∉ mode.Framerate.data)
    (hh1 : ' ' ∉ host.data) (hh2 : '!' ∉ host.data) :
    readerProperty (buildJetsonVideoPipelineString sourceName (devicePropPrefix deviceProp) mode host port codec)
      deviceProp := by
  refine ⟨?_, fun hne => ?_⟩
  · unfold buildJetsonVideoPipelineString
    split_ifs
    all_goals unfold devicePropPrefix
    all_goals
      by_cases hd0 : deviceProp = ""
      · simp only [hd0, if_true]
        simp (disch := first | assumption | decide) only [String.data_append,
          List.append_assoc, string_empty_data, List.nil_append, lexRun_append, lexRun_token,
          lexRun_clean, lexRun_fmtInt]
        decide
      · have hd3 := data_ne_nil_of_ne_empty deviceProp hd0
        simp only [hd0, if_false]
        simp (disch := first | assumption | decide) only [String.data_append,
          List.append_assoc, string_empty_data, List.nil_append, lexRun_append, lexRun_token,
          lexRun_clean, lexRun_fmtInt]
        decide
  · unfold buildJetsonVideoPipelineString
    split_ifs
    all_goals unfold devicePropPrefix
    all_goals simp only [hne, if_false]
    all_goals simp only [String.data_append, List.append_assoc]
    all_goals repeat (first | exact infix_head _ _ _ | apply infix_append_of_infix_right)

set_option maxRecDepth 100000 in
set_option maxHeartbeats 1600000 in
/-- The reader accepts the Linux H264 chains. -/
theorem buildLinuxH264_reader (sourceName deviceProp : String) (mode : Mode) (host : String)
    (port : Int) (linuxH264Mode : LinuxH264Mode) (hs0 : sourceName.data ≠ [])
    (hs1 : ' ' ∉ sourceName.data) (hs2 : '!' ∉ sourceName.data)
    (hd1 : ' ' ∉ deviceProp.data) (hd2 : '!' ∉ deviceProp.data)
    (hr1 : ' ' ∉ mode.Framerate.data) (hr2 : '!' ∉ mode.Framerate.data)
    (hh1 : ' ' ∉ host.data) (hh2 : '!' ∉ host.data) :
    readerProperty (buildLinuxH264PipelineString sourceName (devicePropPrefix deviceProp) mode host port linuxH264Mode)
      deviceProp := by
  refine ⟨?_, fun hne => ?_⟩
  · unfold buildLinuxH264PipelineString
    split_ifs
    all_goals unfold devicePropPrefix
    all_goals
      by_cases hd0 : deviceProp = ""
      · simp only [hd0, if_true]
        simp (disch := first | assumption | decide) only [String.data_append,
          List.append_assoc, string_empty_data, List.nil_append, lexRun_append, lexRun_token,
          lexRun_clean, lexRun_fmtInt]
        decide
      · have hd3 := data_ne_nil_of_ne_empty deviceProp hd0
        simp only [hd0, if_false]
        simp (disch := first | assumption | decide) only [String.data_append,
          List.append_assoc, string_empty_data, List.nil_append, lexRun_append, lexRun_token,
          lexRun_clean, lexRun_fmtInt]
        decide
  · unfold buildLinuxH264PipelineString
    split_ifs
    all_goals unfold devicePropPrefix
    all_goals simp only [hne, if_false]
    all_goals simp only [String.data_append, List.append_assoc]
    all_goals repeat (first | exact infix_head _ _ _ | apply infix_append_of_infix_right)

set_option maxRecDepth 100000 in
set_option maxHeartbeats 1600000 in
/-- The reader accepts the Darwin audio chains. -/
theorem buildDarwinAudio_reader (sourceName deviceProp : String) (host : String)
    (port : Int) (codec : AudioCodec) (hs0 : sourceName.data ≠ [])
    (hs1 : ' ' ∉ sourceName.data) (hs2 : '!' ∉ sourceName.data)
    (hd1 : ' ' ∉ deviceProp.data) (hd2 : '!' ∉ deviceProp.data)
    (hh1 : ' ' ∉ host.data) (hh2 : '!' ∉ host.data) :
    readerProperty (buildDarwinAudioPipelineString sourceName (devicePropPrefix deviceProp) host port codec)
      deviceProp := by
  refine ⟨?_, fun hne => ?_⟩
  · unfold buildDarwinAudioPipelineString
    split_ifs
    all_goals unfold devicePropPrefix
    all_goals
      by_cases hd0 : deviceProp = ""
      · simp only [hd0, if_true]
        simp (disch := first | assumption | decide) only [String.data_append,
          List.append_assoc, string_empty_data, List.nil_append, lexRun_append, lexRun_token,
          lexRun_clean, lexRun_fmtInt]
        decide
      · have hd3 := data_ne_nil_of_ne_empty deviceProp hd0
        simp only [hd0, if_false]
        simp (disch := first | assumption | decide) only [String.data_append,
          List.append_assoc, string_empty_data, List.nil_append, lexRun_append, lexRun_token,
          lexRun_clean, lexRun_fmtInt]
        decide
  · unfold buildDarwinAudioPipelineString
    split_ifs
    all_goals unfold devicePropPrefix
    all_goals simp only [hne, if_false]
    all_goals simp only [String.data_append, List.append_assoc]
    all_goals repeat (first | exact infix_head _ _ _ | apply infix_append_of_infix_right)

set_option maxRecDepth 100000 in
set_option maxHeartbeats 1600000 in
/-- The reader accepts the Linux audio chains. -/
theorem buildLinuxAudio_reader (sourceName deviceProp : String) (host : String)
    (port : Int) (codec : AudioCodec) (hs0 : sourceName.data ≠ [])
    (hs1 : ' ' ∉ sourceName.data) (hs2 : '!' ∉ sourceName.data)
    (hd1 : ' ' ∉ deviceProp.data) (hd2 : '!' ∉ deviceProp.data)
    (hh1 : ' ' ∉ host.data) (hh2 : '!' ∉ host.data) :
    readerProperty (buildLinuxAudioPipelineString sourceName (devicePropPrefix deviceProp) host port codec)
      deviceProp := by
  refine ⟨?_, fun hne => ?_⟩
  · unfold buildLinuxAudioPipelineString
    split_ifs
    all_goals unfold devicePropPrefix
    all_goals
      by_cases hd0 : deviceProp = ""
      · simp only [hd0, if_true]
        simp (disch := first | assumption | decide) only [String.data_append,
          List.append_assoc, string_empty_data, List.nil_append, lexRun_append, lexRun_token,
          lexRun_clean, lexRun_fmtInt]
        decide
      · have hd3 := data_ne_nil_of_ne_empty deviceProp hd0
        simp only [hd0, if_false]
        simp (disch := first | assumption | decide) only [String.data_append,
          List.append_assoc, string_empty_data, List.nil_append, lexRun_append, lexRun_token,
          lexRun_clean, lexRun_fmtInt]
        decide
  · unfold buildLinuxAudioPipelineString
    split_ifs
    all_goals unfold devicePropPrefix
    all_goals simp only [hne, if_false]
    all_goals simp only [String.data_append, List.append_assoc]
    all_goals repeat (first | exact infix_head _ _ _ | apply infix_append_of_infix_right)

set_option maxRecDepth 100000 in
set_option maxHeartbeats 1600000 in
/-- The reader accepts the generic Linux chains. -/
theorem buildLinuxGeneric_reader (sourceName deviceProp : String) (mode : Mode) (host : String)
    (port : Int) (codec : Codec) (linuxH264Mode : LinuxH264Mode) (hs0 : sourceName.data ≠ [])
    (hs1 : ' ' ∉ sourceName.data) (hs2 : '!' ∉ sourceName.data)
    (hd1 : ' ' ∉ deviceProp.data) (hd2 : '!' ∉ deviceProp.data)
    (hr1 : ' ' ∉ mode.Framerate.data) (hr2 : '!' ∉ mode.Framerate.data)
    (hh1 : ' ' ∉ host.data) (hh2 : '!' ∉ host.data) :
    readerProperty (buildLinuxGenericVideoPipelineString sourceName (devicePropPrefix deviceProp) mode host port codec linuxH264Mode)
      deviceProp := by
  refine ⟨?_, fun hne => ?_⟩
  · unfold buildLinuxGenericVideoPipelineString
    split_ifs
    all_goals first
      | exact (buildLinuxH264_reader sourceName deviceProp mode host port linuxH264Mode hs0 hs1
        hs2 hd1 hd2 hr1 hr2 hh1 hh2).1
      | skip
    all_goals unfold devicePropPrefix
    all_goals
      by_cases hd0 : deviceProp = ""
      · simp only [hd0, if_true]
        simp (disch := first | assumption | decide) only [String.data_append,
          List.append_assoc, string_empty_data, List.nil_append, lexRun_append, lexRun_token,
          lexRun_clean, lexRun_fmtInt]
        decide
      · have hd3 := data_ne_nil_of_ne_empty deviceProp hd0
        simp only [hd0, if_false]
        simp (disch := first | assumption | decide) only [String.data_append,
          List.append_assoc, string_empty_data, List.nil_append, lexRun_append, lexRun_token,
          lexRun_clean, lexRun_fmtInt]
        decide
  · unfold buildLinuxGenericVideoPipelineString
    split_ifs
    all_goals first
      | exact (buildLinuxH264_reader sourceName deviceProp mode host port linuxH264Mode hs0 hs1
        hs2 hd1 hd2 hr1 hr2 hh1 hh2).2 hne
      | skip
    all_goals unfold devicePropPrefix
    all_goals simp only [hne, if_false]
    all_goals simp only [String.data_append, List.append_assoc]
    all_goals repeat (first | exact infix_head _ _ _ | apply infix_append_of_infix_right)

set_option maxRecDepth 100000 in
set_option maxHeartbeats 1600000 in
/-- The reader accepts the Rock5 chains. -/
theorem buildRock5_reader (sourceName deviceProp : String) (mode : Mode) (host : String)
    (port : Int) (codec : Codec) (hs0 : sourceName.data ≠ [])
    (hs1 : ' ' ∉ sourceName.data) (hs2 : '!' ∉ sourceName.data)
    (hd1 : ' ' ∉ deviceProp.data) (hd2 : '!' ∉ deviceProp.data)
    (hr1 : ' ' ∉ mode.Framerate.data) (hr2 : '!' ∉ mode.Framerate.data)
    (hh1 : ' ' ∉ host.data) (hh2 : '!' ∉ host.data) :
    readerProperty (buildRock5VideoPipelineString sourceName (devicePropPrefix deviceProp) mode host port codec)
      deviceProp := by
  refine ⟨?_, fun hne => ?_⟩
  · unfold buildRock5VideoPipelineString
    split_ifs
    all_goals first
      | exact (buildLinuxGeneric_reader sourceName deviceProp mode host port codec LinuxH264VAAPI
        hs0 hs1 hs2 hd1 hd2 hr1 hr2 hh1 hh2).1
      | skip
    all_goals unfold devicePropPrefix
    all_goals
      by_cases hd0 : deviceProp = ""
      · simp only [hd0, if_true]
        simp (disch := first | assumption | decide) only [String.data_append,
          List.append_assoc, string_empty_data, List.nil_append, lexRun_append, lexRun_token,
          lexRun_clean, lexRun_fmtInt]
        decide
      · have hd3 := data_ne_nil_of_ne_empty deviceProp hd0
        simp only [hd0, if_false]
        simp (disch := first | assumption | decide) only [String.data_append,
          List.append_assoc, string_empty_data, List.nil_append, lexRun_append, lexRun_token,
          lexRun_clean, lexRun_fmtInt]
        decide
  · unfold buildRock5VideoPipelineString
    split_ifs
    all_goals first
      | exact (buildLinuxGeneric_reader sourceName deviceProp mode host port codec LinuxH264VAAPI
        hs0 hs1 hs2 hd1 hd2 hr1 hr2 hh1 hh2).2 hne
      | skip
    all_goals unfold devicePropPrefix
    all_goals simp only [hne, if_false]
    all_goals simp only [String.data_append, List.append_assoc]
    all_goals repeat (first | exact infix_head _ _ _ | apply infix_append_of_infix_right)

theorem spacingProperty_of_reader (out deviceProp : String) (h : readerProperty out deviceProp) :
    spacingProperty out deviceProp :=
  ⟨wellSpaced_of_accepted out h.1, h.2⟩

/-- Every video pipeline is well spaced. -/
theorem buildVideo_spacing (platform : String) (linuxVariant : LinuxVariant)
    (sourceName deviceProp : String) (mode : Mode) (host : String) (port : Int)
    (codec : Codec) (linuxH264Mode : LinuxH264Mode) (hs0 : sourceName.data ≠ [])
    (hs1 : ' ' ∉ sourceName.data) (hs2 : '!' ∉ sourceName.data)
    (hd1 : ' ' ∉ deviceProp.data) (hd2 : '!' ∉ deviceProp.data)
    (hf1 : ' ' ∉ mode.Format.data) (hf2 : '!' ∉ mode.Format.data)
    (hr1 : ' ' ∉ mode.Framerate.data) (hr2 : '!' ∉ mode.Framerate.data)
    (hh1 : ' ' ∉ host.data) (hh2 : '!' ∉ host.data) :
    spacingProperty (buildVideoPipelineString platform linuxVariant sourceName deviceProp mode
      host port codec linuxH264Mode) deviceProp := by
  apply spacingProperty_of_reader
  unfold buildVideoPipelineString buildLinuxVideoPipelineString
  simp only
  split_ifs
  · exact buildJetson_reader sourceName deviceProp mode host port codec hs0 hs1 hs2 hd1 hd2
      hr1 hr2 hh1 hh2
  · exact buildRock5_reader sourceName deviceProp mode host port codec hs0 hs1 hs2 hd1 hd2
      hr1 hr2 hh1 hh2
  · exact buildLinuxGeneric_reader sourceName deviceProp mode host port codec linuxH264Mode
      hs0 hs1 hs2 hd1 hd2 hr1 hr2 hh1 hh2
  · exact buildDarwin_reader sourceName deviceProp mode host port codec hs0 hs1 hs2 hd1 hd2
      hf1 hf2 hr1 hr2 hh1 hh2

/-- Every audio pipeline is well spaced. -/
theorem buildAudio_spacing (platform : String) (sourceName deviceProp : String)
    (host : String) (port : Int) (codec : AudioCodec) (hs0 : sourceName.data ≠ [])
    (hs1 : ' ' ∉ sourceName.data) (hs2 : '!' ∉ sourceName.data)
    (hd1 : ' ' ∉ deviceProp.data) (hd2 : '!' ∉ deviceProp.data)
    (hh1 : ' ' ∉ host.data) (hh2 : '!' ∉ host.data) :
    spacingProperty (buildAudioPipelineString platform sourceName deviceProp host port codec)
      deviceProp := by
  apply spacingProperty_of_reader
  unfold buildAudioPipelineString
  simp only
  split_ifs
  · exact buildLinuxAudio_reader sourceName deviceProp host port codec hs0 hs1 hs2 hd1 hd2
      hh1 hh2
  · exact buildDarwinAudio_reader sourceName deviceProp host port codec hs0 hs1 hs2 hd1 hd2
      hh1 hh2


/-- C15. For every video and every audio pipeline request (any platform, variant, codec and
sub-mode) whose source name is non-empty and whose source name, host, mode format, mode
framerate and device fragment hold no space and no `!` (the device fragment may be empty):
the output has no leading and no trailing space and no two consecutive spaces, every `!`
has a space on each side, a non-empty device fragment occurs followed by a space, and the
output is its stages, none of them empty, joined by ` ! `. -/
theorem pipelines_well_spaced :
    (∀ (platform : String) (linuxVariant : LinuxVariant) (sourceName deviceProp : String)
        (mode : Mode) (host : String) (port : Int) (codec : Codec)
        (linuxH264Mode : LinuxH264Mode),
        sourceName ≠ "" → cleanText sourceName → cleanText deviceProp →
        cleanText mode.Format → cleanText mode.Framerate → cleanText host →
        spacingProperty (buildVideoPipelineString platform linuxVariant sourceName deviceProp
          mode host port codec linuxH264Mode) deviceProp) ∧
      (∀ (platform : String) (sourceName deviceProp : String) (host : String) (port : Int)
        (codec : AudioCodec),
        sourceName ≠ "" → cleanText sourceName → cleanText deviceProp → cleanText host →
        spacingProperty (buildAudioPipelineString platform sourceName deviceProp host port
          codec) deviceProp) := by
  constructor
  · intro platform linuxVariant sourceName deviceProp mode host port codec linuxH264Mode
      hs0 hs hd hf hr hh
    exact buildVideo_spacing platform linuxVariant sourceName deviceProp mode host port codec
      linuxH264Mode (data_ne_nil_of_ne_empty _ hs0) hs.1 hs.2 hd.1 hd.2 hf.1 hf.2 hr.1 hr.2
      hh.1 hh.2
  · intro platform sourceName deviceProp host port codec hs0 hs hd hh
    exact buildAudio_spacing platform sourceName deviceProp host port codec
      (data_ne_nil_of_ne_empty _ hs0) hs.1 hs.2 hd.1 hd.2 hh.1 hh.2

/-- C15 (witness). The Raspberry Pi libcamera chain with the device fragment
`device="/dev/video0"`. -/
theorem pipelines_well_spaced_witness :
    spacingProperty (buildVideoPipelineString "linux" LinuxRaspi "v4l2src"
      "device=\"/dev/video0\"" ⟨"NV12", 1920, 1080, "30/1"⟩ "127.0.0.1" 5000 CodecH264
      LinuxH264Libcamera) "device=\"/dev/video0\"" :=
  pipelines_well_spaced.1 "linux" LinuxRaspi "v4l2src" "device=\"/dev/video0\""
    ⟨"NV12", 1920, 1080, "30/1"⟩ "127.0.0.1" 5000 CodecH264 LinuxH264Libcamera (by decide)
    (by unfold cleanText; decide) (by unfold cleanText; decide) (by unfold cleanText; decide)
    (by unfold cleanText; decide) (by unfold cleanText; decide)


/-! ## The limit of extractModes and truncation -/

theorem runModes_nil_eq (limit : Int) (st : ExtractState) : runModes limit [] st = st.modes := rfl

/-- The loop only appends: the modes of the starting state begin its result. -/
theorem runModes_modes_isPrefix (limit : Int) (ms : List Mode) :
    ∀ st : ExtractState, st.modes <+: runModes limit ms st := by
  induction ms with
  | nil => intro st; exact List.prefix_refl _
  | cons m ms ih =>
    intro st
    by_cases h : modeKey m ∈ st.seen
    · rw [runModes_cons_seen limit m ms st h]; exact ih st
    · by_cases hl : limit ≤ ((st.modes ++ [m]).length : Int)
      · rw [runModes_cons_full limit m ms st h hl]; exact List.prefix_append _ _
      · rw [runModes_cons_more limit m ms st h hl]
        exact (List.prefix_append st.modes [m]).trans (ih ⟨st.modes ++ [m], modeKey m :: st.seen⟩)

/-- From a state with fewer than `l1` modes, the loop with the limit `l1` gives the first
`l1` entries of what the loop with a limit `l2` of at least `l1` gives. -/
theorem runModes_take (l1 l2 : Int) (h12 : l1 ≤ l2) (ms : List Mode) :
    ∀ st : ExtractState, (st.modes.length : Int) < l1 →
      runModes l1 ms st = (runModes l2 ms st).take l1.toNat := by
  induction ms with
  | nil =>
    intro st hst
    rw [runModes_nil_eq, runModes_nil_eq, List.take_of_length_le (by omega)]
  | cons m ms ih =>
    intro st hst
    by_cases h : modeKey m ∈ st.seen
    · rw [runModes_cons_seen l1 m ms st h, runModes_cons_seen l2 m ms st h]; exact ih st hst
    · by_cases hl : l1 ≤ ((st.modes ++ [m]).length : Int)
      · rw [runModes_cons_full l1 m ms st h hl]
        have hlen : (st.modes ++ [m]).length = l1.toNat := by
          simp only [List.length_append, List.length_singleton] at hl ⊢
          omega
        by_cases hl2 : l2 ≤ ((st.modes ++ [m]).length : Int)
        · rw [runModes_cons_full l2 m ms st h hl2, List.take_of_length_le (by omega)]
        · rw [runModes_cons_more l2 m ms st h hl2]
          obtain ⟨t, ht⟩ := runModes_modes_isPrefix l2 ms ⟨st.modes ++ [m], modeKey m :: st.seen⟩
          rw [← ht, ← hlen, List.take_left]
      · have hl2 : ¬ l2 ≤ ((st.modes ++ [m]).length : Int) := by omega
        rw [runModes_cons_more l1 m ms st h hl, runModes_cons_more l2 m ms st h hl2]
        apply ih
        simp only [List.length_append, List.length_singleton] at hl ⊢
        omega

/-- C25. The early exit of `extractModes` agrees with truncation: for every capability
set (the nil pointer included) and all limits with 1 ≤ l1 ≤ l2, the result for the limit
l1 is the first l1 entries, or all entries when there are fewer, of the result for the
limit l2. -/
theorem extractModes_limit_truncates (caps : Option Caps) (l1 l2 : Int) (h1 : 1 ≤ l1)
    (h12 : l1 ≤ l2) :
    extractModes caps l1 = firstEntries l1 (extractModes caps l2) := by
  unfold firstEntries
  cases caps with
  | none => simp [extractModes]
  | some sts =>
    rw [extractModes_eq_runModes, extractModes_eq_runModes]
    apply runModes_take l1 l2 h12
    simp only [List.length_nil, Nat.cast_zero]
    omega

/-- C25 (witness). One structure with two formats and two widths: the limit 2 gives the
first two of the three modes that the limit 3 gives. -/
theorem extractModes_limit_truncates_witness :
    extractModes (some [some ⟨"video/x-raw", [("format", .list [.str "NV12", .str "YUY2"]),
        ("width", .list [.int 640, .int 1280]), ("height", .int 480),
        ("framerate", .fraction 30 1)]⟩]) 2 =
      firstEntries 2 (extractModes (some [some ⟨"video/x-raw",
        [("format", .list [.str "NV12", .str "YUY2"]),
        ("width", .list [.int 640, .int 1280]), ("height", .int 480),
        ("framerate", .fraction 30 1)]⟩]) 3) :=
  extractModes_limit_truncates _ 2 3 (by decide) (by decide)

/-! ## Independence of the Linux output from the format and from the raspi variant -/

/-- C26. On linux the video output does not depend on the format of the mode: for every
variant, codec, H264 sub-mode, source name, device fragment, host and port, two modes with
the same width, height and framerate give the same output of
`buildVideoPipelineString`. -/
theorem linux_output_independent_of_format (linuxVariant : LinuxVariant)
    (sourceName deviceProp : String) (m1 m2 : Mode) (host : String) (port : Int)
    (codec : Codec) (linuxH264Mode : LinuxH264Mode)
    (hw : m1.Width = m2.Width) (hh : m1.Height = m2.Height)
    (hf : m1.Framerate = m2.Framerate) :
    buildVideoPipelineString "linux" linuxVariant sourceName deviceProp m1 host port codec
        linuxH264Mode =
      buildVideoPipelineString "linux" linuxVariant sourceName deviceProp m2 host port codec
        linuxH264Mode := by
  unfold buildVideoPipelineString
  simp only [if_true]
  unfold buildLinuxVideoPipelineString buildJetsonVideoPipelineString
    buildRock5VideoPipelineString buildLinuxGenericVideoPipelineString
    buildLinuxH264PipelineString
  rw [hw, hh, hf]

/-- C26 (witness). The modes NV12 and YUY2 at 1280x720 30/1 give the same raspi H264
output. -/
theorem linux_output_independent_of_format_witness :
    buildVideoPipelineString "linux" LinuxRaspi "v4l2src" "device=\"/dev/video0\""
        ⟨"NV12", 1280, 720, "30/1"⟩ "10.0.0.5" 6000 CodecH264 LinuxH264RaspiV4L2 =
      buildVideoPipelineString "linux" LinuxRaspi "v4l2src" "device=\"/dev/video0\""
        ⟨"YUY2", 1280, 720, "30/1"⟩ "10.0.0.5" 6000 CodecH264 LinuxH264RaspiV4L2 :=
  linux_output_independent_of_format LinuxRaspi "v4l2src" "device=\"/dev/video0\""
    ⟨"NV12", 1280, 720, "30/1"⟩ ⟨"YUY2", 1280, 720, "30/1"⟩ "10.0.0.5" 6000 CodecH264
    LinuxH264RaspiV4L2 rfl rfl rfl

/-- C27. The raspi and the generic Linux variants give the same video pipeline, as does
every variant value other than jetson and rock5: for every platform, codec, H264 sub-mode,
mode, source name, device fragment, host and port, the output of
`buildVideoPipelineString` for the variant raspi, and for any variant that is neither
jetson nor rock5, equals the output for the variant generic. -/
theorem raspi_variant_eq_generic (platform : String) (linuxVariant : LinuxVariant)
    (sourceName deviceProp : String) (mode : Mode) (host : String) (port : Int)
    (codec : Codec) (linuxH264Mode : LinuxH264Mode) :
    buildVideoPipelineString platform LinuxRaspi sourceName deviceProp mode host port codec
        linuxH264Mode =
      buildVideoPipelineString platform LinuxGeneric sourceName deviceProp mode host port
        codec linuxH264Mode ∧
    (linuxVariant ≠ LinuxJetson → linuxVariant ≠ LinuxRock5 →
      buildVideoPipelineString platform linuxVariant sourceName deviceProp mode host port
          codec linuxH264Mode =
        buildVideoPipelineString platform LinuxGeneric sourceName deviceProp mode host port
          codec linuxH264Mode) := by
  have e1 : ¬ (LinuxRaspi = LinuxJetson) := by decide
  have e2 : ¬ (LinuxRaspi = LinuxRock5) := by decide
  have e3 : ¬ (LinuxGeneric = LinuxJetson) := by decide
  have e4 : ¬ (LinuxGeneric = LinuxRock5) := by decide
  unfold buildVideoPipelineString buildLinuxVideoPipelineString
  refine ⟨?_, ?_⟩
  · simp only [if_neg e1, if_neg e2, if_neg e3, if_neg e4]
  · intro h1 h2
    simp only [if_neg h1, if_neg h2, if_neg e3, if_neg e4]

/-- C27 (witness). The variant value `other` on linux gives the generic VP8 output. -/
theorem raspi_variant_eq_generic_witness :
    buildVideoPipelineString "linux" "other" "v4l2src" "" ⟨"NV12", 640, 480, "30/1"⟩
        "10.0.0.5" 6000 CodecVP8 LinuxH264VAAPI =
      buildVideoPipelineString "linux" LinuxGeneric "v4l2src" "" ⟨"NV12", 640, 480, "30/1"⟩
        "10.0.0.5" 6000 CodecVP8 LinuxH264VAAPI :=
  (raspi_variant_eq_generic "linux" "other" "v4l2src" "" ⟨"NV12", 640, 480, "30/1"⟩
    "10.0.0.5" 6000 CodecVP8 LinuxH264VAAPI).2 (by decide) (by decide)


/-! ## Flattening of capability values -/

theorem extractStringValuesFrom_eq (elems : List Value) :
    extractStringValuesFrom elems = elems.flatMap extractStringValues := by
  induction elems with
  | nil => rfl
  | cons v rest ih => rw [extractStringValuesFrom, ih, List.flatMap_cons]

theorem extractIntValuesFrom_eq (elems : List Value) :
    extractIntValuesFrom elems = elems.flatMap extractIntValues := by
  induction elems with
  | nil => rfl
  | cons v rest ih => rw [extractIntValuesFrom, ih, List.flatMap_cons]

theorem extractFractionValuesFrom_eq (elems : List Value) :
    extractFractionValuesFrom elems = elems.flatMap extractFractionValues := by
  induction elems with
  | nil => rfl
  | cons v rest ih => rw [extractFractionValuesFrom, ih, List.flatMap_cons]

/-- C24 (counterexample). In the framerate flattening two scalars of the same kind, the
strings `30/1` and `abc`, flatten differently: the first to a one-element list, the second
to the empty list; a string is not a fraction value, and still `30/1` is kept. -/
theorem extractFractionValues_string_counterexample :
    extractFractionValues (.str "30/1") = ["30/1"] ∧
      extractFractionValues (.str "abc") = [] ∧
      Value.isFractionScalar (.str "30/1") = false := by
  decide

/-- C24 (amended). Field flattening maps a scalar of the kind of the field (a string for
`extractStringValues`, a value of one of the six integer types for `extractIntValues`,
a fraction value for `extractFractionValues`) to a one-element list; in addition
`extractFractionValues` maps a string that `parseFraction` accepts to the one-element list
holding that string unchanged, and a string that it rejects to the empty list; every other
scalar maps to the empty list; a list or an array of values maps to the concatenation, in
element order, of the flattenings of its elements, recursively, and a nil list or array to
the empty list; a list and an array with the same elements flatten to the same result. -/
theorem flattening_cases (v : Value) (s : String) (i : Int) (u : Nat) (num denom : Int)
    (elems : List Value) :
    (extractStringValues (.str s) = [s] ∧
      (v.isContainer = false → v.isStringScalar = false → extractStringValues v = [])) ∧
    (extractIntValues (.int i) = [i] ∧ extractIntValues (.int32 i) = [i] ∧
      extractIntValues (.int64 i) = [i] ∧ extractIntValues (.uint u) = [wrapInt u] ∧
      extractIntValues (.uint32 u) = [(u : Int)] ∧
      extractIntValues (.uint64 u) = [wrapInt u] ∧
      (v.isContainer = false → v.isIntScalar = false → extractIntValues v = [])) ∧
    (extractFractionValues (.fraction num denom) = [fractionString num denom] ∧
      extractFractionValues (.str s) = (if (parseFraction s).2 = none then [s] else []) ∧
      (v.isContainer = false → v.isFractionScalar = false → v.isStringScalar = false →
        extractFractionValues v = [])) ∧
    (extractStringValues (.list elems) = elems.flatMap extractStringValues ∧
      extractIntValues (.list elems) = elems.flatMap extractIntValues ∧
      extractFractionValues (.list elems) = elems.flatMap extractFractionValues) ∧
    (extractStringValues (.array elems) = extractStringValues (.list elems) ∧
      extractIntValues (.array elems) = extractIntValues (.list elems) ∧
      extractFractionValues (.array elems) = extractFractionValues (.list elems)) ∧
    (extractStringValues .listNil = [] ∧ extractStringValues .arrayNil = [] ∧
      extractIntValues .listNil = [] ∧ extractIntValues .arrayNil = [] ∧
      extractFractionValues .listNil = [] ∧ extractFractionValues .arrayNil = []) := by
  refine ⟨⟨?_, ?_⟩, ⟨?_, ?_, ?_, ?_, ?_, ?_, ?_⟩, ⟨?_, ?_, ?_⟩, ⟨?_, ?_, ?_⟩, ⟨?_, ?_, ?_⟩,
    ⟨?_, ?_, ?_, ?_, ?_, ?_⟩⟩
  · rw [extractStringValues]
  · intro hc hs
    cases v <;> first | rfl | exact Bool.noConfusion hc | exact Bool.noConfusion hs
  · rw [extractIntValues]
  · rw [extractIntValues]
  · rw [extractIntValues]
  · rw [extractIntValues]
  · rw [extractIntValues]
  · rw [extractIntValues]
  · intro hc hs
    cases v <;> first | rfl | exact Bool.noConfusion hc | exact Bool.noConfusion hs
  · rw [extractFractionValues]
  · rw [extractFractionValues]
  · intro hc hf hs
    cases v <;>
      first | rfl | exact Bool.noConfusion hc | exact Bool.noConfusion hs | exact Bool.noConfusion hf
  · rw [extractStringValues, extractStringValuesFrom_eq]
  · rw [extractIntValues, extractIntValuesFrom_eq]
  · rw [extractFractionValues, extractFractionValuesFrom_eq]
  · rw [extractStringValues, extractStringValues]
  · rw [extractIntValues, extractIntValues]
  · rw [extractFractionValues, extractFractionValues]
  · rfl
  · rfl
  · rfl
  · rfl
  · rfl
  · rfl

/-- C24 (witness). A fraction value in the format field is a scalar of another kind and
flattens to the empty list. -/
theorem flattening_cases_witness : extractStringValues (.fraction 30 1) = [] :=
  (flattening_cases (.fraction 30 1) "" 0 0 0 0 []).1.2 rfl rfl


/-! ## The stages of the audio pipelines -/

set_option maxRecDepth 100000 in
/-- The audio output split at the normalization caps, the encoder, the payloader and the
sink. -/
theorem buildAudio_decomposition (platform sourceName deviceProp host : String) (port : Int)
    (codec : AudioCodec) :
    ∃ pre mid : String,
      (mid = "queue max-size-buffers=1 leaky=downstream ! audioconvert ! audioresample" ∨
        mid = "audioconvert ! audioresample ! queue max-size-buffers=1 leaky=downstream") ∧
      buildAudioPipelineString platform sourceName deviceProp host port codec =
        pre ++ " ! audio/x-raw,rate=48000,channels=2 ! " ++ mid ++ " ! " ++
          (if codec = AudioPCMU then "mulawenc ! rtppcmupay" else "opusenc ! rtpopuspay") ++
          " ! " ++ udpsinkStage host port := by
  unfold buildAudioPipelineString buildLinuxAudioPipelineString buildDarwinAudioPipelineString
    devicePropPrefix udpsinkStage
  by_cases hp : platform = "linux"
  · by_cases hd : deviceProp = ""
    · refine ⟨sourceName ++ " do-timestamp=true",
        "audioconvert ! audioresample ! queue max-size-buffers=1 leaky=downstream",
        Or.inr rfl, ?_⟩
      by_cases hc : codec = AudioPCMU <;>
        simp only [hp, hd, hc, if_true, if_false] <;>
        apply String.ext <;>
        simp only [String.data_append, List.append_assoc, List.cons_append, List.nil_append,
          string_empty_data]
    · refine ⟨sourceName ++ " do-timestamp=true " ++ deviceProp,
        "audioconvert ! audioresample ! queue max-size-buffers=1 leaky=downstream",
        Or.inr rfl, ?_⟩
      by_cases hc : codec = AudioPCMU <;>
        simp only [hp, hd, hc, if_true, if_false] <;>
        apply String.ext <;>
        simp only [String.data_append, List.append_assoc, List.cons_append, List.nil_append,
          string_empty_data]
  · refine ⟨sourceName ++ " " ++ (if deviceProp = "" then "" else deviceProp ++ " ") ++
        "do-timestamp=true",
      "queue max-size-buffers=1 leaky=downstream ! audioconvert ! audioresample",
      Or.inl rfl, ?_⟩
    by_cases hc : codec = AudioPCMU <;>
      simp only [hp, hc, if_true, if_false] <;>
      apply String.ext <;>
      simp only [String.data_append, List.append_assoc, List.cons_append, List.nil_append,
        string_empty_data]

set_option maxRecDepth 100000 in
/-- The number of occurrences of an encoder name in the audio output, when the inserted
texts hold none. -/
theorem buildAudio_encoder_count (p : String) (hp : p = "mulawenc" ∨ p = "opusenc")
    (platform sourceName deviceProp host : String) (port : Int) (codec : AudioCodec)
    (h1 : occurrencesIn p.data sourceName.data = 0)
    (h2 : occurrencesIn p.data deviceProp.data = 0)
    (h3 : occurrencesIn p.data host.data = 0) :
    occurrencesIn p.data
        (buildAudioPipelineString platform sourceName deviceProp host port codec).data =
      if (codec = AudioPCMU ↔ p = "mulawenc") then 1 else 0 := by
  unfold buildAudioPipelineString buildLinuxAudioPipelineString buildDarwinAudioPipelineString
    devicePropPrefix
  have e : ¬ ("opusenc" = "mulawenc") := by decide
  rcases hp with hp | hp <;> subst hp <;>
    simp only [String.data_append] at h1 h2 h3 <;>
    by_cases hpl : platform = "linux" <;> by_cases hd : deviceProp = "" <;>
    by_cases hc : codec = AudioPCMU <;>
    simp only [hpl, hd, hc, e, if_true, if_false, iff_true, iff_false, true_iff, false_iff,
      not_true_eq_false, not_false_eq_true] <;>
    simp (disch := decide) only [String.data_append, List.append_assoc, string_empty_data,
      List.nil_append, occ_lit, occ_var_lit, occ_var_end, occ_fmtInt, h1, h2, h3] <;>
    decide

/-- C21. For every platform, audio codec, source name, device fragment, host and port, the
output of `buildAudioPipelineString` is a text `pre`, the stage
`audio/x-raw,rate=48000,channels=2`, the conversion and queue stages, then the encoder
stage directly followed by the payloader stage (`mulawenc ! rtppcmupay` for PCMU,
`opusenc ! rtpopuspay` otherwise), directly followed by the last stage
`udpsink host=<host> port=<port> sync=false async=false`; and when the source name, the
device fragment and the host hold no encoder name, the encoder of the codec occurs once
and the other encoder not at all. -/
theorem buildAudioPipelineString_stages (platform sourceName deviceProp host : String)
    (port : Int) (codec : AudioCodec) :
    (∃ pre mid : String,
      (mid = "queue max-size-buffers=1 leaky=downstream ! audioconvert ! audioresample" ∨
        mid = "audioconvert ! audioresample ! queue max-size-buffers=1 leaky=downstream") ∧
      buildAudioPipelineString platform sourceName deviceProp host port codec =
        pre ++ " ! audio/x-raw,rate=48000,channels=2 ! " ++ mid ++ " ! " ++
          (if codec = AudioPCMU then "mulawenc ! rtppcmupay" else "opusenc ! rtpopuspay") ++
          " ! " ++ udpsinkStage host port) ∧
    endsWith (buildAudioPipelineString platform sourceName deviceProp host port codec)
      (" ! " ++ (if codec = AudioPCMU then "mulawenc ! rtppcmupay"
        else "opusenc ! rtpopuspay") ++ " ! " ++ udpsinkStage host port) ∧
    (¬ containsText sourceName "mulawenc" → ¬ containsText deviceProp "mulawenc" →
      ¬ containsText host "mulawenc" →
      occurrences "mulawenc"
          (buildAudioPipelineString platform sourceName deviceProp host port codec) =
        if codec = AudioPCMU then 1 else 0) ∧
    (¬ containsText sourceName "opusenc" → ¬ containsText deviceProp "opusenc" →
      ¬ containsText host "opusenc" →
      occurrences "opusenc"
          (buildAudioPipelineString platform sourceName deviceProp host port codec) =
        if codec = AudioPCMU then 0 else 1) := by
  refine ⟨buildAudio_decomposition platform sourceName deviceProp host port codec, ?_, ?_, ?_⟩
  · obtain ⟨pre, mid, _, h⟩ :=
      buildAudio_decomposition platform sourceName deviceProp host port codec
    unfold endsWith
    rw [h]
    refine ⟨(pre ++ " ! audio/x-raw,rate=48000,channels=2 ! " ++ mid).data, ?_⟩
    simp only [String.data_append, List.append_assoc]
  · intro h1 h2 h3
    unfold occurrences
    rw [buildAudio_encoder_count "mulawenc" (Or.inl rfl) platform sourceName deviceProp host
      port codec (occurrences_eq_zero_of_not_contains _ _ h1)
      (occurrences_eq_zero_of_not_contains _ _ h2)
      (occurrences_eq_zero_of_not_contains _ _ h3)]
    by_cases hc : codec = AudioPCMU <;> simp only [hc, if_true, if_false, iff_true, true_iff]
  · intro h1 h2 h3
    have e : ¬ ("opusenc" = "mulawenc") := by decide
    unfold occurrences
    rw [buildAudio_encoder_count "opusenc" (Or.inr rfl) platform sourceName deviceProp host
      port codec (occurrences_eq_zero_of_not_contains _ _ h1)
      (occurrences_eq_zero_of_not_contains _ _ h2)
      (occurrences_eq_zero_of_not_contains _ _ h3)]
    by_cases hc : codec = AudioPCMU <;>
      simp only [hc, e, if_true, if_false, iff_false, false_iff, iff_true, true_iff,
        not_true_eq_false, not_false_eq_true]

/-- C21 (witness). The Linux PCMU output for the source `pulsesrc` and a device fragment
holds `mulawenc` once. -/
theorem buildAudioPipelineString_stages_witness :
    occurrences "mulawenc" (buildAudioPipelineString "linux" "pulsesrc"
      "device=\"hw:1\"" "10.0.0.5" 5004 AudioPCMU) = 1 :=
  ((buildAudioPipelineString_stages "linux" "pulsesrc" "device=\"hw:1\"" "10.0.0.5" 5004
    AudioPCMU).2.2.1 (by unfold containsText; decide) (by unfold containsText; decide)
    (by unfold containsText; decide)).trans (if_pos rfl)


/-! ## The Darwin chains -/

theorem infix_of_isPrefix {p a t : List Char} (h : p <+: t) : p <:+: a ++ t :=
  infix_append_of_infix_right h.isInfix

set_option maxRecDepth 100000 in
/-- The caps and encoder stages of the Darwin chains for H264 (the default) and H265. -/
theorem buildDarwin_hardware_stages (sourceName devicePrefix : String) (mode : Mode)
    (host : String) (port : Int) :
    containsText (buildDarwinVideoPipelineString sourceName devicePrefix mode host port
        CodecH264)
        ("! " ++ rawCaps mode ++ ",format=" ++ mode.Format ++
          " ! queue max-size-buffers=1 leaky=downstream ! vtenc_h264_hw ") ∧
      containsText (buildDarwinVideoPipelineString sourceName devicePrefix mode host port
        CodecH265)
        ("! " ++ rawCaps mode ++ ",format=" ++ mode.Format ++
          " ! queue max-size-buffers=1 leaky=downstream ! vtenc_h265_hw ") := by
  have e1 : ¬ (CodecH264 = CodecH265) := by decide
  have e2 : ¬ (CodecH264 = CodecVP8) := by decide
  have e3 : ¬ (CodecH264 = CodecVP9) := by decide
  have e4 : ¬ (CodecH264 = CodecAV1) := by decide
  unfold buildDarwinVideoPipelineString containsText rawCaps
  simp only [if_neg e1, if_neg e2, if_neg e3, if_neg e4, if_true]
  constructor <;>
    simp only [String.data_append, List.append_assoc] <;>
    apply infix_append_of_infix_right <;>
    apply infix_append_of_infix_right <;>
    apply infix_of_isPrefix <;>
    simp only [List.cons_append, List.nil_append, List.cons_prefix_cons,
      List.prefix_append_right_inj, List.nil_prefix, and_self, true_and]

set_option maxRecDepth 100000 in
/-- The caps, conversion and encoder stages of the Darwin chains for VP8, VP9 and AV1. -/
theorem buildDarwin_software_stages (sourceName devicePrefix : String) (mode : Mode)
    (host : String) (port : Int) :
    containsText (buildDarwinVideoPipelineString sourceName devicePrefix mode host port
        CodecVP8)
        ("! " ++ rawCaps mode ++ " ! videoconvert ! video/x-raw,format=I420 ! " ++
          "queue max-size-buffers=1 leaky=downstream ! vp8enc ") ∧
      containsText (buildDarwinVideoPipelineString sourceName devicePrefix mode host port
        CodecVP9)
        ("! " ++ rawCaps mode ++ " ! videoconvert ! video/x-raw,format=I420 ! " ++
          "queue max-size-buffers=1 leaky=downstream ! vp9enc ") ∧
      containsText (buildDarwinVideoPipelineString sourceName devicePrefix mode host port
        CodecAV1)
        ("! " ++ rawCaps mode ++ " ! videoconvert ! video/x-raw,format=I420 ! " ++
          "queue max-size-buffers=1 leaky=downstream ! svtav1enc ") := by
  have e1 : ¬ (CodecVP8 = CodecH265) := by decide
  have e2 : ¬ (CodecVP9 = CodecH265) := by decide
  have e3 : ¬ (CodecVP9 = CodecVP8) := by decide
  have e4 : ¬ (CodecAV1 = CodecH265) := by decide
  have e5 : ¬ (CodecAV1 = CodecVP8) := by decide
  have e6 : ¬ (CodecAV1 = CodecVP9) := by decide
  unfold buildDarwinVideoPipelineString containsText rawCaps
  simp only [if_neg e1, if_neg e2, if_neg e3, if_neg e4, if_neg e5, if_neg e6, if_true]
  refine ⟨?_, ?_, ?_⟩ <;>
    simp only [String.data_append, List.append_assoc] <;>
    apply infix_append_of_infix_right <;>
    apply infix_append_of_infix_right <;>
    apply infix_of_isPrefix <;>
    simp only [List.cons_append, List.nil_append, List.cons_prefix_cons,
      List.prefix_append_right_inj, List.nil_prefix, and_self, true_and]

set_option maxRecDepth 100000 in
/-- The Darwin chains for H264 (the default) and H265 hold no `videoconvert` when the
inserted texts hold none. -/
theorem buildDarwin_videoconvert_count (sourceName deviceProp : String) (mode : Mode)
    (host : String) (port : Int)
    (h1 : occurrencesIn "videoconvert".data sourceName.data = 0)
    (h2 : occurrencesIn "videoconvert".data deviceProp.data = 0)
    (h3 : occurrencesIn "videoconvert".data mode.Framerate.data = 0)
    (h4 : occurrencesIn "videoconvert".data mode.Format.data = 0)
    (h5 : occurrencesIn "videoconvert".data host.data = 0) :
    occurrencesIn "videoconvert".data (buildDarwinVideoPipelineString sourceName
        (devicePropPrefix deviceProp) mode host port CodecH264).data = 0 ∧
      occurrencesIn "videoconvert".data (buildDarwinVideoPipelineString sourceName
        (devicePropPrefix deviceProp) mode host port CodecH265).data = 0 := by
  have e1 : ¬ (CodecH264 = CodecH265) := by decide
  have e2 : ¬ (CodecH264 = CodecVP8) := by decide
  have e3 : ¬ (CodecH264 = CodecVP9) := by decide
  have e4 : ¬ (CodecH264 = CodecAV1) := by decide
  unfold buildDarwinVideoPipelineString devicePropPrefix
  simp only [if_neg e1, if_neg e2, if_neg e3, if_neg e4, if_true]
  simp only [String.data_append] at h1 h2 h3 h4 h5
  refine ⟨?_, ?_⟩ <;>
    split_ifs <;>
    simp (disch := decide) only [String.data_append, List.append_assoc, string_empty_data,
      List.nil_append, occ_lit, occ_var_lit, occ_var_end, occ_fmtInt, h1, h2, h3, h4, h5] <;>
    decide

/-- The Darwin chains for VP8, VP9 and AV1 do not read the format of the mode. -/
theorem buildDarwin_software_format (sourceName devicePrefix : String) (m1 m2 : Mode)
    (host : String) (port : Int) (codec : Codec)
    (hc : codec = CodecVP8 ∨ codec = CodecVP9 ∨ codec = CodecAV1)
    (hw : m1.Width = m2.Width) (hh : m1.Height = m2.Height)
    (hf : m1.Framerate = m2.Framerate) :
    buildDarwinVideoPipelineString sourceName devicePrefix m1 host port codec =
      buildDarwinVideoPipelineString sourceName devicePrefix m2 host port codec := by
  have e1 : ¬ (CodecVP8 = CodecH265) := by decide
  have e2 : ¬ (CodecVP9 = CodecH265) := by decide
  have e3 : ¬ (CodecVP9 = CodecVP8) := by decide
  have e4 : ¬ (CodecAV1 = CodecH265) := by decide
  have e5 : ¬ (CodecAV1 = CodecVP8) := by decide
  have e6 : ¬ (CodecAV1 = CodecVP9) := by decide
  unfold buildDarwinVideoPipelineString
  rcases hc with hc | hc | hc <;> subst hc <;>
    simp only [if_neg e1, if_neg e2, if_neg e3, if_neg e4, if_neg e5, if_neg e6, if_true] <;>
    rw [hw, hh, hf]

/-- C23. On darwin (every platform other than linux), for every mode: the outputs for H264
and H265 hold the caps stage `video/x-raw,width=W,height=H,framerate=F,format=<format of
the mode>` followed, through one queue stage, by the hardware encoder `vtenc_h264_hw`,
resp. `vtenc_h265_hw`, and hold no `videoconvert` when the source name, the device
fragment, the framerate, the format and the host hold none; the outputs for VP8, VP9 and
AV1 hold the caps stage `video/x-raw,width=W,height=H,framerate=F` without the format,
directly followed by `videoconvert ! video/x-raw,format=I420`, a queue stage and the
software encoder `vp8enc`, `vp9enc`, resp. `svtav1enc`, and are the same for two modes that
differ only in the format. -/
theorem darwin_encoder_paths (platform : String) (linuxVariant : LinuxVariant)
    (sourceName deviceProp : String) (mode : Mode) (host : String) (port : Int)
    (linuxH264Mode : LinuxH264Mode) (hp : platform ≠ "linux") :
    (containsText (buildVideoPipelineString platform linuxVariant sourceName deviceProp mode
        host port CodecH264 linuxH264Mode)
        ("! " ++ rawCaps mode ++ ",format=" ++ mode.Format ++
          " ! queue max-size-buffers=1 leaky=downstream ! vtenc_h264_hw ") ∧
      containsText (buildVideoPipelineString platform linuxVariant sourceName deviceProp mode
        host port CodecH265 linuxH264Mode)
        ("! " ++ rawCaps mode ++ ",format=" ++ mode.Format ++
          " ! queue max-size-buffers=1 leaky=downstream ! vtenc_h265_hw ")) ∧
    (¬ containsText sourceName "videoconvert" → ¬ containsText deviceProp "videoconvert" →
      ¬ containsText mode.Framerate "videoconvert" →
      ¬ containsText mode.Format "videoconvert" → ¬ containsText host "videoconvert" →
      ¬ containsText (buildVideoPipelineString platform linuxVariant sourceName deviceProp
          mode host port CodecH264 linuxH264Mode) "videoconvert" ∧
        ¬ containsText (buildVideoPipelineString platform linuxVariant sourceName deviceProp
          mode host port CodecH265 linuxH264Mode) "videoconvert") ∧
    (containsText (buildVideoPipelineString platform linuxVariant sourceName deviceProp mode
        host port CodecVP8 linuxH264Mode)
        ("! " ++ rawCaps mode ++ " ! videoconvert ! video/x-raw,format=I420 ! " ++
          "queue max-size-buffers=1 leaky=downstream ! vp8enc ") ∧
      containsText (buildVideoPipelineString platform linuxVariant sourceName deviceProp mode
        host port CodecVP9 linuxH264Mode)
        ("! " ++ rawCaps mode ++ " ! videoconvert ! video/x-raw,format=I420 ! " ++
          "queue max-size-buffers=1 leaky=downstream ! vp9enc ") ∧
      containsText (buildVideoPipelineString platform linuxVariant sourceName deviceProp mode
        host port CodecAV1 linuxH264Mode)
        ("! " ++ rawCaps mode ++ " ! videoconvert ! video/x-raw,format=I420 ! " ++
          "queue max-size-buffers=1 leaky=downstream ! svtav1enc ")) ∧
    (∀ (codec : Codec) (mode2 : Mode),
      codec = CodecVP8 ∨ codec = CodecVP9 ∨ codec = CodecAV1 →
      mode.Width = mode2.Width → mode.Height = mode2.Height →
      mode.Framerate = mode2.Framerate →
      buildVideoPipelineString platform linuxVariant sourceName deviceProp mode host port
          codec linuxH264Mode =
        buildVideoPipelineString platform linuxVariant sourceName deviceProp mode2 host port
          codec linuxH264Mode) := by
  have hd : ∀ (codec : Codec) (m : Mode),
      buildVideoPipelineString platform linuxVariant sourceName deviceProp m host port codec
          linuxH264Mode =
        buildDarwinVideoPipelineString sourceName (devicePropPrefix deviceProp) m host port
          codec := by
    intro codec m
    unfold buildVideoPipelineString
    simp only [if_neg hp]
  refine ⟨?_, ?_, ?_, ?_⟩
  · rw [hd, hd]
    exact buildDarwin_hardware_stages sourceName (devicePropPrefix deviceProp) mode host port
  · intro h1 h2 h3 h4 h5
    rw [hd, hd]
    obtain ⟨a, b⟩ := buildDarwin_videoconvert_count sourceName deviceProp mode host port
      (occurrences_eq_zero_of_not_contains _ _ h1)
      (occurrences_eq_zero_of_not_contains _ _ h2)
      (occurrences_eq_zero_of_not_contains _ _ h3)
      (occurrences_eq_zero_of_not_contains _ _ h4)
      (occurrences_eq_zero_of_not_contains _ _ h5)
    exact ⟨(occurrencesIn_eq_zero_iff _ _).mp a, (occurrencesIn_eq_zero_iff _ _).mp b⟩
  · rw [hd, hd, hd]
    exact buildDarwin_software_stages sourceName (devicePropPrefix deviceProp) mode host port
  · intro codec mode2 hc hw hh hf
    rw [hd, hd]
    exact buildDarwin_software_format sourceName (devicePropPrefix deviceProp) mode mode2 host
      port codec hc hw hh hf

/-- C23 (witness). On darwin the VP9 outputs for the modes NV12 and UYVY at 1280x720 30/1
are the same. -/
theorem darwin_encoder_paths_witness :
    buildVideoPipelineString "darwin" LinuxGeneric "avfvideosrc" "device-index=0"
        ⟨"NV12", 1280, 720, "30/1"⟩ "10.0.0.5" 6000 CodecVP9 LinuxH264VAAPI =
      buildVideoPipelineString "darwin" LinuxGeneric "avfvideosrc" "device-index=0"
        ⟨"UYVY", 1280, 720, "30/1"⟩ "10.0.0.5" 6000 CodecVP9 LinuxH264VAAPI :=
  (darwin_encoder_paths "darwin" LinuxGeneric "avfvideosrc" "device-index=0"
    ⟨"NV12", 1280, 720, "30/1"⟩ "10.0.0.5" 6000 LinuxH264VAAPI (by decide)).2.2.2 CodecVP9
    ⟨"UYVY", 1280, 720, "30/1"⟩ (Or.inr (Or.inl rfl)) rfl rfl rfl


/-! ## The Linux H264 sub-modes -/

theorem infix_append_left_of_infix {p l t : List Char} (h : p <:+: l) : p <:+: l ++ t :=
  h.trans (List.infix_append' [] l t)

/-- The first stage of a text that starts with a space-free text followed by a space. -/
theorem splitStagesAux_head_of_clean (rest : List Char) :
    ∀ src : List Char, ' ' ∉ src →
      ∃ h ps, splitStagesAux 0 (src ++ ' ' :: rest) = (src ++ h) :: ps ∧
        (h = [] ∨ ∃ t, h = ' ' :: t) := by
  intro src
  induction src with
  | nil =>
    intro _
    by_cases hc : (" ! ".data).isPrefixOf (' ' :: rest) = true
    · refine ⟨[], splitStagesAux 2 rest, ?_, Or.inl rfl⟩
      rw [List.nil_append, splitStagesAux, if_pos hc]
      rfl
    · obtain ⟨p, ps, _, h2⟩ := splitStages_cons_of_not_connector ' ' rest
        (Bool.eq_false_iff.mpr hc)
      exact ⟨' ' :: p, ps, h2, Or.inr ⟨p, rfl⟩⟩
  | cons c cs ih =>
    intro hs
    have hc : c ≠ ' ' := fun e => hs (e ▸ List.mem_cons_self _ _)
    have hcs : ' ' ∉ cs := fun h => hs (List.mem_cons_of_mem _ h)
    obtain ⟨h, ps, h1, h2⟩ := ih hcs
    obtain ⟨p, ps1, e1, e2⟩ := splitStages_cons_of_not_connector c (cs ++ ' ' :: rest)
      (not_connector_of_head c _ hc)
    rw [h1] at e1
    injection e1 with e3 e4
    refine ⟨h, ps, ?_, h2⟩
    rw [List.cons_append, e2, ← e3, ← e4]
    rfl

theorem takeWhile_clean (src h : List Char) (hs : ' ' ∉ src) (hh : h = [] ∨ ∃ t, h = ' ' :: t) :
    (src ++ h).takeWhile (fun c => c ≠ ' ') = src := by
  induction src with
  | nil =>
    rcases hh with hh | ⟨t, hh⟩ <;> subst hh
    · rfl
    · simp [List.takeWhile]
  | cons c cs ih =>
    have hc : c ≠ ' ' := fun e => hs (e ▸ List.mem_cons_self _ _)
    have hcs : ' ' ∉ cs := fun h => hs (List.mem_cons_of_mem _ h)
    simp only [List.cons_append, List.takeWhile, ne_eq, hc, not_false_eq_true, decide_True]
    exact congrArg _ (ih hcs)

/-- The source element of a text that starts with a space-free name and a space. -/
theorem sourceElement_of_startsWith (out src : String) (h : startsWith out (src ++ " "))
    (hs : ' ' ∉ src.data) : sourceElement out = src := by
  obtain ⟨t, ht⟩ := h
  have e : out.data = src.data ++ ' ' :: t := by
    rw [← ht, String.data_append, List.append_assoc]
    rfl
  obtain ⟨hd, ps, h1, h2⟩ := splitStagesAux_head_of_clean t src.data hs
  unfold sourceElement splitStages elementName
  rw [e, h1]
  simp only [List.map_cons, List.headD_cons]
  rw [takeWhile_clean src.data hd hs h2]

/-- On linux with a variant other than jetson and rock5, the codec H264 is built by
`buildLinuxH264PipelineString`. -/
theorem buildVideo_linux_h264_eq (linuxVariant : LinuxVariant) (sourceName deviceProp : String)
    (mode : Mode) (host : String) (port : Int) (linuxH264Mode : LinuxH264Mode)
    (hv1 : linuxVariant ≠ LinuxJetson) (hv2 : linuxVariant ≠ LinuxRock5) :
    buildVideoPipelineString "linux" linuxVariant sourceName deviceProp mode host port
        CodecH264 linuxH264Mode =
      buildLinuxH264PipelineString sourceName (devicePropPrefix deviceProp) mode host port
        linuxH264Mode := by
  unfold buildVideoPipelineString buildLinuxVideoPipelineString
    buildLinuxGenericVideoPipelineString
  simp only [if_true, if_neg hv1, if_neg hv2]

set_option maxRecDepth 100000 in
/-- The start and the encoder stages of the sub-mode vaapi. -/
theorem linuxH264_vaapi_stages (sourceName devicePrefix : String) (mode : Mode)
    (host : String) (port : Int) :
    startsWith (buildLinuxH264PipelineString sourceName devicePrefix mode host port
        LinuxH264VAAPI)
        (sourceName ++ " do-timestamp=true " ++ devicePrefix ++
          "io-mode=dmabuf ! vaapipostproc ! ") ∧
      containsText (buildLinuxH264PipelineString sourceName devicePrefix mode host port
        LinuxH264VAAPI) " ! vaapih264enc ! h264parse ! " := by
  have e1 : ¬ (LinuxH264VAAPI = LinuxH264RaspiV4L2) := by decide
  have e2 : ¬ (LinuxH264VAAPI = LinuxH264Libcamera) := by decide
  have e3 : ¬ (LinuxH264VAAPI = LinuxH264CameraH264) := by decide
  unfold buildLinuxH264PipelineString startsWith containsText
  simp only [if_neg e1, if_neg e2, if_neg e3]
  constructor
  · simp only [String.data_append, List.append_assoc, List.cons_append, List.nil_append,
      List.cons_prefix_cons, List.prefix_append_right_inj, List.nil_prefix, and_self, true_and]
  · simp only [String.data_append, List.append_assoc]
    repeat (first | exact infix_append_left_of_infix (by decide) | apply infix_append_of_infix_right)

set_option maxRecDepth 100000 in
/-- The start and the encoder and capsfilter stages of the sub-mode raspi-v4l2. -/
theorem linuxH264_raspi_stages (sourceName devicePrefix : String) (mode : Mode)
    (host : String) (port : Int) :
    startsWith (buildLinuxH264PipelineString sourceName devicePrefix mode host port
        LinuxH264RaspiV4L2)
        (sourceName ++ " do-timestamp=true " ++ devicePrefix ++
          "io-mode=dmabuf ! video/x-raw,") ∧
      containsText (buildLinuxH264PipelineString sourceName devicePrefix mode host port
        LinuxH264RaspiV4L2)
        (" ! v4l2h264enc capture-io-mode=dmabuf output-io-mode=dmabuf ! " ++
          "capsfilter caps=video/x-h264,level=(string)4.1 ! ") := by
  unfold buildLinuxH264PipelineString startsWith containsText
  simp only [if_true]
  constructor
  · simp only [String.data_append, List.append_assoc, List.cons_append, List.nil_append,
      List.cons_prefix_cons, List.prefix_append_right_inj, List.nil_prefix, and_self, true_and]
  · simp only [String.data_append, List.append_assoc]
    repeat (first | exact infix_append_left_of_infix (by decide) | apply infix_append_of_infix_right)

set_option maxRecDepth 100000 in
/-- The start and the encoder and capsfilter stages of the sub-mode libcamera. -/
theorem linuxH264_libcamera_stages (sourceName devicePrefix : String) (mode : Mode)
    (host : String) (port : Int) :
    startsWith (buildLinuxH264PipelineString sourceName devicePrefix mode host port
        LinuxH264Libcamera) ("libcamerasrc " ++ devicePrefix ++ "! video/x-raw,") ∧
      containsText (buildLinuxH264PipelineString sourceName devicePrefix mode host port
        LinuxH264Libcamera)
        (" ! v4l2h264enc extra-controls=" ++
          "\"encode,h264_profile=4,h264_level=12,video_bitrate=20000000\" ! " ++
          "capsfilter caps=video/x-h264,level=(string)4.1 ! ") := by
  have e1 : ¬ (LinuxH264Libcamera = LinuxH264RaspiV4L2) := by decide
  unfold buildLinuxH264PipelineString startsWith containsText
  simp only [if_neg e1, if_true]
  constructor
  · simp only [String.data_append, List.append_assoc, List.cons_append, List.nil_append,
      List.cons_prefix_cons, List.prefix_append_right_inj, List.nil_prefix, and_self, true_and]
  · simp only [String.data_append, List.append_assoc]
    repeat (first | exact infix_append_left_of_infix (by decide) | apply infix_append_of_infix_right)

set_option maxRecDepth 100000 in
/-- The sub-mode camera-h264 from its source to its payloader. -/
theorem linuxH264_camera_stages (sourceName devicePrefix : String) (mode : Mode)
    (host : String) (port : Int) :
    startsWith (buildLinuxH264PipelineString sourceName devicePrefix mode host port
        LinuxH264CameraH264)
        (sourceName ++ " do-timestamp=true " ++ devicePrefix ++ "! video/x-h264,width=" ++
          fmtInt mode.Width ++ ",height=" ++ fmtInt mode.Height ++ ",framerate=" ++
          mode.Framerate ++ ",stream-format=byte-stream ! " ++
          "queue max-size-buffers=1 leaky=downstream ! h264parse ! rtph264pay ") := by
  have e1 : ¬ (LinuxH264CameraH264 = LinuxH264RaspiV4L2) := by decide
  have e2 : ¬ (LinuxH264CameraH264 = LinuxH264Libcamera) := by decide
  unfold buildLinuxH264PipelineString startsWith
  simp only [if_neg e1, if_neg e2, if_true]
  simp only [String.data_append, List.append_assoc, List.cons_append, List.nil_append,
    List.cons_prefix_cons, List.prefix_append_right_inj, List.nil_prefix, and_self, true_and]

set_option maxRecDepth 100000 in
/-- The sub-mode camera-h264 holds no `h264enc` when the inserted texts hold none. -/
theorem linuxH264_camera_encoder_count (sourceName deviceProp : String) (mode : Mode)
    (host : String) (port : Int)
    (h1 : occurrencesIn "h264enc".data sourceName.data = 0)
    (h2 : occurrencesIn "h264enc".data deviceProp.data = 0)
    (h3 : occurrencesIn "h264enc".data mode.Framerate.data = 0)
    (h4 : occurrencesIn "h264enc".data host.data = 0) :
    occurrencesIn "h264enc".data (buildLinuxH264PipelineString sourceName
        (devicePropPrefix deviceProp) mode host port LinuxH264CameraH264).data = 0 := by
  have e1 : ¬ (LinuxH264CameraH264 = LinuxH264RaspiV4L2) := by decide
  have e2 : ¬ (LinuxH264CameraH264 = LinuxH264Libcamera) := by decide
  unfold buildLinuxH264PipelineString devicePropPrefix
  simp only [if_neg e1, if_neg e2, if_true]
  simp only [String.data_append] at h1 h2 h3 h4
  split_ifs <;>
    simp (disch := decide) only [String.data_append, List.append_assoc, string_empty_data,
      List.nil_append, occ_lit, occ_var_lit, occ_var_end, occ_fmtInt, h1, h2, h3, h4] <;>
    decide

set_option maxRecDepth 100000 in
/-- The outputs of the sub-modes vaapi, raspi-v4l2 and camera-h264 start with the source
name and a space, the output of libcamera with `libcamerasrc` and a space. -/
theorem linuxH264_starts (sourceName devicePrefix : String) (mode : Mode)
    (host : String) (port : Int) :
    startsWith (buildLinuxH264PipelineString sourceName devicePrefix mode host port
        LinuxH264VAAPI) (sourceName ++ " ") ∧
      startsWith (buildLinuxH264PipelineString sourceName devicePrefix mode host port
        LinuxH264RaspiV4L2) (sourceName ++ " ") ∧
      startsWith (buildLinuxH264PipelineString sourceName devicePrefix mode host port
        LinuxH264CameraH264) (sourceName ++ " ") ∧
      startsWith (buildLinuxH264PipelineString sourceName devicePrefix mode host port
        LinuxH264Libcamera) ("libcamerasrc" ++ " ") := by
  have e1 : ¬ (LinuxH264VAAPI = LinuxH264RaspiV4L2) := by decide
  have e2 : ¬ (LinuxH264VAAPI = LinuxH264Libcamera) := by decide
  have e3 : ¬ (LinuxH264VAAPI = LinuxH264CameraH264) := by decide
  have e4 : ¬ (LinuxH264CameraH264 = LinuxH264RaspiV4L2) := by decide
  have e5 : ¬ (LinuxH264CameraH264 = LinuxH264Libcamera) := by decide
  have e6 : ¬ (LinuxH264Libcamera = LinuxH264RaspiV4L2) := by decide
  unfold buildLinuxH264PipelineString startsWith
  simp only [if_neg e1, if_neg e2, if_neg e3, if_neg e4, if_neg e5, if_neg e6, if_true]
  refine ⟨?_, ?_, ?_, ?_⟩ <;>
    simp only [String.data_append, List.append_assoc, List.cons_append, List.nil_append,
      List.cons_prefix_cons, List.prefix_append_right_inj, List.nil_prefix, and_self, true_and]

set_option maxRecDepth 100000 in
/-- C22 (counterexample). For platform linux, variant generic, codec H264, the source
`v4l2src`, a device fragment and the mode NV12 1280x720 30/1, the outputs of the sub-modes
vaapi and raspi-v4l2 have the same source element, `v4l2src`, and so has the output of
camera-h264: the source elements of the four outputs are not pairwise different. -/
theorem linux_h264_source_elements_counterexample :
    sourceElement (buildVideoPipelineString "linux" LinuxGeneric "v4l2src"
        "device=\"/dev/video0\"" ⟨"NV12", 1280, 720, "30/1"⟩ "10.0.0.5" 6000 CodecH264
        LinuxH264VAAPI) = "v4l2src" ∧
      sourceElement (buildVideoPipelineString "linux" LinuxGeneric "v4l2src"
        "device=\"/dev/video0\"" ⟨"NV12", 1280, 720, "30/1"⟩ "10.0.0.5" 6000 CodecH264
        LinuxH264RaspiV4L2) = "v4l2src" ∧
      sourceElement (buildVideoPipelineString "linux" LinuxGeneric "v4l2src"
        "device=\"/dev/video0\"" ⟨"NV12", 1280, 720, "30/1"⟩ "10.0.0.5" 6000 CodecH264
        LinuxH264CameraH264) = "v4l2src" ∧
      sourceElement (buildVideoPipelineString "linux" LinuxGeneric "v4l2src"
        "device=\"/dev/video0\"" ⟨"NV12", 1280, 720, "30/1"⟩ "10.0.0.5" 6000 CodecH264
        LinuxH264Libcamera) = "libcamerasrc" := by
  decide

/-- C22 (amended). For platform linux, a variant other than jetson and rock5 (generic,
raspi), and codec H264: the sub-mode vaapi gives `<source> do-timestamp=true <device>
io-mode=dmabuf ! vaapipostproc` with `vaapih264enc ! h264parse`; raspi-v4l2 gives
`<source> do-timestamp=true <device> io-mode=dmabuf` directly followed by raw caps, with
`v4l2h264enc` directly followed by `capsfilter caps=video/x-h264,level=(string)4.1`;
libcamera gives the source `libcamerasrc` with `v4l2h264enc` directly followed by the same
capsfilter; camera-h264 gives `<source> do-timestamp=true <device>`, the caps
`video/x-h264,width=W,height=H,framerate=F,stream-format=byte-stream`, a queue stage,
`h264parse` and the payloader, and no `h264enc` when the source name, the device fragment,
the framerate and the host hold none. The source element is the given source name (when
it holds no space) for vaapi, raspi-v4l2 and camera-h264 alike, and `libcamerasrc` for
libcamera. -/
theorem linux_h264_submodes (linuxVariant : LinuxVariant) (sourceName deviceProp : String)
    (mode : Mode) (host : String) (port : Int)
    (hv1 : linuxVariant ≠ LinuxJetson) (hv2 : linuxVariant ≠ LinuxRock5) :
    (startsWith (buildVideoPipelineString "linux" linuxVariant sourceName deviceProp mode host
        port CodecH264 LinuxH264VAAPI)
        (sourceName ++ " do-timestamp=true " ++ devicePropPrefix deviceProp ++
          "io-mode=dmabuf ! vaapipostproc ! ") ∧
      containsText (buildVideoPipelineString "linux" linuxVariant sourceName deviceProp mode
        host port CodecH264 LinuxH264VAAPI) " ! vaapih264enc ! h264parse ! ") ∧
    (startsWith (buildVideoPipelineString "linux" linuxVariant sourceName deviceProp mode host
        port CodecH264 LinuxH264RaspiV4L2)
        (sourceName ++ " do-timestamp=true " ++ devicePropPrefix deviceProp ++
          "io-mode=dmabuf ! video/x-raw,") ∧
      containsText (buildVideoPipelineString "linux" linuxVariant sourceName deviceProp mode
        host port CodecH264 LinuxH264RaspiV4L2)
        (" ! v4l2h264enc capture-io-mode=dmabuf output-io-mode=dmabuf ! " ++
          "capsfilter caps=video/x-h264,level=(string)4.1 ! ")) ∧
    (startsWith (buildVideoPipelineString "linux" linuxVariant sourceName deviceProp mode host
        port CodecH264 LinuxH264Libcamera)
        ("libcamerasrc " ++ devicePropPrefix deviceProp ++ "! video/x-raw,") ∧
      containsText (buildVideoPipelineString "linux" linuxVariant sourceName deviceProp mode
        host port CodecH264 LinuxH264Libcamera)
        (" ! v4l2h264enc extra-controls=" ++
          "\"encode,h264_profile=4,h264_level=12,video_bitrate=20000000\" ! " ++
          "capsfilter caps=video/x-h264,level=(string)4.1 ! ")) ∧
    (startsWith (buildVideoPipelineString "linux" linuxVariant sourceName deviceProp mode host
        port CodecH264 LinuxH264CameraH264)
        (sourceName ++ " do-timestamp=true " ++ devicePropPrefix deviceProp ++
          "! video/x-h264,width=" ++ fmtInt mode.Width ++ ",height=" ++ fmtInt mode.Height ++
          ",framerate=" ++ mode.Framerate ++ ",stream-format=byte-stream ! " ++
          "queue max-size-buffers=1 leaky=downstream ! h264parse ! rtph264pay ") ∧
      (¬ containsText sourceName "h264enc" → ¬ containsText deviceProp "h264enc" →
        ¬ containsText mode.Framerate "h264enc" → ¬ containsText host "h264enc" →
        ¬ containsText (buildVideoPipelineString "linux" linuxVariant sourceName deviceProp
          mode host port CodecH264 LinuxH264CameraH264) "h264enc")) ∧
    (' ' ∉ sourceName.data →
      sourceElement (buildVideoPipelineString "linux" linuxVariant sourceName deviceProp mode
          host port CodecH264 LinuxH264VAAPI) = sourceName ∧
        sourceElement (buildVideoPipelineString "linux" linuxVariant sourceName deviceProp
          mode host port CodecH264 LinuxH264RaspiV4L2) = sourceName ∧
        sourceElement (buildVideoPipelineString "linux" linuxVariant sourceName deviceProp
          mode host port CodecH264 LinuxH264CameraH264) = sourceName) ∧
    sourceElement (buildVideoPipelineString "linux" linuxVariant sourceName deviceProp mode
      host port CodecH264 LinuxH264Libcamera) = "libcamerasrc" := by
  simp only [buildVideo_linux_h264_eq linuxVariant sourceName deviceProp mode host port _
    hv1 hv2]
  obtain ⟨s1, s2, s3, s4⟩ :=
    linuxH264_starts sourceName (devicePropPrefix deviceProp) mode host port
  refine ⟨linuxH264_vaapi_stages sourceName (devicePropPrefix deviceProp) mode host port,
    linuxH264_raspi_stages sourceName (devicePropPrefix deviceProp) mode host port,
    linuxH264_libcamera_stages sourceName (devicePropPrefix deviceProp) mode host port,
    ⟨linuxH264_camera_stages sourceName (devicePropPrefix deviceProp) mode host port, ?_⟩,
    ?_, ?_⟩
  · intro h1 h2 h3 h4
    exact (occurrencesIn_eq_zero_iff _ _).mp
      (linuxH264_camera_encoder_count sourceName deviceProp mode host port
        (occurrences_eq_zero_of_not_contains _ _ h1)
        (occurrences_eq_zero_of_not_contains _ _ h2)
        (occurrences_eq_zero_of_not_contains _ _ h3)
        (occurrences_eq_zero_of_not_contains _ _ h4))
  · intro hs
    exact ⟨sourceElement_of_startsWith _ _ s1 hs, sourceElement_of_startsWith _ _ s2 hs,
      sourceElement_of_startsWith _ _ s3 hs⟩
  · exact sourceElement_of_startsWith _ "libcamerasrc" s4 (by decide)

/-- C22 (witness). With the variant raspi and the source `v4l2src` the output of the
sub-mode camera-h264 has the source element `v4l2src`. -/
theorem linux_h264_submodes_witness :
    sourceElement (buildVideoPipelineString "linux" LinuxRaspi "v4l2src"
      "device=\"/dev/video0\"" ⟨"NV12", 1280, 720, "30/1"⟩ "10.0.0.5" 6000 CodecH264
      LinuxH264CameraH264) = "v4l2src" :=
  ((linux_h264_submodes LinuxRaspi "v4l2src" "device=\"/dev/video0\""
    ⟨"NV12", 1280, 720, "30/1"⟩ "10.0.0.5" 6000 (by decide) (by decide)).2.2.2.2.1
    (by decide)).2.2

end FpvCli
